import Mathlib

/-!
Verification of the pubchem bulk-pull pipeline.

This file gives a shallow embedding, in Lean 4, of the parts of the
repository that the specification's claims are about:

* the resumable, checkpointed fetch loop of
  pubchem_bulk_pull/pull_pubchem_bulk.py (id-list parsing, resume
  filtering, batched property lookup, per-heading fetching, buffer
  flushing, fragment writing, checkpoint appends, response caching);
* the pure extractors of that file (the string-with-markup flattener,
  the synonym, patent-identifier, MeSH and FDA classification
  extractors, the two FDA regular expressions);
* the read-through cache helper of the same file;
* the consolidation engine of pubchem_bulk_pull/export_wide.py
  (fragment concatenation, key-based deduplication, per-subject
  grouping, JSON/count/preview derivation, left joins, the Excel
  preview truncation).

Python strings are modelled as Lean strings (lists of unicode scalar
chars); Python dicts parsed from JSON are modelled by the JVal type
below, whose objects carry their keys in insertion order and have no
duplicate keys; Python ints are Lean Int/Nat; files are modelled as
explicit association lists.  Network traffic is modelled by oracle
functions supplied as parameters.  Regular-expression semantics of the
two FDA patterns is embedded directly as backtracking string matchers.
-/

/-! ## Basic character and list utilities -/

/-- Whitespace test used for the model of Python str.strip and of the
regex class backslash-s (restricted to the ASCII whitespace that Lean's
Char.isWhitespace covers). -/
def isWs (c : Char) : Bool := c.isWhitespace

/-- Model of Python str.strip on a character list: drop whitespace from
both ends. -/
def trimChars (cs : List Char) : List Char :=
  ((cs.dropWhile isWs).reverse.dropWhile isWs).reverse

/-- Model of Python str.strip at the String level. -/
def pyStrip (s : String) : String := String.mk (trimChars s.data)

/-- Check that every character of the list is an ASCII digit and the
list is nonempty: the model of Python str.isdigit for ASCII input. -/
def isDigits (cs : List Char) : Bool := (cs ≠ []) && cs.all Char.isDigit

/-- Numeric value of a list of ASCII digit characters, most significant
first, as produced by Python int() on a digit string. -/
def digitsVal (cs : List Char) : Nat :=
  cs.foldl (fun a c => 10 * a + (c.toNat - 48)) 0

/-- Split a character list at every occurrence of any of the given
separator characters, keeping empty pieces, as Python str.split on a
single separator does (after the replace-comma-by-semicolon step both
separators behave alike). -/
def splitOnSeps (seps : List Char) : List Char → List (List Char)
  | [] => [[]]
  | c :: cs =>
      let rest := splitOnSeps seps cs
      if c ∈ seps then [] :: rest
      else
        match rest with
        | [] => [[c]]
        | p :: ps => (c :: p) :: ps

/-- Check whether the pattern occurs at the start of the list. -/
def startsWithChars : List Char → List Char → Bool
  | [], _ => true
  | _ :: _, [] => false
  | p :: ps, c :: cs => p = c && startsWithChars ps cs

/-- Check whether the pattern occurs anywhere inside the list; model of
the Python expression pat in s. -/
def hasSubChars (pat : List Char) : List Char → Bool
  | [] => startsWithChars pat []
  | c :: cs => startsWithChars pat (c :: cs) || hasSubChars pat cs

/-- Lexicographic comparison of character lists by unicode code point,
the order Python uses to sort strings. -/
def lexLe : List Char → List Char → Bool
  | [], _ => true
  | _ :: _, [] => false
  | a :: as, b :: bs =>
      if a.toNat < b.toNat then true
      else if b.toNat < a.toNat then false
      else lexLe as bs

/-- String-level lexicographic order by code point. -/
def strLe (a b : String) : Bool := lexLe a.data b.data

/-- Enumerate a list with indices starting at the given value, the model
of Python enumerate(xs, start=i). -/
def enumFromNat (i : Nat) : List α → List (Nat × α)
  | [] => []
  | x :: xs => (i, x) :: enumFromNat (i + 1) xs

/-- Cut a list into consecutive chunks of the given size; the model of
the Python loop for start in range(0, len(xs), bs) with slicing.  For a
zero size the Python loop raises and never produces a batch, so the
result is empty. -/
def chunksOf (bs : Nat) : List α → List (List α)
  | [] => []
  | x :: xs =>
      if h : bs = 0 then []
      else ((x :: xs).take bs) :: chunksOf bs ((x :: xs).drop bs)
termination_by l => l.length
decreasing_by
  have hbs : 0 < bs := Nat.pos_of_ne_zero h
  simp only [List.length_drop, List.length_cons]
  omega

/-- Keep the first occurrence of every key, dropping later rows with an
already seen key: the model of pandas drop_duplicates(subset=key) and of
Python first-seen set filtering.  The worker carries the set of keys
seen so far. -/
def dedupByKeyGo [DecidableEq β] (key : α → β) (seen : List β) : List α → List α
  | [] => []
  | x :: xs =>
      if key x ∈ seen then dedupByKeyGo key seen xs
      else x :: dedupByKeyGo key (key x :: seen) xs

/-- Keep the first row for every key value. -/
def dedupByKey [DecidableEq β] (key : α → β) (l : List α) : List α :=
  dedupByKeyGo key [] l

/-- Ascending sorted list of the distinct values of a list of naturals:
the model of Python sorted(set(xs)). -/
def sortedDistinct (l : List Nat) : List Nat :=
  (l.dedup).insertionSort (· ≤ ·)

/-- Ascending code-point sort of a list of strings: the model of Python
sorted on strings. -/
def sortStrings (l : List String) : List String :=
  l.insertionSort (fun a b => strLe a b = true)

/-! ## The JSON value model -/

/-- Model of a Python object parsed from JSON: None, bool, int, str,
list and dict.  Dict keys are kept in insertion order; objects coming
from json.loads never have duplicate keys. -/
inductive JVal where
  | null
  | bool (b : Bool)
  | num (n : Int)
  | str (s : String)
  | arr (xs : List JVal)
  | obj (kvs : List (String × JVal))
  deriving Repr

mutual

/-- Decidable structural equality on JSON values. -/
def JVal.decEq : (a b : JVal) → Decidable (a = b)
  | .null, .null => isTrue rfl
  | .null, .bool _ => isFalse (fun h => JVal.noConfusion h)
  | .null, .num _ => isFalse (fun h => JVal.noConfusion h)
  | .null, .str _ => isFalse (fun h => JVal.noConfusion h)
  | .null, .arr _ => isFalse (fun h => JVal.noConfusion h)
  | .null, .obj _ => isFalse (fun h => JVal.noConfusion h)
  | .bool _, .null => isFalse (fun h => JVal.noConfusion h)
  | .bool a, .bool b =>
      if h : a = b then isTrue (by rw [h]) else isFalse (by intro hh; cases hh; exact h rfl)
  | .bool _, .num _ => isFalse (fun h => JVal.noConfusion h)
  | .bool _, .str _ => isFalse (fun h => JVal.noConfusion h)
  | .bool _, .arr _ => isFalse (fun h => JVal.noConfusion h)
  | .bool _, .obj _ => isFalse (fun h => JVal.noConfusion h)
  | .num _, .null => isFalse (fun h => JVal.noConfusion h)
  | .num _, .bool _ => isFalse (fun h => JVal.noConfusion h)
  | .num a, .num b =>
      if h : a = b then isTrue (by rw [h]) else isFalse (by intro hh; cases hh; exact h rfl)
  | .num _, .str _ => isFalse (fun h => JVal.noConfusion h)
  | .num _, .arr _ => isFalse (fun h => JVal.noConfusion h)
  | .num _, .obj _ => isFalse (fun h => JVal.noConfusion h)
  | .str _, .null => isFalse (fun h => JVal.noConfusion h)
  | .str _, .bool _ => isFalse (fun h => JVal.noConfusion h)
  | .str _, .num _ => isFalse (fun h => JVal.noConfusion h)
  | .str a, .str b =>
      if h : a = b then isTrue (by rw [h]) else isFalse (by intro hh; cases hh; exact h rfl)
  | .str _, .arr _ => isFalse (fun h => JVal.noConfusion h)
  | .str _, .obj _ => isFalse (fun h => JVal.noConfusion h)
  | .arr _, .null => isFalse (fun h => JVal.noConfusion h)
  | .arr _, .bool _ => isFalse (fun h => JVal.noConfusion h)
  | .arr _, .num _ => isFalse (fun h => JVal.noConfusion h)
  | .arr _, .str _ => isFalse (fun h => JVal.noConfusion h)
  | .arr a, .arr b =>
      match JVal.decEqList a b with
      | isTrue h => isTrue (by rw [h])
      | isFalse h => isFalse (by intro hh; cases hh; exact h rfl)
  | .arr _, .obj _ => isFalse (fun h => JVal.noConfusion h)
  | .obj _, .null => isFalse (fun h => JVal.noConfusion h)
  | .obj _, .bool _ => isFalse (fun h => JVal.noConfusion h)
  | .obj _, .num _ => isFalse (fun h => JVal.noConfusion h)
  | .obj _, .str _ => isFalse (fun h => JVal.noConfusion h)
  | .obj _, .arr _ => isFalse (fun h => JVal.noConfusion h)
  | .obj a, .obj b =>
      match JVal.decEqObj a b with
      | isTrue h => isTrue (by rw [h])
      | isFalse h => isFalse (by intro hh; cases hh; exact h rfl)

/-- Decidable equality on JSON arrays. -/
def JVal.decEqList : (a b : List JVal) → Decidable (a = b)
  | [], [] => isTrue rfl
  | [], _ :: _ => isFalse (fun h => List.noConfusion h)
  | _ :: _, [] => isFalse (fun h => List.noConfusion h)
  | a :: as, b :: bs =>
      match JVal.decEq a b with
      | isTrue h1 =>
          match JVal.decEqList as bs with
          | isTrue h2 => isTrue (by rw [h1, h2])
          | isFalse h2 => isFalse (by intro hh; cases hh; exact h2 rfl)
      | isFalse h1 => isFalse (by intro hh; cases hh; exact h1 rfl)

/-- Decidable equality on JSON object member lists. -/
def JVal.decEqObj : (a b : List (String × JVal)) → Decidable (a = b)
  | [], [] => isTrue rfl
  | [], _ :: _ => isFalse (fun h => List.noConfusion h)
  | _ :: _, [] => isFalse (fun h => List.noConfusion h)
  | (ka, va) :: as, (kb, vb) :: bs =>
      if hk : ka = kb then
        match JVal.decEq va vb with
        | isTrue h1 =>
            match JVal.decEqObj as bs with
            | isTrue h2 => isTrue (by rw [hk, h1, h2])
            | isFalse h2 => isFalse (by intro hh; cases hh; exact h2 rfl)
        | isFalse h1 => isFalse (by intro hh; cases hh; exact h1 rfl)
      else isFalse (by intro hh; cases hh; exact hk rfl)

end

instance : DecidableEq JVal := JVal.decEq

/-- Look up a key in a JSON object member list, first match: the model
of Python dict access for dicts without duplicate keys. -/
def jLookup (k : String) : List (String × JVal) → Option JVal
  | [] => none
  | (k1, v) :: kvs => if k1 = k then some v else jLookup k kvs

/-! ## A faithful model of json.dumps with ensure_ascii False -/

/-- Lowercase hexadecimal digit character for a value below 16. -/
def hexDigitChar (n : Nat) : Char :=
  if n < 10 then Char.ofNat (48 + n) else Char.ofNat (87 + n)

/-- Escape of one character inside a JSON string literal, exactly as
json.dumps with ensure_ascii False produces it: quote and backslash get
a backslash, the five named control escapes are used, the remaining
control characters get a four-digit unicode escape and everything else
is emitted verbatim. -/
def escChar (c : Char) : List Char :=
  if c = '\"' then ['\\', '\"']
  else if c = '\\' then ['\\', '\\']
  else if c = '\n' then ['\\', 'n']
  else if c = '\t' then ['\\', 't']
  else if c = '\r' then ['\\', 'r']
  else if c = Char.ofNat 8 then ['\\', 'b']
  else if c = Char.ofNat 12 then ['\\', 'f']
  else if c.toNat < 32 then
    ['\\', 'u', '0', '0', hexDigitChar (c.toNat / 16), hexDigitChar (c.toNat % 16)]
  else [c]

/-- Escape of a whole string body. -/
def escString (cs : List Char) : List Char := cs.flatMap escChar

/-- Serialized JSON string literal with its quotes. -/
def dumpStrChars (s : String) : List Char := '\"' :: (escString s.data ++ ['\"'])

/-- Decimal digits of a natural number, accumulator form. -/
def natToDigitsGo (n : Nat) (acc : List Char) : List Char :=
  if n < 10 then Char.ofNat (48 + n) :: acc
  else natToDigitsGo (n / 10) (Char.ofNat (48 + n % 10) :: acc)
termination_by n
decreasing_by
  have : 10 ≤ n := Nat.le_of_not_lt (by assumption)
  exact Nat.div_lt_self (by omega) (by omega)

/-- Decimal digits of a natural number, most significant first. -/
def natToDigits (n : Nat) : List Char := natToDigitsGo n []

/-- Decimal representation of an integer, as Python repr produces it. -/
def intToChars (n : Int) : List Char :=
  if n < 0 then '-' :: natToDigits n.natAbs else natToDigits n.toNat

mutual

/-- Serializer for JSON values following Python json.dumps defaults:
comma-space between items, colon-space after keys, ensure_ascii off. -/
def dumpJChars : JVal → List Char
  | .null => "null".data
  | .bool true => "true".data
  | .bool false => "false".data
  | .num n => intToChars n
  | .str s => dumpStrChars s
  | .arr [] => ['[', ']']
  | .arr (x :: xs) => '[' :: ((dumpJChars x ++ dumpArrTail xs) ++ [']'])
  | .obj [] => [Char.ofNat 123, Char.ofNat 125]
  | .obj (kv :: kvs) =>
      Char.ofNat 123 :: ((dumpMember kv ++ dumpObjTail kvs) ++ [Char.ofNat 125])

/-- Serializer for the remaining array items, each preceded by a
comma and a space. -/
def dumpArrTail : List JVal → List Char
  | [] => []
  | x :: xs => ',' :: ' ' :: (dumpJChars x ++ dumpArrTail xs)

/-- Serializer for one object member. -/
def dumpMember : String × JVal → List Char
  | (k, v) => dumpStrChars k ++ (':' :: ' ' :: dumpJChars v)

/-- Serializer for the remaining object members. -/
def dumpObjTail : List (String × JVal) → List Char
  | [] => []
  | kv :: kvs => ',' :: ' ' :: (dumpMember kv ++ dumpObjTail kvs)

end

/-- Model of the Python expression json.dumps(j, ensure_ascii=False). -/
def jsonDumps (j : JVal) : String := String.mk (dumpJChars j)

/-! ## The string-with-markup flattener -/

/-- View of a JSON value as an object member list; non-objects give the
empty list.  This models Python dict access on values that are dicts
(the code only meets dicts at these places). -/
def asObj : JVal → List (String × JVal)
  | .obj kvs => kvs
  | _ => []

/-- View of a JSON value as a list; non-lists give the empty list. -/
def asList : JVal → List JVal
  | .arr xs => xs
  | _ => []

/-- Strings collected from a StringWithMarkup member of one node, as in
the inner loop of the extractor: the member must be a list, and every
item that is a dict with a string String member contributes it. -/
def swmStringsOf (kvs : List (String × JVal)) : List String :=
  match jLookup "StringWithMarkup" kvs with
  | some (.arr items) =>
      items.filterMap (fun itm =>
        match itm with
        | .obj ikvs =>
            match jLookup "String" ikvs with
            | some (.str s) => some s
            | _ => none
        | _ => none)
  | _ => []

mutual

/-- Recursive walk of a JSON tree collecting every StringWithMarkup
string payload in document order, the model of the
extract-strings-with-markup helper: at a dict node the node's own
StringWithMarkup strings come first, then all values are walked in key
order; list nodes walk their items; leaves contribute nothing. -/
def extractSWM : JVal → List String
  | .obj kvs => swmStringsOf kvs ++ extractSWMObj kvs
  | .arr xs => extractSWMList xs
  | _ => []

/-- Walk of the items of a list node. -/
def extractSWMList : List JVal → List String
  | [] => []
  | x :: xs => extractSWM x ++ extractSWMList xs

/-- Walk of the values of a dict node, in member order. -/
def extractSWMObj : List (String × JVal) → List String
  | [] => []
  | (_, v) :: kvs => extractSWM v ++ extractSWMObj kvs

end

/-! ## Typed child records and the per-heading extractors -/

/-- Row of the depositor-synonyms table. -/
structure SynRow where
  cid : Nat
  synonym : String
  deriving DecidableEq, Repr

/-- Row of the depositor-patent-identifiers table. -/
structure PatRow where
  cid : Nat
  patent_id : String
  deriving DecidableEq, Repr

/-- Row of the MeSH pharmacological classification table.  Name,
description and reference number hold whatever JSON value the response
carried at those places, or nothing when absent; Python stores the
values untyped. -/
structure MeshRow where
  cid : Nat
  mesh_name : Option JVal
  mesh_description : Option JVal
  reference_number : Option JVal
  raw_info_json : String
  deriving DecidableEq, Repr

/-- Row of the FDA pharmacological classification table; only the group
field is optional in the reachable rows. -/
structure FdaRow where
  cid : Nat
  class_type : String
  class_group : Option String
  class_name : String
  raw_text : String
  deriving DecidableEq, Repr

/-- Synonym extractor: flatten the markup strings, strip each, drop
empty results and navigation strings containing a link-to-all marker in
either capitalisation, keep the rest in encountered order. -/
def extractDepositorSynonyms (cid : Nat) (j : JVal) : List SynRow :=
  ((extractSWM j).filterMap (fun s =>
    let t := pyStrip s
    if t = "" then none
    else if hasSubChars ("Link to all").data t.data
        || hasSubChars ("link to all").data t.data then none
    else some t)).map (fun t => SynRow.mk cid t)

/-- Exact-token test for a US patent identifier: the characters are the
letters U and S followed by one or more ASCII digits, the model of
re.fullmatch of US backslash-d plus. -/
def isUSPatentTok (cs : List Char) : Bool :=
  match cs with
  | 'U' :: 'S' :: rest => isDigits rest
  | _ => false

/-- Patent-identifier extractor: flatten, strip, keep exact US-digit
tokens, deduplicate through a set and return sorted rows. -/
def extractDepositorPatentIds (cid : Nat) (j : JVal) : List PatRow :=
  let ids := dedupByKey (fun t => t)
    ((extractSWM j).filterMap (fun s =>
      let t := pyStrip s
      if isUSPatentTok t.data then some t else none))
  (sortStrings ids).map (fun p => PatRow.mk cid p)

/-- Extraction of one MeSH information item: name and reference number
are the raw member values, the description is the String member of the
first string-with-markup item of the Value member when that shape is
present, and the raw item is kept serialized. -/
def meshInfoRow (cid : Nat) (info : JVal) : MeshRow :=
  let ikvs := asObj info
  let name := jLookup "Name" ikvs
  let ref := jLookup "ReferenceNumber" ikvs
  let val := asObj ((jLookup "Value" ikvs).getD .null)
  let desc :=
    match jLookup "StringWithMarkup" val with
    | some (.arr (s0 :: _)) =>
        match s0 with
        | .obj skvs => jLookup "String" skvs
        | _ => none
    | _ => none
  ⟨cid, name, desc, ref, jsonDumps info⟩

/-- MeSH extractor: walk the two section levels under Record and emit
one row per information item of every subsection. -/
def extractMeshPharmRows (cid : Nat) (j : JVal) : List MeshRow :=
  let record := asObj ((jLookup "Record" (asObj j)).getD .null)
  let sections := asList ((jLookup "Section" record).getD .null)
  sections.flatMap (fun sec =>
    (asList ((jLookup "Section" (asObj sec)).getD .null)).flatMap (fun subsec =>
      (asList ((jLookup "Information" (asObj subsec)).getD .null)).map
        (meshInfoRow cid)))

/-! ## The two FDA classification patterns

The source compiles two regular expressions and tries them in order on
every stripped fragment.  They are embedded as explicit matchers: the
dot of the patterns matches anything but a newline, the lazy leading
group takes the shortest prefix that lets the rest of the pattern
match, and the whitespace and letter runs inside the remainder are
deterministic because each is followed by a character of a disjoint
class.  The matchers are applied only to stripped fragments, for which
this is exactly the Python first-match semantics. -/

/-- Drop a maximal run of whitespace. -/
def dropWsStar : List Char → List Char
  | [] => []
  | c :: rest => if isWs c then dropWsStar rest else c :: rest

/-- Require at least one whitespace character, then drop the maximal
whitespace run. -/
def dropWsPlus (cs : List Char) : Option (List Char) :=
  match cs with
  | c :: rest => if isWs c then some (dropWsStar rest) else none
  | [] => none

/-- Remainder matcher of the group pattern after the lazy group: one or
more whitespace, a bracketed run of ASCII letters, optional whitespace,
a hyphen, optional whitespace and a nonempty newline-free name reaching
the end.  Returns the type code and the name. -/
def fdaGroupTail (cs : List Char) : Option (String × String) :=
  match dropWsPlus cs with
  | none => none
  | some cs1 =>
      match cs1 with
      | '[' :: cs2 =>
          let typ := cs2.takeWhile Char.isAlpha
          let cs3 := cs2.dropWhile Char.isAlpha
          if typ = [] then none
          else
            match cs3 with
            | ']' :: cs4 =>
                match dropWsStar cs4 with
                | '-' :: cs6 =>
                    let nameCs := dropWsStar cs6
                    if nameCs ≠ [] && nameCs.all (fun c => c ≠ '\n') then
                      some (String.mk typ, String.mk nameCs)
                    else none
                | _ => none
            | _ => none
      | _ => none

/-- Lazy search for the group pattern: try every nonempty newline-free
prefix as the group, shortest first, and match the remainder with the
tail matcher.  Returns group, type and name of the first success. -/
def fdaGroupSearch (group : List Char) : List Char → Option (String × String × String)
  | [] => none
  | c :: cs =>
      if c = '\n' then none
      else
        let g := group ++ [c]
        match fdaGroupTail cs with
        | some (t, n) => some (String.mk g, t, n)
        | none => fdaGroupSearch g cs

/-- Match of the full group pattern against a stripped fragment. -/
def fdaGroupMatch (p : String) : Option (String × String × String) :=
  fdaGroupSearch [] p.data

/-- Remainder matcher of the suffix pattern after the lazy name: one or
more whitespace, then a bracketed letter run ending the fragment. -/
def fdaSuffixTail (cs : List Char) : Option String :=
  match dropWsPlus cs with
  | none => none
  | some cs1 =>
      match cs1 with
      | '[' :: cs2 =>
          let typ := cs2.takeWhile Char.isAlpha
          let cs3 := cs2.dropWhile Char.isAlpha
          if typ = [] then none
          else
            match cs3 with
            | [']'] => some (String.mk typ)
            | _ => none
      | _ => none

/-- Lazy search for the suffix pattern: shortest nonempty newline-free
prefix whose remainder is whitespace plus a final bracketed type.
Returns name and type. -/
def fdaSuffixSearch (name : List Char) : List Char → Option (String × String)
  | [] => none
  | c :: cs =>
      if c = '\n' then none
      else
        let n := name ++ [c]
        match fdaSuffixTail cs with
        | some t => some (String.mk n, t)
        | none => fdaSuffixSearch n cs

/-- Match of the full suffix pattern against a stripped fragment. -/
def fdaSuffixMatch (p : String) : Option (String × String) :=
  fdaSuffixSearch [] p.data

/-- Classification of one stripped fragment: the group pattern is tried
first and wins when it matches, then the suffix pattern; a fragment
matching neither yields no row. -/
def classifyFdaFragment (cid : Nat) (p : String) : Option FdaRow :=
  match fdaGroupMatch p with
  | some (g, t, n) => some ⟨cid, t, some g, n, p⟩
  | none =>
      match fdaSuffixMatch p with
      | some (n, t) => some ⟨cid, t, none, n, p⟩
      | none => none

/-- FDA extractor: flatten the markup strings, split each on
semicolons, strip the pieces, drop empty ones and classify the
fragments, keeping the rows of fragments that match a pattern. -/
def extractFdaPharmRows (cid : Nat) (j : JVal) : List FdaRow :=
  (extractSWM j).flatMap (fun s =>
    (((splitOnSeps [';'] s.data).map (fun p => pyStrip (String.mk p))).filter
        (fun p => p ≠ "")).filterMap (classifyFdaFragment cid))

/-! ## Id-list and checkpoint-file parsing -/

/-- Ids collected from one line of the id-list file: strip the line,
split it on commas and semicolons (the code first replaces commas by
semicolons), strip each piece, keep the pieces that are nonempty digit
strings and read them as integers. -/
def parseLineIds (line : String) : List Nat :=
  let l := trimChars line.data
  if l = [] then []
  else
    (splitOnSeps [',', ';'] l).filterMap (fun part =>
      let p := trimChars part
      if p = [] then none
      else if isDigits p then some (digitsVal p) else none)

/-- Model of the id-list reader: collect ids from every line, sort the
set of them ascending, and truncate to the optional maximum. -/
def readIdList (lines : List String) (maxIds : Option Nat) : List Nat :=
  let vals := sortedDistinct (lines.flatMap parseLineIds)
  match maxIds with
  | none => vals
  | some m => vals.take m

/-- Model of reading the checkpoint log: every stripped line that is a
digit string contributes its integer value. -/
def parseProcessed (lines : List String) : List Nat :=
  lines.filterMap (fun line =>
    let l := trimChars line.data
    if isDigits l then some (digitsVal l) else none)

/-! ## The resumable fetch loop -/

/-- Fixed fetch order of the per-subject attribute sources. -/
def HEADINGS : List String :=
  ["3D Conformer",
   "Depositor-Supplied Synonyms",
   "Depositor-Supplied Patent Identifiers",
   "MeSH Pharmacological Classification",
   "FDA Pharmacological Classification",
   "Related Records",
   "Chemical Vendors",
   "Patents"]

/-- Destination column names of the raw-passthrough headings. -/
def RAW_HEADINGS : List (String × String) :=
  [("3D Conformer", "pugview_3d_conformer_json"),
   ("Related Records", "pugview_related_records_json"),
   ("Chemical Vendors", "pugview_chemical_vendors_json"),
   ("Patents", "pugview_patents_heading_json")]

/-- First-match lookup in an association list. -/
def assocLookup [DecidableEq κ] (k : κ) : List (κ × ν) → Option ν
  | [] => none
  | (k1, v) :: m => if k1 = k then some v else assocLookup k m

/-- Overwriting update of an association list: the new binding replaces
any binding of the same key, as writing a file at a path does. -/
def assocSet [DecidableEq κ] (k : κ) (v : ν) (m : List (κ × ν)) : List (κ × ν) :=
  (k, v) :: m.filter (fun kv => decide (kv.1 ≠ k))

/-- Row of the per-heading HTTP outcome table. -/
structure HMRow where
  cid : Nat
  heading : String
  http_code : Nat
  bytes : Nat
  deriving DecidableEq, Repr

/-- Row of the raw-passthrough heading table. -/
structure RawRow where
  cid : Nat
  heading : String
  column_name : String
  json : String
  deriving DecidableEq, Repr

/-- Row of the core-properties table. -/
structure CoreRow where
  cid : Nat
  inchikey : Option String
  smiles : Option String
  connectivity_smiles : Option String
  molecular_formula : Option String
  molecular_weight : Option String
  deriving DecidableEq, Repr

/-- Scalar property record of one subject as returned by the batched
property endpoint; absent members are nothing. -/
structure CoreProps where
  inchikey : Option String
  smiles : Option String
  connectivity_smiles : Option String
  molecular_formula : Option String
  molecular_weight : Option String
  deriving DecidableEq, Repr

/-- Core row built from an optional property record: a subject missing
from the batch response yields the all-null row. -/
def mkCoreRow (cid : Nat) : Option CoreProps → CoreRow
  | none => ⟨cid, none, none, none, none, none⟩
  | some p => ⟨cid, p.inchikey, p.smiles, p.connectivity_smiles,
               p.molecular_formula, p.molecular_weight⟩

/-- Payload of one written table fragment, tagged by category. -/
inductive Rows where
  | core (rs : List CoreRow)
  | hm (rs : List HMRow)
  | syn (rs : List SynRow)
  | pat (rs : List PatRow)
  | mesh (rs : List MeshRow)
  | fda (rs : List FdaRow)
  | raw (rs : List RawRow)
  deriving DecidableEq, Repr

/-- Emptiness of a fragment payload, the test the fragment writer makes
before writing. -/
def Rows.isEmptyRows : Rows → Bool
  | .core rs => rs.isEmpty
  | .hm rs => rs.isEmpty
  | .syn rs => rs.isEmpty
  | .pat rs => rs.isEmpty
  | .mesh rs => rs.isEmpty
  | .fda rs => rs.isEmpty
  | .raw rs => rs.isEmpty

/-- Observable action of the fetch loop, in program order: a batched
property request naming its subjects, a per-heading fetch request, a
fragment write, or a checkpoint append of a list of subject ids. -/
inductive Event where
  | propBatch (cids : List Nat)
  | request (cid : Nat) (heading : String)
  | write (folder : String) (idx : Nat) (data : Rows)
  | checkpoint (cids : List Nat)
  deriving DecidableEq, Repr

/-- Subjects a fetch request of an event mentions; writes and
checkpoint appends are not fetch requests. -/
def Event.fetchCids : Event → List Nat
  | .propBatch cids => cids
  | .request cid _ => [cid]
  | .write _ _ _ => []
  | .checkpoint _ => []

/-- The partitioned table store: one entry per (category directory,
fragment number) holding the fragment's rows. -/
abbrev Store := List ((String × Nat) × Rows)

/-- The response cache: one entry per (subject, heading), standing for
the file named by the hash of the request URL, holding the cached JSON
value (null when the cached response body was the serialization of
Python None). -/
abbrev Cache := List ((Nat × String) × JVal)

/-- Mutable state of one run of the fetch loop: the fragment counter,
the six in-memory record buffers, the processed-this-session list, the
checkpoint ids appended by this run, the table store, the cache and the
event trace. -/
structure LoopState where
  partIdx : Nat
  bufHM : List HMRow
  bufSyn : List SynRow
  bufPat : List PatRow
  bufMesh : List MeshRow
  bufFda : List FdaRow
  bufRaw : List RawRow
  processedNow : List Nat
  checkpointLog : List Nat
  store : Store
  cache : Cache
  trace : List Event
  deriving Repr

/-- Outcome of one per-heading HTTP request: the status code, the JSON
body when the body parsed, and the body length. -/
structure HeadingResp where
  code : Nat
  parsed : Option JVal
  nbytes : Nat

/-- Network behaviour of one run: the batched property endpoint, which
for a requested batch maps each subject to its optional record, and the
per-heading endpoint. -/
structure Oracles where
  props : List Nat → Nat → Option CoreProps
  resp : Nat → String → HeadingResp

/-- Error object the loop builds for a non-success response whose body
is not JSON. -/
def httpErrJson (code : Nat) : JVal :=
  .obj [("error", .obj [("message", .str ("HTTP " ++ String.mk (natToDigits code)))])]

/-- Model of the fragment writer: an empty frame writes nothing, a
nonempty one writes the numbered fragment file, overwriting any file of
the same name. -/
def writeParts (folder : String) (idx : Nat) (data : Rows) (st : LoopState) : LoopState :=
  if data.isEmptyRows then st
  else { st with store := assocSet (folder, idx) data st.store,
                 trace := st.trace ++ [.write folder idx data] }

/-- Model of the flush closure: bump the fragment counter, write the
seven category frames (the core frame only carries rows on the first
flush), append the processed-this-session ids to the checkpoint log
when there are any, then clear the buffers and the session list. -/
def flushBuffers (coreDf : List CoreRow) (st : LoopState) : LoopState :=
  let p := st.partIdx + 1
  let st := { st with partIdx := p }
  let st := writeParts "core_properties" p (.core (if p = 1 then coreDf else [])) st
  let st := writeParts "heading_meta" p (.hm st.bufHM) st
  let st := writeParts "depositor_synonyms" p (.syn st.bufSyn) st
  let st := writeParts "depositor_patent_ids" p (.pat st.bufPat) st
  let st := writeParts "mesh_pharm_class" p (.mesh st.bufMesh) st
  let st := writeParts "fda_pharm_class" p (.fda st.bufFda) st
  let st := writeParts "pugview_raw_headings" p (.raw st.bufRaw) st
  let st :=
    if st.processedNow = [] then st
    else { st with checkpointLog := st.checkpointLog ++ st.processedNow,
                   trace := st.trace ++ [.checkpoint st.processedNow] }
  { st with bufHM := [], bufSyn := [], bufPat := [], bufMesh := [],
            bufFda := [], bufRaw := [], processedNow := [] }

/-- Model of one per-heading iteration: issue the request, always
rewrite the cache entry with the serialized body (the parse result on
success, the parse result or an error object otherwise, null standing
for an unparseable success body), record the HTTP outcome row, and on a
parsed success body run the extractor of the heading. -/
def processHeading (o : Oracles) (cid : Nat) (st : LoopState) (h : String) : LoopState :=
  let r := o.resp cid h
  let st := { st with trace := st.trace ++ [Event.request cid h] }
  let j : Option JVal :=
    if r.code = 200 then r.parsed else some (r.parsed.getD (httpErrJson r.code))
  let st := { st with cache := assocSet (cid, h) (j.getD .null) st.cache }
  let st := { st with bufHM := st.bufHM ++ [HMRow.mk cid h r.code r.nbytes] }
  match j with
  | none => st
  | some jv =>
      if r.code ≠ 200 then st
      else if h = "Depositor-Supplied Synonyms" then
        { st with bufSyn := st.bufSyn ++ extractDepositorSynonyms cid jv }
      else if h = "Depositor-Supplied Patent Identifiers" then
        { st with bufPat := st.bufPat ++ extractDepositorPatentIds cid jv }
      else if h = "MeSH Pharmacological Classification" then
        { st with bufMesh := st.bufMesh ++ extractMeshPharmRows cid jv }
      else if h = "FDA Pharmacological Classification" then
        { st with bufFda := st.bufFda ++ extractFdaPharmRows cid jv }
      else
        match assocLookup h RAW_HEADINGS with
        | some colName =>
            { st with bufRaw := st.bufRaw ++ [⟨cid, h, colName, jsonDumps jv⟩] }
        | none => st

/-- Model of one subject's iteration: fetch all headings in order, then
append the subject to the processed-this-session list. -/
def processCid (o : Oracles) (cid : Nat) (st : LoopState) : LoopState :=
  let st := HEADINGS.foldl (processHeading o cid) st
  { st with processedNow := st.processedNow ++ [cid] }

/-- Model of the per-subject loop with one-based enumeration: process
each subject, flush whenever the flush interval is nonzero and divides
the position, and run the unconditional trailing flush at the end. -/
def runLoop (o : Oracles) (coreDf : List CoreRow) (fe : Nat) :
    Nat → List Nat → LoopState → LoopState
  | _, [], st => flushBuffers coreDf st
  | i, c :: cs, st =>
      let st1 := processCid o c st
      let st2 := if fe ≠ 0 ∧ i % fe = 0 then flushBuffers coreDf st1 else st1
      runLoop o coreDf fe (i + 1) cs st2

/-- Model of the batched property stage: cut the worklist into batches,
issue one property request per batch and build one core row per subject
of each batch. -/
def buildCore (o : Oracles) (bs : Nat) (cids : List Nat) : List CoreRow × List Event :=
  (chunksOf bs cids).foldl
    (fun acc batch =>
      (acc.1 ++ batch.map (fun c => mkCoreRow c (o.props batch c)),
       acc.2 ++ [.propBatch batch]))
    ([], [])

/-- Command-line inputs of one run: the id-list file lines, the
checkpoint file lines, the optional id cap, the property batch size and
the flush interval. -/
structure RunArgs where
  idLines : List String
  cpLines : List String
  maxIds : Option Nat
  batchSize : Nat
  flushEvery : Nat

/-- Worklist of a resumed run: the parsed id list with every subject of
the parsed checkpoint log removed. -/
def runWorklist (a : RunArgs) : List Nat :=
  let processed := parseProcessed a.cpLines
  (readIdList a.idLines a.maxIds).filter (fun c => decide (c ∉ processed))

/-- Existence test of a category directory in the store. -/
def storeHasFolder (s : Store) (folder : String) : Bool :=
  s.any (fun kv => kv.1.1 = folder)

/-- Model of one whole resumed run of the bulk puller: compute the
worklist, run the property batches, run the per-subject loop from the
given initial store and cache, and finally write the core frame as
fragment one if the core category directory still does not exist. -/
def runMain (a : RunArgs) (o : Oracles) (store0 : Store) (cache0 : Cache) : LoopState :=
  let cids := runWorklist a
  let bc := buildCore o a.batchSize cids
  let st0 : LoopState :=
    { partIdx := 0, bufHM := [], bufSyn := [], bufPat := [], bufMesh := [],
      bufFda := [], bufRaw := [], processedNow := [], checkpointLog := [],
      store := store0, cache := cache0, trace := bc.2 }
  let st := runLoop o bc.1 a.flushEvery 1 cids st0
  if storeHasFolder st.store "core_properties" then st
  else { st with store := assocSet ("core_properties", 1) (.core bc.1) st.store }

/-! ## The read-through cache helper -/

/-- Contents of a cache file as the helper sees it: a file whose text
parses as JSON, or a file whose text does not parse. -/
inductive CacheFile where
  | parseable (j : JVal)
  | corrupt
  deriving DecidableEq, Repr

/-- Network outcome at the single request site of the helper: a
response whose body parsed (with its status code), a response whose
body did not parse, or a raised exception with its message. -/
inductive NetResult where
  | ok (parsed : Option JVal) (code : Nat)
  | exn (msg : String)
  deriving DecidableEq, Repr

/-- Error object of the helper for a body that is not JSON. -/
def nonJsonErr (code : Nat) : JVal :=
  .obj [("error", .obj [("message",
    .str ("HTTP " ++ String.mk (natToDigits code) ++ " (non-json)"))])]

/-- Error object of the helper for a raised exception. -/
def exnErr (msg : String) : JVal :=
  .obj [("error", .obj [("message", .str msg)])]

/-- Result of the helper: the returned JSON value, the cache file
contents afterwards, and whether a network request was issued. -/
structure FetchResult where
  value : JVal
  cacheAfter : Option CacheFile
  networkCalled : Bool
  deriving DecidableEq, Repr

/-- Model of the read-through cache helper: a parseable cache file is
returned as is with no network call; otherwise the request is issued
and the result, success or error object, is stored before returning. -/
def fetchJson (cache : Option CacheFile) (net : NetResult) : FetchResult :=
  match cache with
  | some (.parseable j) => ⟨j, some (.parseable j), false⟩
  | _ =>
      match net with
      | .ok parsed code =>
          let j := parsed.getD (nonJsonErr code)
          ⟨j, some (.parseable j), true⟩
      | .exn m =>
          let j := exnErr m
          ⟨j, some (.parseable j), true⟩

/-! ## A JSON parser modelling json.loads -/

/-- Value of one hexadecimal digit character. -/
def parseHex (c : Char) : Option Nat :=
  let n := c.toNat
  if 48 ≤ n ∧ n ≤ 57 then some (n - 48)
  else if 97 ≤ n ∧ n ≤ 102 then some (n - 87)
  else if 65 ≤ n ∧ n ≤ 70 then some (n - 55)
  else none

/-- Decoded character of a named escape following a backslash, as
json.loads accepts them; the unicode escape is handled separately. -/
def escDecode (e : Char) : Option Char :=
  if e = '\"' then some '\"'
  else if e = '\\' then some '\\'
  else if e = '/' then some '/'
  else if e = 'n' then some '\n'
  else if e = 't' then some '\t'
  else if e = 'r' then some '\r'
  else if e = 'b' then some (Char.ofNat 8)
  else if e = 'f' then some (Char.ofNat 12)
  else none

/-- Decoded character of a four-hex-digit unicode escape body, when
the next four characters are hexadecimal digits. -/
def parseU : List Char → Option Char
  | h1 :: h2 :: h3 :: h4 :: _ =>
      (match parseHex h1, parseHex h2, parseHex h3, parseHex h4 with
       | some a, some b, some c1, some d =>
           some (Char.ofNat (4096 * a + 256 * b + 16 * c1 + d))
       | _, _, _, _ => none)
  | _ => none

/-- Parser for the body of a JSON string literal after its opening
quote, handling the named escapes, the unicode escape and plain
characters; the accumulator holds the decoded characters reversed. -/
def parseStringBody (acc : List Char) : List Char → Option (String × List Char)
  | [] => none
  | c :: cs =>
      if c = '\"' then some (String.mk acc.reverse, cs)
      else if c = '\\' then
        match cs with
        | [] => none
        | e :: cs2 =>
            if e = 'u' then
              match parseU cs2 with
              | some d => parseStringBody (d :: acc) (cs2.drop 4)
              | none => none
            else
              match escDecode e with
              | some d => parseStringBody (d :: acc) cs2
              | none => none
      else parseStringBody (c :: acc) cs
termination_by cs => cs.length
decreasing_by
  · simp only [List.length_drop, List.length_cons]
    omega
  · simp only [List.length_cons]
    omega
  · simp only [List.length_cons]
    omega

/-- Parser for a nonempty run of decimal digits. -/
def parseNatDigits (cs : List Char) : Option (Nat × List Char) :=
  let ds := cs.takeWhile Char.isDigit
  if ds = [] then none else some (digitsVal ds, cs.dropWhile Char.isDigit)

mutual

/-- Fuel-bounded parser for one JSON value, skipping leading
whitespace. -/
def parseValue : Nat → List Char → Option (JVal × List Char)
  | 0, _ => none
  | fuel + 1, cs =>
      match dropWsStar cs with
      | 'n' :: 'u' :: 'l' :: 'l' :: rest => some (.null, rest)
      | 't' :: 'r' :: 'u' :: 'e' :: rest => some (.bool true, rest)
      | 'f' :: 'a' :: 'l' :: 's' :: 'e' :: rest => some (.bool false, rest)
      | '\"' :: rest => (parseStringBody [] rest).map (fun p => (.str p.1, p.2))
      | '[' :: rest =>
          (match dropWsStar rest with
           | ']' :: rest2 => some (.arr [], rest2)
           | _ => (parseElems fuel rest).map (fun p => (.arr p.1, p.2)))
      | '\x7b' :: rest =>
          (match dropWsStar rest with
           | '\x7d' :: rest2 => some (.obj [], rest2)
           | _ => (parseMembers fuel rest).map (fun p => (.obj p.1, p.2)))
      | '-' :: rest =>
          (parseNatDigits rest).map (fun p => (.num (-(p.1 : Int)), p.2))
      | c :: rest =>
          if c.isDigit then
            (parseNatDigits (c :: rest)).map (fun p => (.num ((p.1 : Nat) : Int), p.2))
          else none
      | [] => none

/-- Fuel-bounded parser for the items of a nonempty JSON array after
the opening bracket. -/
def parseElems : Nat → List Char → Option (List JVal × List Char)
  | 0, _ => none
  | fuel + 1, cs =>
      match parseValue fuel cs with
      | none => none
      | some (v, rest) =>
          match dropWsStar rest with
          | ',' :: rest2 => (parseElems fuel rest2).map (fun p => (v :: p.1, p.2))
          | ']' :: rest2 => some ([v], rest2)
          | _ => none

/-- Fuel-bounded parser for the members of a nonempty JSON object after
the opening brace. -/
def parseMembers : Nat → List Char → Option (List (String × JVal) × List Char)
  | 0, _ => none
  | fuel + 1, cs =>
      match dropWsStar cs with
      | '\"' :: rest =>
          (match parseStringBody [] rest with
           | none => none
           | some (k, rest2) =>
               match dropWsStar rest2 with
               | ':' :: rest3 =>
                   (match parseValue fuel rest3 with
                    | none => none
                    | some (v, rest4) =>
                        match dropWsStar rest4 with
                        | ',' :: rest5 =>
                            (parseMembers fuel rest5).map (fun p => ((k, v) :: p.1, p.2))
                        | '\x7d' :: rest5 => some ([(k, v)], rest5)
                        | _ => none)
               | _ => none)
      | _ => none

end

/-- Model of json.loads: parse one value with ample fuel and require
that only whitespace remains. -/
def jsonLoads (s : String) : Option JVal :=
  match parseValue (2 * s.data.length + 2) s.data with
  | some (j, rest) => if dropWsStar rest = [] then some j else none
  | none => none

/-- Model of the consolidation helper that parses a JSON column value,
giving Python None (modelled as the JSON null it serializes back to)
for the empty string and for parse failures. -/
def tryJsonLoads (s : String) : JVal :=
  if s = "" then .null else (jsonLoads s).getD .null

/-! ## The consolidation engine -/

/-- Fragments of one category sorted by file name, as the glob of the
fragment reader sorts them. -/
def sortFragsByName (frags : List (String × List α)) : List (String × List α) :=
  frags.insertionSort (fun a b => strLe a.1 b.1 = true)

/-- Model of the fragment reader: read the fragments of a category in
sorted file-name order and concatenate their rows. -/
def readParts (frags : List (String × List α)) : List α :=
  (sortFragsByName frags).flatMap (fun f => f.2)

/-- Generic left join on integer keys, keeping every left row and
pairing it with each matching right row, or with nothing when no right
row matches; the model of a pandas left merge. -/
def leftJoin (l : List α) (r : List β) (ka : α → Nat) (kb : β → Nat) :
    List (α × Option β) :=
  l.flatMap (fun a =>
    match r.filter (fun b => decide (kb b = ka a)) with
    | [] => [(a, none)]
    | ms => ms.map (fun b => (a, some b)))

/-- Model of the preview helper: keep only the string values, take the
first k and join them with semicolon-space. -/
def safePreviewList (vals : List JVal) (k : Nat) : String :=
  String.intercalate "; "
    ((vals.filterMap (fun v => match v with | .str s => some s | _ => none)).take k)

/-- Truthiness of a JSON-borne Python value, as Python bool() gives
it. -/
def jTruthy : JVal → Bool
  | .null => false
  | .bool b => b
  | .num n => decide (n ≠ 0)
  | .str s => decide (s ≠ "")
  | .arr xs => !xs.isEmpty
  | .obj kvs => !kvs.isEmpty

/-- Grouping of the deduplicated synonym rows by subject: one group per
distinct subject in ascending order, carrying the synonyms of the
subject in input order, as pandas groupby-apply-list builds it. -/
def synGroups (syn : List SynRow) : List (Nat × List String) :=
  let s := dedupByKey (fun r => (r.cid, r.synonym)) syn
  (sortedDistinct (s.map (fun r => r.cid))).map (fun c =>
    (c, (s.filter (fun r => decide (r.cid = c))).map (fun r => r.synonym)))

/-- Aggregated synonym columns of one subject. -/
structure SynAgg where
  cid : Nat
  synonyms_list : Option (List String)
  synonyms_json : String
  synonyms_n : Nat
  synonyms_preview : String
  primary_name_from_synonyms : Option String
  deriving DecidableEq, Repr

/-- Synonym aggregation over the core subject list: an empty input
table gives the none column everywhere, otherwise the groups are left
joined onto the core subjects; the JSON, count, preview and first
synonym columns are derived from the optional list exactly as the
apply lambdas derive them, with the empty-array, zero and empty-string
defaults for a missing list. -/
def synAgg (coreCids : List Nat) (syn : List SynRow) : List SynAgg :=
  let joined : List (Nat × Option (List String)) :=
    if syn.isEmpty then coreCids.map (fun c => (c, none))
    else (leftJoin coreCids (synGroups syn) (fun c => c) (fun g => g.1)).map
      (fun p => (p.1, p.2.map (fun g => g.2)))
  joined.map (fun p =>
    { cid := p.1
      synonyms_list := p.2
      synonyms_json :=
        match p.2 with
        | some l => jsonDumps (.arr (l.map .str))
        | none => jsonDumps (.arr [])
      synonyms_n := match p.2 with | some l => l.length | none => 0
      synonyms_preview :=
        match p.2 with
        | some l => safePreviewList (l.map .str) 25
        | none => ""
      primary_name_from_synonyms :=
        match p.2 with
        | some (x :: _) => some x
        | _ => none })

/-- Grouping of the deduplicated patent rows by subject. -/
def patGroups (pat : List PatRow) : List (Nat × List String) :=
  let s := dedupByKey (fun r => (r.cid, r.patent_id)) pat
  (sortedDistinct (s.map (fun r => r.cid))).map (fun c =>
    (c, (s.filter (fun r => decide (r.cid = c))).map (fun r => r.patent_id)))

/-- Aggregated patent columns of one subject. -/
structure PatAgg where
  cid : Nat
  patent_ids_list : Option (List String)
  patent_ids_json : String
  patent_ids_n : Nat
  patent_ids_preview : String
  deriving DecidableEq, Repr

/-- Patent aggregation over the core subject list, mirroring the
synonym aggregation without the first-value column. -/
def patAgg (coreCids : List Nat) (pat : List PatRow) : List PatAgg :=
  let joined : List (Nat × Option (List String)) :=
    if pat.isEmpty then coreCids.map (fun c => (c, none))
    else (leftJoin coreCids (patGroups pat) (fun c => c) (fun g => g.1)).map
      (fun p => (p.1, p.2.map (fun g => g.2)))
  joined.map (fun p =>
    { cid := p.1
      patent_ids_list := p.2
      patent_ids_json :=
        match p.2 with
        | some l => jsonDumps (.arr (l.map .str))
        | none => jsonDumps (.arr [])
      patent_ids_n := match p.2 with | some l => l.length | none => 0
      patent_ids_preview :=
        match p.2 with
        | some l => safePreviewList (l.map .str) 25
        | none => "" })

/-- Structured object built from one MeSH row, with the raw info
column parsed back from its JSON text. -/
def meshObj (r : MeshRow) : JVal :=
  .obj [("name", r.mesh_name.getD .null),
        ("description", r.mesh_description.getD .null),
        ("reference_number", r.reference_number.getD .null),
        ("raw_info", tryJsonLoads r.raw_info_json)]

/-- Grouping of the MeSH rows by subject.  The MeSH table is the one
child table the engine does not deduplicate: every input row of a
subject contributes one object. -/
def meshGroups (mesh : List MeshRow) : List (Nat × List JVal) :=
  (sortedDistinct (mesh.map (fun r => r.cid))).map (fun c =>
    (c, (mesh.filter (fun r => decide (r.cid = c))).map meshObj))

/-- Aggregated MeSH columns of one subject. -/
structure MeshAgg where
  cid : Nat
  mesh_classes_list : Option (List JVal)
  mesh_classes_json : String
  mesh_classes_n : Nat
  mesh_classes_preview : String
  deriving DecidableEq, Repr

/-- MeSH aggregation over the core subject list; the preview takes the
name member of each object. -/
def meshAgg (coreCids : List Nat) (mesh : List MeshRow) : List MeshAgg :=
  let joined : List (Nat × Option (List JVal)) :=
    if mesh.isEmpty then coreCids.map (fun c => (c, none))
    else (leftJoin coreCids (meshGroups mesh) (fun c => c) (fun g => g.1)).map
      (fun p => (p.1, p.2.map (fun g => g.2)))
  joined.map (fun p =>
    { cid := p.1
      mesh_classes_list := p.2
      mesh_classes_json :=
        match p.2 with
        | some l => jsonDumps (.arr l)
        | none => jsonDumps (.arr [])
      mesh_classes_n := match p.2 with | some l => l.length | none => 0
      mesh_classes_preview :=
        match p.2 with
        | some l =>
            safePreviewList
              (l.filterMap (fun o =>
                match o with
                | .obj kvs => some ((jLookup "name" kvs).getD .null)
                | _ => none)) 25
        | none => "" })

/-- Structured object built from one FDA row. -/
def fdaObj (r : FdaRow) : JVal :=
  .obj [("class_type", .str r.class_type),
        ("class_group", (r.class_group.map JVal.str).getD .null),
        ("class_name", .str r.class_name),
        ("raw_text", .str r.raw_text)]

/-- Grouping of the FDA rows by subject after deduplication on the full
natural key of subject, type, group, name and raw text. -/
def fdaGroups (fda : List FdaRow) : List (Nat × List JVal) :=
  let s := dedupByKey
    (fun r => (r.cid, r.class_type, r.class_group, r.class_name, r.raw_text)) fda
  (sortedDistinct (s.map (fun r => r.cid))).map (fun c =>
    (c, (s.filter (fun r => decide (r.cid = c))).map fdaObj))

/-- Aggregated FDA columns of one subject. -/
structure FdaAgg where
  cid : Nat
  fda_classes_list : Option (List JVal)
  fda_classes_json : String
  fda_classes_n : Nat
  fda_classes_preview : String
  deriving DecidableEq, Repr

/-- FDA aggregation over the core subject list; the preview takes the
truthy raw-text members. -/
def fdaAgg (coreCids : List Nat) (fda : List FdaRow) : List FdaAgg :=
  let joined : List (Nat × Option (List JVal)) :=
    if fda.isEmpty then coreCids.map (fun c => (c, none))
    else (leftJoin coreCids (fdaGroups fda) (fun c => c) (fun g => g.1)).map
      (fun p => (p.1, p.2.map (fun g => g.2)))
  joined.map (fun p =>
    { cid := p.1
      fda_classes_list := p.2
      fda_classes_json :=
        match p.2 with
        | some l => jsonDumps (.arr l)
        | none => jsonDumps (.arr [])
      fda_classes_n := match p.2 with | some l => l.length | none => 0
      fda_classes_preview :=
        match p.2 with
        | some l =>
            safePreviewList
              (l.filterMap (fun o =>
                match o with
                | .obj kvs =>
                    (match jLookup "raw_text" kvs with
                     | some v => if jTruthy v then some v else none
                     | none => none)
                | _ => none)) 15
        | none => "" })

/-- One row of the consolidated wide table.  The derived child columns
are optional because a left-join miss would leave them missing; the
title, raw-heading and heading-status columns of the source, which are
assembled by further left joins on a right table that is again unique
per subject, are outside the scope of this embedding and do not affect
the row set. -/
structure WideRow where
  cid : Nat
  inchikey : Option String
  smiles : Option String
  connectivity_smiles : Option String
  molecular_formula : Option String
  molecular_weight : Option String
  synonyms_json : Option String
  synonyms_n : Option Nat
  synonyms_preview : Option String
  patent_ids_json : Option String
  patent_ids_n : Option Nat
  patent_ids_preview : Option String
  mesh_classes_json : Option String
  mesh_classes_n : Option Nat
  mesh_classes_preview : Option String
  fda_classes_json : Option String
  fda_classes_n : Option Nat
  fda_classes_preview : Option String
  deriving DecidableEq, Repr

/-- Model of the consolidation engine: concatenate the core fragments
in sorted file-name order, keep the first row of every subject,
aggregate the four child categories over the core subject list and left
join everything back onto the core rows. -/
def exportWide (coreFrags : List (String × List CoreRow))
    (synFrags : List (String × List SynRow)) (patFrags : List (String × List PatRow))
    (meshFrags : List (String × List MeshRow)) (fdaFrags : List (String × List FdaRow)) :
    List WideRow :=
  let core := dedupByKey (fun r => r.cid) (readParts coreFrags)
  let coreCids := core.map (fun r => r.cid)
  let synA := synAgg coreCids (readParts synFrags)
  let patA := patAgg coreCids (readParts patFrags)
  let meshA := meshAgg coreCids (readParts meshFrags)
  let fdaA := fdaAgg coreCids (readParts fdaFrags)
  let j1 := leftJoin core synA (fun r => r.cid) (fun a => a.cid)
  let j2 := leftJoin j1 patA (fun p => p.1.cid) (fun a => a.cid)
  let j3 := leftJoin j2 meshA (fun p => p.1.1.cid) (fun a => a.cid)
  let j4 := leftJoin j3 fdaA (fun p => p.1.1.1.cid) (fun a => a.cid)
  j4.map (fun p =>
    let r := p.1.1.1.1
    let sa := p.1.1.1.2
    let pa := p.1.1.2
    let ma := p.1.2
    let fa := p.2
    { cid := r.cid
      inchikey := r.inchikey
      smiles := r.smiles
      connectivity_smiles := r.connectivity_smiles
      molecular_formula := r.molecular_formula
      molecular_weight := r.molecular_weight
      synonyms_json := sa.map (fun a => a.synonyms_json)
      synonyms_n := sa.map (fun a => a.synonyms_n)
      synonyms_preview := sa.map (fun a => a.synonyms_preview)
      patent_ids_json := pa.map (fun a => a.patent_ids_json)
      patent_ids_n := pa.map (fun a => a.patent_ids_n)
      patent_ids_preview := pa.map (fun a => a.patent_ids_preview)
      mesh_classes_json := ma.map (fun a => a.mesh_classes_json)
      mesh_classes_n := ma.map (fun a => a.mesh_classes_n)
      mesh_classes_preview := ma.map (fun a => a.mesh_classes_preview)
      fda_classes_json := fa.map (fun a => a.fda_classes_json)
      fda_classes_n := fa.map (fun a => a.fda_classes_n)
      fda_classes_preview := fa.map (fun a => a.fda_classes_preview) })

/-! ## The Excel preview projection -/

/-- Value of one spreadsheet cell. -/
inductive Cell where
  | str (s : String)
  | num (n : Int)
  | null
  deriving DecidableEq, Repr

/-- Model of the truncation helper: non-strings pass through, a string
within the limit passes through, and a longer string is cut to the
limit and suffixed with the ellipsis character. -/
def truncateForExcel (limit : Nat) : Cell → Cell
  | .str s =>
      if s.length ≤ limit then .str s
      else .str (String.mk (s.data.take limit ++ ['…']))
  | v => v

/-- Suffix test on strings. -/
def strEndsWith (s tail : String) : Bool :=
  startsWithChars tail.data.reverse s.data.reverse

/-- Fixed prioritized column list of the preview sheet. -/
def excelBaseCols : List String :=
  ["cid", "primary_name", "inchikey", "smiles", "connectivity_smiles",
   "molecular_formula", "molecular_weight", "synonyms_n", "synonyms_preview",
   "patent_ids_n", "patent_ids_preview", "mesh_classes_n", "mesh_classes_preview",
   "fda_classes_n", "fda_classes_preview", "heading_http_codes_json"]

/-- Columns of the preview sheet: the prioritized columns that exist,
then the remaining JSON-suffixed columns. -/
def excelCols (wideCols : List String) : List String :=
  let extra := wideCols.filter (fun c =>
    strEndsWith c "_json" && decide (c ∉ excelBaseCols))
  (excelBaseCols.filter (fun c => decide (c ∈ wideCols)))
    ++ extra.filter (fun c => decide (c ∈ wideCols))

/-- Test selecting the columns the preview truncates: the JSON-suffixed
ones (the explicit heading-status disjunct is subsumed by the suffix
test but kept from the source). -/
def isTruncatedCol (c : String) : Bool :=
  strEndsWith c "_json" || c = "heading_http_codes_json"

/-- Model of building the preview sheet from the wide table: select the
preview columns, cap the row count, and truncate the cells of the
JSON-suffixed columns only. -/
def excelPreviewTable (limit rowsCap : Nat) (wideCols : List String)
    (rows : List (List (String × Cell))) : List (List (String × Cell)) :=
  let cols := excelCols wideCols
  (rows.take rowsCap).map (fun r =>
    cols.map (fun c =>
      let v := (assocLookup c r).getD Cell.null
      (c, if isTruncatedCol c then truncateForExcel limit v else v)))

/-- Model of the output stage of the consolidation script: the full
table is written as is, then the preview sheet is built from a copy. -/
def exportOutputs (limit rowsCap : Nat) (wideCols : List String)
    (rows : List (List (String × Cell))) :
    List (List (String × Cell)) × List (List (String × Cell)) :=
  (rows, excelPreviewTable limit rowsCap wideCols rows)

/-! ## Derived views used by the statements -/

/-- Parsed success body of one per-heading request: the JSON body when
the status was 200 and the body parsed, nothing otherwise; extraction
runs exactly on these. -/
def headingOutcome (o : Oracles) (cid : Nat) (h : String) : Option JVal :=
  let r := o.resp cid h
  if r.code = 200 then r.parsed else none

/-- Synonym rows one subject's processing buffers. -/
def producedSyn (o : Oracles) (cid : Nat) : List SynRow :=
  match headingOutcome o cid "Depositor-Supplied Synonyms" with
  | some j => extractDepositorSynonyms cid j
  | none => []

/-- Patent rows one subject's processing buffers. -/
def producedPat (o : Oracles) (cid : Nat) : List PatRow :=
  match headingOutcome o cid "Depositor-Supplied Patent Identifiers" with
  | some j => extractDepositorPatentIds cid j
  | none => []

/-- MeSH rows one subject's processing buffers. -/
def producedMesh (o : Oracles) (cid : Nat) : List MeshRow :=
  match headingOutcome o cid "MeSH Pharmacological Classification" with
  | some j => extractMeshPharmRows cid j
  | none => []

/-- FDA rows one subject's processing buffers. -/
def producedFda (o : Oracles) (cid : Nat) : List FdaRow :=
  match headingOutcome o cid "FDA Pharmacological Classification" with
  | some j => extractFdaPharmRows cid j
  | none => []

/-- HTTP outcome rows one subject's processing buffers, one per heading
in fetch order. -/
def producedHM (o : Oracles) (cid : Nat) : List HMRow :=
  HEADINGS.map (fun h =>
    let r := o.resp cid h
    HMRow.mk cid h r.code r.nbytes)

/-- Raw-passthrough rows one subject's processing buffers. -/
def producedRaw (o : Oracles) (cid : Nat) : List RawRow :=
  HEADINGS.filterMap (fun h =>
    match headingOutcome o cid h with
    | some j =>
        (match assocLookup h RAW_HEADINGS with
         | some col => some (RawRow.mk cid h col (jsonDumps j))
         | none => none)
    | none => none)

/-- All synonym rows present in fragments of the store. -/
def storeRowsSyn (s : Store) : List SynRow :=
  s.flatMap (fun kv => match kv.2 with | .syn rs => rs | _ => [])

/-- All patent rows present in fragments of the store. -/
def storeRowsPat (s : Store) : List PatRow :=
  s.flatMap (fun kv => match kv.2 with | .pat rs => rs | _ => [])

/-- All MeSH rows present in fragments of the store. -/
def storeRowsMesh (s : Store) : List MeshRow :=
  s.flatMap (fun kv => match kv.2 with | .mesh rs => rs | _ => [])

/-- All FDA rows present in fragments of the store. -/
def storeRowsFda (s : Store) : List FdaRow :=
  s.flatMap (fun kv => match kv.2 with | .fda rs => rs | _ => [])

/-- All HTTP outcome rows present in fragments of the store. -/
def storeRowsHM (s : Store) : List HMRow :=
  s.flatMap (fun kv => match kv.2 with | .hm rs => rs | _ => [])

/-- All raw-passthrough rows present in fragments of the store. -/
def storeRowsRaw (s : Store) : List RawRow :=
  s.flatMap (fun kv => match kv.2 with | .raw rs => rs | _ => [])

/-- All core rows present in fragments of the store. -/
def storeRowsCore (s : Store) : List CoreRow :=
  s.flatMap (fun kv => match kv.2 with | .core rs => rs | _ => [])

/-! ## Concrete fixtures used by witnesses and counterexamples -/

/-- Response whose record carries the given markup strings. -/
def swmResponse (ss : List String) : JVal :=
  .obj [("Record", .obj [("StringWithMarkup",
    .arr (ss.map (fun s => .obj [("String", .str s)])))])]

/-- Network oracle whose heading endpoint always answers 404 with an
unparseable body and whose property endpoint knows no subject. -/
def notFoundOracles : Oracles :=
  ⟨fun _ _ => none, fun _ _ => ⟨404, none, 0⟩⟩

/-- Store left behind by a previous run: one heading-meta fragment
numbered one, holding the outcome row of subject one. -/
def c2InitStore : Store :=
  [(("heading_meta", 1), .hm [⟨1, "3D Conformer", 200, 7⟩])]

/-- Arguments of a resumed run over the id list of subjects one and
two, with subject one already checkpointed. -/
def c2Args : RunArgs :=
  { idLines := ["1", "2"], cpLines := ["1"], maxIds := none,
    batchSize := 100, flushEvery := 250 }

/-- The resumed run of the overwrite scenario. -/
def c2Run : LoopState := runMain c2Args notFoundOracles c2InitStore []

/-- Parseable body cached for subject one's first heading by a previous
run. -/
def c4CachedVal : JVal := .obj [("Record", .obj [("RecordNumber", .num 1)])]

/-- Fresh body the network returns in the cache scenario. -/
def c4NewVal : JVal := .obj [("changed", .bool true)]

/-- Network oracle of the cache scenario: every heading request
succeeds with the fresh body. -/
def c4Oracles : Oracles :=
  ⟨fun _ _ => none, fun _ _ => ⟨200, some c4NewVal, 9⟩⟩

/-- Cache holding a parseable entry for subject one's first heading. -/
def c4Cache0 : Cache := [((1, "3D Conformer"), c4CachedVal)]

/-- Arguments of the cache scenario run: one subject, nothing
checkpointed. -/
def c4Args : RunArgs :=
  { idLines := ["1"], cpLines := [], maxIds := none,
    batchSize := 100, flushEvery := 250 }

/-- The run of the cache scenario. -/
def c4Run : LoopState := runMain c4Args c4Oracles [] c4Cache0

/-- MeSH row duplicated by reprocessing in the deduplication
scenario. -/
def c5Row : MeshRow := ⟨1, some (.str "Analgesics"), none, none, ""⟩

/-- A forty-thousand character string cell payload. -/
def bigString : String := String.mk (List.replicate 40000 'a')

/-- The per-subject loop of a whole run, before the final
core-directory fallback write. -/
def runMainLoop (a : RunArgs) (o : Oracles) (store0 : Store) (cache0 : Cache) : LoopState :=
  runLoop o (buildCore o a.batchSize (runWorklist a)).1 a.flushEvery 1 (runWorklist a)
    { partIdx := 0, bufHM := [], bufSyn := [], bufPat := [], bufMesh := [],
      bufFda := [], bufRaw := [], processedNow := [], checkpointLog := [],
      store := store0, cache := cache0, trace := (buildCore o a.batchSize (runWorklist a)).2 }

/-- Buffer invariant of the loop: each category buffer holds exactly
the rows produced for the subjects processed since the last flush, in
processing order. -/
def BufInv (o : Oracles) (st : LoopState) : Prop :=
  st.bufHM = st.processedNow.flatMap (producedHM o)
  ∧ st.bufSyn = st.processedNow.flatMap (producedSyn o)
  ∧ st.bufPat = st.processedNow.flatMap (producedPat o)
  ∧ st.bufMesh = st.processedNow.flatMap (producedMesh o)
  ∧ st.bufFda = st.processedNow.flatMap (producedFda o)
  ∧ st.bufRaw = st.processedNow.flatMap (producedRaw o)

/-- Durability invariant of the loop: every checkpointed subject that
produced rows in a category has a written fragment of that category
holding all of them. -/
def StoreInv (o : Oracles) (st : LoopState) : Prop :=
  ∀ c ∈ st.checkpointLog,
    (producedHM o c ≠ [] → ∃ i rs, i ≤ st.partIdx
      ∧ assocLookup ("heading_meta", i) st.store = some (Rows.hm rs)
      ∧ producedHM o c ⊆ rs)
    ∧ (producedSyn o c ≠ [] → ∃ i rs, i ≤ st.partIdx
      ∧ assocLookup ("depositor_synonyms", i) st.store = some (Rows.syn rs)
      ∧ producedSyn o c ⊆ rs)
    ∧ (producedPat o c ≠ [] → ∃ i rs, i ≤ st.partIdx
      ∧ assocLookup ("depositor_patent_ids", i) st.store = some (Rows.pat rs)
      ∧ producedPat o c ⊆ rs)
    ∧ (producedMesh o c ≠ [] → ∃ i rs, i ≤ st.partIdx
      ∧ assocLookup ("mesh_pharm_class", i) st.store = some (Rows.mesh rs)
      ∧ producedMesh o c ⊆ rs)
    ∧ (producedFda o c ≠ [] → ∃ i rs, i ≤ st.partIdx
      ∧ assocLookup ("fda_pharm_class", i) st.store = some (Rows.fda rs)
      ∧ producedFda o c ⊆ rs)
    ∧ (producedRaw o c ≠ [] → ∃ i rs, i ≤ st.partIdx
      ∧ assocLookup ("pugview_raw_headings", i) st.store = some (Rows.raw rs)
      ∧ producedRaw o c ⊆ rs)

/-- Core fragment row of the consolidation witness scenario. -/
def c6Core : CoreRow := ⟨7, some "IK", none, none, none, none⟩

/-- The single wide row of the consolidation witness scenario. -/
def c6W : WideRow :=
  { cid := 7, inchikey := some "IK", smiles := none, connectivity_smiles := none,
    molecular_formula := none, molecular_weight := none,
    synonyms_json := some "[]", synonyms_n := some 0, synonyms_preview := some "",
    patent_ids_json := some "[]", patent_ids_n := some 0, patent_ids_preview := some "",
    mesh_classes_json := some "[]", mesh_classes_n := some 0,
    mesh_classes_preview := some "",
    fda_classes_json := some "[]", fda_classes_n := some 0,
    fda_classes_preview := some "" }

/-! # Theorems

General lemmas about the list machinery, followed by one theorem per
claim of the specification review, each with its witnesses and
counterexamples. -/

theorem dedupByKeyGo_eq_nil [DecidableEq β] (key : α → β) (seen : List β) :
    ∀ l : List α, (∀ x ∈ l, key x ∈ seen) → dedupByKeyGo key seen l = [] := by
  intro l
  induction l with
  | nil => intro _; rfl
  | cons x xs ih =>
      intro h
      have hx : key x ∈ seen := h x (by simp)
      simp only [dedupByKeyGo, if_pos hx]
      exact ih (fun y hy => h y (by simp [hy]))

theorem dedupByKeyGo_absorb [DecidableEq β] (key : α → β) :
    ∀ (l d : List α) (seen : List β),
      (∀ x ∈ d, key x ∈ seen ∨ key x ∈ l.map key) →
      dedupByKeyGo key seen (l ++ d) = dedupByKeyGo key seen l := by
  intro l
  induction l with
  | nil =>
      intro d seen h
      simp only [List.nil_append, dedupByKeyGo]
      exact dedupByKeyGo_eq_nil key seen d (fun x hx => by
        rcases h x hx with h1 | h1
        · exact h1
        · simp at h1)
  | cons x xs ih =>
      intro d seen h
      by_cases hx : key x ∈ seen
      · simp only [List.cons_append, dedupByKeyGo, if_pos hx]
        exact ih d seen (fun y hy => by
          rcases h y hy with h1 | h1
          · exact Or.inl h1
          · simp only [List.map_cons, List.mem_cons] at h1
            rcases h1 with h1 | h1
            · exact Or.inl (h1 ▸ hx)
            · exact Or.inr h1)
      · simp only [List.cons_append, dedupByKeyGo, if_neg hx, List.append_eq]
        rw [ih d (key x :: seen) (fun y hy => by
          rcases h y hy with h1 | h1
          · exact Or.inl (by simp [h1])
          · simp only [List.map_cons, List.mem_cons] at h1
            rcases h1 with h1 | h1
            · exact Or.inl (by simp [h1])
            · exact Or.inr h1)]

/-- Appending rows whose keys already occur in the input does not
change the key-based deduplication: the duplicates are absorbed. -/
theorem dedupByKey_absorb [DecidableEq β] (key : α → β) (l d : List α)
    (h : ∀ x ∈ d, key x ∈ l.map key) :
    dedupByKey key (l ++ d) = dedupByKey key l :=
  dedupByKeyGo_absorb key l d [] (fun x hx => Or.inr (h x hx))

theorem dedupByKeyGo_sublist [DecidableEq β] (key : α → β) :
    ∀ (l : List α) (seen : List β), (dedupByKeyGo key seen l).Sublist l := by
  intro l
  induction l with
  | nil => intro seen; simp [dedupByKeyGo]
  | cons x xs ih =>
      intro seen
      by_cases hx : key x ∈ seen
      · simp only [dedupByKeyGo, if_pos hx]
        exact (ih seen).cons x
      · simp only [dedupByKeyGo, if_neg hx]
        exact (ih (key x :: seen)).cons₂ x

theorem mem_of_mem_dedupByKey [DecidableEq β] (key : α → β) (l : List α) {r : α}
    (h : r ∈ dedupByKey key l) : r ∈ l :=
  (dedupByKeyGo_sublist key l []).mem h

theorem dedupByKeyGo_find [DecidableEq β] (key : α → β) :
    ∀ (l : List α) (seen : List β) (r : α), r ∈ dedupByKeyGo key seen l →
      key r ∉ seen ∧ l.find? (fun x => decide (key x = key r)) = some r := by
  intro l
  induction l with
  | nil => intro seen r h; simp [dedupByKeyGo] at h
  | cons x xs ih =>
      intro seen r h
      by_cases hx : key x ∈ seen
      · simp only [dedupByKeyGo, if_pos hx] at h
        obtain ⟨hns, hf⟩ := ih seen r h
        refine ⟨hns, ?_⟩
        have hne : (decide (key x = key r)) = false := by
          rw [decide_eq_false_iff_not]
          intro hcon
          exact hns (hcon ▸ hx)
        simp [List.find?_cons, hne, hf]
      · simp only [dedupByKeyGo, if_neg hx, List.mem_cons] at h
        rcases h with h | h
        · subst h
          refine ⟨hx, ?_⟩
          rw [List.find?_cons_of_pos _ (by simp)]
        · obtain ⟨hns, hf⟩ := ih (key x :: seen) r h
          simp only [List.mem_cons, not_or] at hns
          refine ⟨hns.2, ?_⟩
          have hne : (decide (key x = key r)) = false := by
            rw [decide_eq_false_iff_not]
            intro hcon
            exact hns.1 hcon.symm
          simp [List.find?_cons, hne, hf]

/-- Every row the key-based deduplication keeps is the first input row
carrying its key. -/
theorem dedupByKey_first [DecidableEq β] (key : α → β) (l : List α) (r : α)
    (h : r ∈ dedupByKey key l) :
    l.find? (fun x => decide (key x = key r)) = some r :=
  (dedupByKeyGo_find key l [] r h).2

theorem mem_map_key_dedupByKeyGo [DecidableEq β] (key : α → β) :
    ∀ (l : List α) (seen : List β) (c : β),
      c ∈ (dedupByKeyGo key seen l).map key ↔ c ∈ l.map key ∧ c ∉ seen := by
  intro l
  induction l with
  | nil => intro seen c; simp [dedupByKeyGo]
  | cons x xs ih =>
      intro seen c
      by_cases hx : key x ∈ seen
      · simp only [dedupByKeyGo, if_pos hx, ih, List.map_cons, List.mem_cons]
        constructor
        · rintro ⟨h1, h2⟩; exact ⟨Or.inr h1, h2⟩
        · rintro ⟨h1 | h1, h2⟩
          · exact absurd (h1 ▸ hx) h2
          · exact ⟨h1, h2⟩
      · simp only [dedupByKeyGo, if_neg hx, List.map_cons, List.mem_cons, ih]
        constructor
        · rintro (h1 | ⟨h1, h2⟩)
          · exact ⟨Or.inl h1, h1 ▸ hx⟩
          · simp only [List.mem_cons, not_or] at h2
            exact ⟨Or.inr h1, h2.2⟩
        · rintro ⟨h1 | h1, h2⟩
          · exact Or.inl h1
          · by_cases hcx : c = key x
            · exact Or.inl hcx
            · exact Or.inr ⟨h1, by simp [hcx, h2]⟩

/-- Key-based deduplication keeps exactly the keys of the input. -/
theorem mem_map_key_dedupByKey [DecidableEq β] (key : α → β) (l : List α) (c : β) :
    c ∈ (dedupByKey key l).map key ↔ c ∈ l.map key := by
  rw [dedupByKey, mem_map_key_dedupByKeyGo]
  simp

theorem nodup_map_key_dedupByKeyGo [DecidableEq β] (key : α → β) :
    ∀ (l : List α) (seen : List β), ((dedupByKeyGo key seen l).map key).Nodup := by
  intro l
  induction l with
  | nil => intro seen; simp [dedupByKeyGo]
  | cons x xs ih =>
      intro seen
      by_cases hx : key x ∈ seen
      · simp only [dedupByKeyGo, if_pos hx]; exact ih seen
      · simp only [dedupByKeyGo, if_neg hx, List.map_cons, List.nodup_cons]
        refine ⟨?_, ih (key x :: seen)⟩
        intro hmem
        have := (mem_map_key_dedupByKeyGo key xs (key x :: seen) (key x)).mp hmem
        simp at this

/-- The keys of the key-based deduplication are distinct. -/
theorem nodup_map_key_dedupByKey [DecidableEq β] (key : α → β) (l : List α) :
    ((dedupByKey key l).map key).Nodup :=
  nodup_map_key_dedupByKeyGo key l []

theorem sortedDistinct_nodup (l : List Nat) : (sortedDistinct l).Nodup :=
  ((List.perm_insertionSort _ _).nodup_iff).mpr (List.nodup_dedup l)

theorem mem_sortedDistinct (l : List Nat) (c : Nat) :
    c ∈ sortedDistinct l ↔ c ∈ l := by
  rw [sortedDistinct, (List.perm_insertionSort _ _).mem_iff, List.mem_dedup]

theorem sortedDistinct_sorted (l : List Nat) :
    (sortedDistinct l).Sorted (· ≤ ·) :=
  List.sorted_insertionSort _ _

theorem sortedDistinct_sorted_lt (l : List Nat) :
    (sortedDistinct l).Sorted (· < ·) := by
  have hs := sortedDistinct_sorted l
  have hn := sortedDistinct_nodup l
  have := List.Pairwise.and hs hn
  exact this.imp (fun h => lt_of_le_of_ne h.1 h.2)

theorem chunksOf_flatten (bs : Nat) (h : bs ≠ 0) :
    ∀ l : List α, (chunksOf bs l).flatMap id = l
  | [] => by simp [chunksOf]
  | x :: xs => by
      rw [chunksOf]
      simp only [dif_neg h, List.flatMap_cons, id]
      rw [chunksOf_flatten bs h ((x :: xs).drop bs)]
      exact List.take_append_drop bs (x :: xs)
termination_by l => l.length
decreasing_by
  have hbs : 0 < bs := Nat.pos_of_ne_zero h
  simp only [List.length_drop, List.length_cons]
  omega

theorem chunksOf_mem_sub (bs : Nat) :
    ∀ (l : List α) (ch : List α), ch ∈ chunksOf bs l → ∀ x ∈ ch, x ∈ l
  | [], ch => by simp [chunksOf]
  | y :: ys, ch => by
      intro hch x hx
      rw [chunksOf] at hch
      by_cases h : bs = 0
      · simp [h] at hch
      · simp only [dif_neg h, List.mem_cons] at hch
        rcases hch with hch | hch
        · subst hch
          exact (List.take_sublist bs (y :: ys)).mem hx
        · exact (List.drop_sublist bs (y :: ys)).mem
            (chunksOf_mem_sub bs ((y :: ys).drop bs) ch hch x hx)
termination_by l => l.length
decreasing_by
  have hbs : 0 < bs := Nat.pos_of_ne_zero h
  simp only [List.length_drop, List.length_cons]
  omega

theorem lexLe_total : ∀ a b : List Char, lexLe a b = true ∨ lexLe b a = true := by
  intro a
  induction a with
  | nil => intro b; left; rfl
  | cons x xs ih =>
      intro b
      cases b with
      | nil => right; rfl
      | cons y ys =>
          by_cases h1 : x.toNat < y.toNat
          · left; simp [lexLe, h1]
          · by_cases h2 : y.toNat < x.toNat
            · right; simp [lexLe, h1, h2]
            · rcases ih ys with h | h
              · left; simp [lexLe, h1, h2, h]
              · right; simp [lexLe, h1, h2, h]

theorem lexLe_trans : ∀ a b c : List Char,
    lexLe a b = true → lexLe b c = true → lexLe a c = true := by
  intro a
  induction a with
  | nil => intro b c _ _; rfl
  | cons x xs ih =>
      intro b c hab hbc
      cases b with
      | nil => simp [lexLe] at hab
      | cons y ys =>
          cases c with
          | nil => simp [lexLe] at hbc
          | cons z zs =>
              simp only [lexLe] at hab hbc ⊢
              by_cases hxy : x.toNat < y.toNat
              · by_cases hyz : y.toNat < z.toNat
                · simp [show x.toNat < z.toNat by omega]
                · simp only [if_neg hyz] at hbc
                  by_cases hzy : z.toNat < y.toNat
                  · simp [if_pos hzy] at hbc
                  · simp [show x.toNat < z.toNat by omega]
              · simp only [if_neg hxy] at hab
                by_cases hyx : y.toNat < x.toNat
                · simp [if_pos hyx] at hab
                · simp only [if_neg hyx] at hab
                  by_cases hyz : y.toNat < z.toNat
                  · simp [show x.toNat < z.toNat by omega]
                  · simp only [if_neg hyz] at hbc
                    by_cases hzy : z.toNat < y.toNat
                    · simp [if_pos hzy] at hbc
                    · simp only [if_neg hzy] at hbc
                      have hxz : ¬ x.toNat < z.toNat := by omega
                      have hzx : ¬ z.toNat < x.toNat := by omega
                      simp only [if_neg hxz, if_neg hzx]
                      exact ih ys zs hab hbc

instance strLeTotal : IsTotal String (fun a b => strLe a b = true) :=
  ⟨fun a b => lexLe_total a.data b.data⟩

instance strLeTrans : IsTrans String (fun a b => strLe a b = true) :=
  ⟨fun a b c => lexLe_trans a.data b.data c.data⟩

/-- Sorting strings yields a code-point-ascending chain. -/
theorem sortStrings_sorted (l : List String) :
    (sortStrings l).Sorted (fun a b => strLe a b = true) :=
  List.sorted_insertionSort _ l

theorem mem_sortStrings (l : List String) (s : String) :
    s ∈ sortStrings l ↔ s ∈ l :=
  (List.perm_insertionSort _ _).mem_iff

theorem sortStrings_nodup (l : List String) (h : l.Nodup) :
    (sortStrings l).Nodup :=
  ((List.perm_insertionSort _ _).nodup_iff).mpr h

theorem filter_singleton_of_nodup_keys {β : Type} (kb : β → Nat) :
    ∀ (r : List β), ((r.map kb).Nodup) → ∀ k : Nat,
      r.filter (fun b => decide (kb b = k)) = [] ∨
      ∃ b, kb b = k ∧ r.filter (fun b => decide (kb b = k)) = [b] := by
  intro r
  induction r with
  | nil => intro _ k; left; rfl
  | cons b bs ih =>
      intro hn k
      simp only [List.map_cons, List.nodup_cons] at hn
      by_cases hb : kb b = k
      · right
        refine ⟨b, hb, ?_⟩
        rw [List.filter_cons_of_pos (by simp [hb])]
        have : bs.filter (fun x => decide (kb x = k)) = [] := by
          apply List.filter_eq_nil_iff.mpr
          intro x hx
          simp only [decide_eq_true_eq]
          intro hcon
          have hmem : kb x ∈ List.map kb bs := List.mem_map_of_mem kb hx
          rw [hcon, ← hb] at hmem
          exact hn.1 hmem
        rw [this]
      · rw [List.filter_cons_of_neg (by simp [hb])]
        exact ih hn.2 k

/-- A left join against a right table with distinct keys pairs every
left row with the optional unique matching right row, in left order. -/
theorem leftJoin_unique {α β : Type} (l : List α) (r : List β)
    (ka : α → Nat) (kb : β → Nat) (hr : (r.map kb).Nodup) :
    leftJoin l r ka kb =
      l.map (fun a => (a, (r.filter (fun b => decide (kb b = ka a))).head?)) := by
  rw [leftJoin]
  induction l with
  | nil => rfl
  | cons a as ih =>
      simp only [List.flatMap_cons, List.map_cons]
      rw [← ih]
      rcases filter_singleton_of_nodup_keys kb r hr (ka a) with h | ⟨b, _, h⟩
      · rw [h]; rfl
      · rw [h]; rfl

/-! ## Claim C8: the FDA classification grammar -/

/-- C8.  Every FDA response string is split on semicolons and each
nonempty stripped fragment is classified with the group pattern first
and the suffix pattern second, first match wins: the three scenario
fragments give the two claimed rows and no row for the plain-text
fragment; in general a produced row carries the subject, the fragment
as raw text, and has a group exactly when the group pattern matched,
and a fragment yields no row exactly when neither pattern matches. -/
theorem claim_C8 :
    extractFdaPharmRows 7 (swmResponse
        ["Kinase Inhibitor [EPC] - Tyrosine Kinase Inhibitor; Anti-inflammatory [EPC]; just text"]) =
      [⟨7, "EPC", some "Kinase Inhibitor", "Tyrosine Kinase Inhibitor",
        "Kinase Inhibitor [EPC] - Tyrosine Kinase Inhibitor"⟩,
       ⟨7, "EPC", none, "Anti-inflammatory", "Anti-inflammatory [EPC]"⟩]
    ∧ (∀ (cid : Nat) (p : String) (row : FdaRow), classifyFdaFragment cid p = some row →
        row.cid = cid ∧ row.raw_text = p ∧
        row.class_group.isSome = (fdaGroupMatch p).isSome)
    ∧ (∀ (cid : Nat) (p : String), classifyFdaFragment cid p = none ↔
        (fdaGroupMatch p = none ∧ fdaSuffixMatch p = none)) := by
  refine ⟨by decide, ?_, ?_⟩
  · intro cid p row h
    unfold classifyFdaFragment at h
    cases hg : fdaGroupMatch p with
    | some gtn =>
        obtain ⟨g, t, n⟩ := gtn
        rw [hg] at h
        cases h
        simp [hg]
    | none =>
        rw [hg] at h
        cases hs : fdaSuffixMatch p with
        | some nt =>
            obtain ⟨n, t⟩ := nt
            rw [hs] at h
            cases h
            simp [hg]
        | none => rw [hs] at h; cases h
  · intro cid p
    unfold classifyFdaFragment
    cases hg : fdaGroupMatch p with
    | some gtn => obtain ⟨g, t, n⟩ := gtn; simp
    | none =>
        cases hs : fdaSuffixMatch p with
        | some nt => obtain ⟨n, t⟩ := nt; simp
        | none => simp

/-- C8 witness: the general components applied at a concrete fragment
matched by the suffix pattern only. -/
theorem claim_C8_witness :
    ((classifyFdaFragment 3 "Analgesic [EPC]" =
        some ⟨3, "EPC", none, "Analgesic", "Analgesic [EPC]"⟩) ∧
      ((FdaRow.mk 3 "EPC" none "Analgesic" "Analgesic [EPC]").cid = 3 ∧
        (FdaRow.mk 3 "EPC" none "Analgesic" "Analgesic [EPC]").raw_text = "Analgesic [EPC]" ∧
        (FdaRow.mk 3 "EPC" none "Analgesic" "Analgesic [EPC]").class_group.isSome =
          (fdaGroupMatch "Analgesic [EPC]").isSome) ∧
      (classifyFdaFragment 3 "just text" = none ↔
        (fdaGroupMatch "just text" = none ∧ fdaSuffixMatch "just text" = none))) :=
  ⟨by decide,
   claim_C8.2.1 3 "Analgesic [EPC]" ⟨3, "EPC", none, "Analgesic", "Analgesic [EPC]"⟩ (by decide),
   claim_C8.2.2 3 "just text"⟩

/-! ## Claim C9: the patent-identifier extractor -/

/-- C9 counterexample: the claimed scenario output is wrong on the
code.  The string containing the identifier inside longer text does not
match the exact pattern, so the extractor returns only the one exact
token and not the claimed two-element list. -/
theorem claim_C9_cex :
    (extractDepositorPatentIds 9 (swmResponse ["US1234567", "US1234567", "see US7654321"])).map
        (fun r => r.patent_id) ≠ ["US1234567", "US7654321"] := by
  decide

/-- C9 as amended.  The extractor returns exactly the distinct stripped
flattened strings that are the letters US followed by one or more
digits, sorted ascending, each tagged with the subject; the scenario
response containing the two exact duplicates and the identifier inside
longer text extracts only the one exact token. -/
theorem claim_C9 (cid : Nat) (j : JVal) :
    ((extractDepositorPatentIds cid j).map (fun r => r.patent_id)).Pairwise
        (fun a b => strLe a b = true)
    ∧ ((extractDepositorPatentIds cid j).map (fun r => r.patent_id)).Nodup
    ∧ (∀ p : String, p ∈ (extractDepositorPatentIds cid j).map (fun r => r.patent_id) ↔
        ∃ s ∈ extractSWM j, pyStrip s = p ∧ isUSPatentTok p.data = true)
    ∧ (∀ r ∈ extractDepositorPatentIds cid j, r.cid = cid)
    ∧ (extractDepositorPatentIds 9 (swmResponse ["US1234567", "US1234567", "see US7654321"]) =
        [⟨9, "US1234567"⟩]) := by
  have hmap : (extractDepositorPatentIds cid j).map (fun r => r.patent_id) =
      sortStrings (dedupByKey (fun t => t)
        ((extractSWM j).filterMap (fun s =>
          let t := pyStrip s
          if isUSPatentTok t.data then some t else none))) := by
    rw [extractDepositorPatentIds]
    rw [List.map_map]
    exact List.map_id _
  refine ⟨?_, ?_, ?_, ?_, by decide⟩
  · rw [hmap]; exact sortStrings_sorted _
  · rw [hmap]
    apply sortStrings_nodup
    have := nodup_map_key_dedupByKey (fun t : String => t)
      ((extractSWM j).filterMap (fun s =>
        let t := pyStrip s
        if isUSPatentTok t.data then some t else none))
    simpa using this
  · intro p
    rw [hmap, mem_sortStrings]
    have hdk : ∀ l : List String, (p ∈ dedupByKey (fun t => t) l ↔ p ∈ l) := by
      intro l
      have := mem_map_key_dedupByKey (fun t : String => t) l p
      simpa using this
    rw [hdk, List.mem_filterMap]
    constructor
    · rintro ⟨s, hs, hf⟩
      simp only at hf
      by_cases ht : isUSPatentTok (pyStrip s).data = true
      · rw [if_pos ht] at hf
        cases hf
        exact ⟨s, hs, rfl, ht⟩
      · rw [if_neg (by simpa using ht)] at hf
        cases hf
    · rintro ⟨s, hs, hst, ht⟩
      refine ⟨s, hs, ?_⟩
      simp only
      rw [hst, if_pos ht]
  · intro r hr
    rw [extractDepositorPatentIds] at hr
    simp only [List.mem_map] at hr
    obtain ⟨p, _, hp⟩ := hr
    rw [← hp]

/-- C9 witness: the amended theorem applied at the scenario input, with
the membership component decided at the extracted token. -/
theorem claim_C9_witness :
    ("US1234567" ∈ (extractDepositorPatentIds 9
        (swmResponse ["US1234567", "US1234567", "see US7654321"])).map (fun r => r.patent_id) ↔
      ∃ s ∈ extractSWM (swmResponse ["US1234567", "US1234567", "see US7654321"]),
        pyStrip s = "US1234567" ∧ isUSPatentTok ("US1234567").data = true) ∧
    (∀ r ∈ extractDepositorPatentIds 9
        (swmResponse ["US1234567", "US1234567", "see US7654321"]), r.cid = 9) :=
  ⟨(claim_C9 9 (swmResponse ["US1234567", "US1234567", "see US7654321"])).2.2.1 "US1234567",
   (claim_C9 9 (swmResponse ["US1234567", "US1234567", "see US7654321"])).2.2.2.1⟩

/-! ## Claim C7: the Excel preview truncation -/

theorem bigString_length : bigString.length = 40000 := by
  show (List.replicate 40000 'a').length = 40000
  exact List.length_replicate 40000 'a'

theorem truncate_bigString :
    truncateForExcel 30000 (Cell.str bigString) =
      Cell.str (String.mk (List.replicate 30000 'a' ++ ['…'])) := by
  have hlen : ¬ bigString.length ≤ 30000 := by rw [bigString_length]; omega
  rw [truncateForExcel, if_neg hlen]
  have hdata : bigString.data = List.replicate 40000 'a' := rfl
  rw [hdata, List.take_replicate, min_eq_left (by omega)]

/-- C7 counterexample: the preview does not truncate every long string
cell.  A forty-thousand character string in the synonyms-preview
column, which is not a JSON column, reaches the preview output
unchanged and in particular is not the thirty-thousand character
truncation with the marker. -/
theorem claim_C7_cex :
    excelPreviewTable 30000 5000 ["cid", "synonyms_preview"]
        [[("cid", Cell.num 1), ("synonyms_preview", Cell.str bigString)]] =
      [[("cid", Cell.num 1), ("synonyms_preview", Cell.str bigString)]]
    ∧ bigString.length = 40000
    ∧ truncateForExcel 30000 (Cell.str bigString) ≠ Cell.str bigString := by
  refine ⟨rfl, bigString_length, ?_⟩
  rw [truncate_bigString]
  intro h
  rw [Cell.str.injEq] at h
  have hd : List.replicate 30000 'a' ++ ['…'] = bigString.data := congrArg String.data h
  have hlen : (List.replicate 30000 'a' ++ ['…']).length = bigString.data.length :=
    congrArg List.length hd
  have h1 : (List.replicate 30000 'a' ++ ['…']).length = 30001 := by
    rw [List.length_append, List.length_replicate]
    rfl
  have h2 : bigString.data.length = 40000 := bigString_length
  omega

set_option maxRecDepth 4000 in
/-- C7 as amended.  In the preview output only the cells of
JSON-suffixed columns are truncated: a string cell within the limit
passes unchanged, a longer one in a JSON column is cut to the limit and
suffixed with the ellipsis marker, every preview cell is the selected
transform of the corresponding full-table cell, building the preview
leaves the full-table output untouched, and the forty-thousand
character JSON payload appears unmodified in the full table and
truncated to thirty thousand characters plus the marker in the
preview.  String cells of non-JSON preview columns are not truncated,
as the counterexample shows. -/
theorem claim_C7 :
    (∀ (limit : Nat) (s : String), s.length ≤ limit →
      truncateForExcel limit (Cell.str s) = Cell.str s)
    ∧ (∀ (limit : Nat) (s : String), limit < s.length →
      truncateForExcel limit (Cell.str s) =
          Cell.str (String.mk (s.data.take limit ++ ['…']))
        ∧ (String.mk (s.data.take limit ++ ['…'])).length = limit + 1)
    ∧ (∀ (limit cap : Nat) (wideCols : List String) (rows : List (List (String × Cell))),
      (exportOutputs limit cap wideCols rows).1 = rows)
    ∧ (∀ (limit cap : Nat) (wideCols : List String) (rows : List (List (String × Cell)))
        (row : List (String × Cell)), row ∈ excelPreviewTable limit cap wideCols rows →
        ∃ r ∈ rows.take cap, row = (excelCols wideCols).map (fun c =>
          (c, if isTruncatedCol c then
                truncateForExcel limit ((assocLookup c r).getD Cell.null)
              else (assocLookup c r).getD Cell.null)))
    ∧ (excelPreviewTable 30000 5000 ["cid", "synonyms_json"]
          [[("synonyms_json", Cell.str bigString)]] =
        [[("cid", Cell.null),
          ("synonyms_json", Cell.str (String.mk (List.replicate 30000 'a' ++ ['…'])))]]
      ∧ (exportOutputs 30000 5000 ["cid", "synonyms_json"]
          [[("synonyms_json", Cell.str bigString)]]).1 =
        [[("synonyms_json", Cell.str bigString)]]) := by
  refine ⟨?_, ?_, ?_, ?_, ?_, rfl⟩
  · intro limit s h
    simp [truncateForExcel, h]
  · intro limit s h
    constructor
    · simp [truncateForExcel, Nat.not_le.mpr h]
    · show (s.data.take limit ++ ['…']).length = limit + 1
      rw [List.length_append, List.length_take]
      have hs : limit ≤ s.data.length := Nat.le_of_lt h
      rw [min_eq_left hs]
      rfl
  · intro limit cap wideCols rows
    rfl
  · intro limit cap wideCols rows row hrow
    simp only [excelPreviewTable, List.mem_map] at hrow
    obtain ⟨r, hr, hform⟩ := hrow
    exact ⟨r, hr, hform.symm⟩
  · have key : ∀ v : Cell,
        excelPreviewTable 30000 5000 ["cid", "synonyms_json"] [[("synonyms_json", v)]] =
          [[("cid", Cell.null), ("synonyms_json", truncateForExcel 30000 v)]] :=
      fun v => rfl
    rw [key, truncate_bigString]

/-- C7 witness: the truncation components applied at small concrete
strings on both sides of the limit. -/
theorem claim_C7_witness :
    truncateForExcel 30000 (Cell.str "ab") = Cell.str "ab"
    ∧ (truncateForExcel 1 (Cell.str "abc") =
        Cell.str (String.mk (("abc").data.take 1 ++ ['…']))
      ∧ (String.mk (("abc").data.take 1 ++ ['…'])).length = 1 + 1) :=
  ⟨claim_C7.1 30000 "ab" (by decide), claim_C7.2.1 1 "abc" (by decide)⟩

/-! ## Aggregation lemmas for the consolidation engine -/

theorem groups_head_filter {γ : Type} (keys : List Nat) (f : Nat → γ) (c : Nat) :
    ((keys.map (fun k => (k, f k))).filter (fun g => decide (g.1 = c))).head? =
      if c ∈ keys then some (c, f c) else none := by
  induction keys with
  | nil => rfl
  | cons k ks ih =>
      by_cases hk : k = c
      · subst hk
        rw [List.map_cons, List.filter_cons_of_pos (by simp)]
        simp
      · rw [List.map_cons, List.filter_cons_of_neg (by simp [hk]), ih]
        have hck : ¬ c = k := fun h => hk h.symm
        simp [List.mem_cons, hck]

theorem aggJoined_eq {γ : Type} (coreCids keys : List Nat) (f : Nat → γ)
    (hk : keys.Nodup) :
    (leftJoin coreCids (keys.map (fun k => (k, f k))) (fun c => c) (fun g => g.1)).map
        (fun p => (p.1, p.2.map (fun g => g.2)))
      = coreCids.map (fun c => (c, if c ∈ keys then some (f c) else none)) := by
  have hmn : ((keys.map (fun k => (k, f k))).map (fun g : Nat × γ => g.1)).Nodup := by
    rw [List.map_map]
    have hcomp : (fun g : Nat × γ => g.1) ∘ (fun k : Nat => (k, f k)) = id := rfl
    rw [hcomp, List.map_id]
    exact hk
  rw [leftJoin_unique _ _ _ _ hmn]
  rw [List.map_map]
  apply List.map_congr_left
  intro c _
  simp only [Function.comp]
  rw [groups_head_filter]
  by_cases hc : c ∈ keys
  · simp [hc]
  · simp [hc]

theorem map_eq_self {α : Type} (f : α → α) (l : List α) (h : ∀ x, f x = x) :
    l.map f = l := by
  induction l with
  | nil => rfl
  | cons x xs ih => rw [List.map_cons, h x, ih]

theorem synAgg_spec (coreCids : List Nat) (syn : List SynRow) :
    (synAgg coreCids syn).map (fun a => a.cid) = coreCids
    ∧ ∀ a ∈ synAgg coreCids syn,
      ∃ objs : List JVal,
        a.synonyms_json = jsonDumps (.arr objs)
        ∧ a.synonyms_n = objs.length
        ∧ (objs = [] → a.synonyms_preview = "")
        ∧ (syn.filter (fun r => decide (r.cid = a.cid)) = [] → objs = []) := by
  have hempty : ∀ c, syn.filter (fun r => decide (r.cid = c)) = [] →
      c ∉ sortedDistinct ((dedupByKey (fun r => (r.cid, r.synonym)) syn).map
        (fun r => r.cid)) := by
    intro c hf hc
    rw [mem_sortedDistinct] at hc
    obtain ⟨r, hr, hcid⟩ := List.mem_map.mp hc
    have hrsyn : r ∈ syn := mem_of_mem_dedupByKey _ _ hr
    have hmem : r ∈ syn.filter (fun r => decide (r.cid = c)) :=
      List.mem_filter.mpr ⟨hrsyn, by simp [hcid]⟩
    rw [hf] at hmem
    simp at hmem
  rw [synAgg]
  by_cases h : syn.isEmpty
  · simp only [h, if_true]
    constructor
    · rw [List.map_map, List.map_map]
      exact map_eq_self _ _ (fun c => rfl)
    · intro a ha
      rw [List.map_map] at ha
      obtain ⟨c, _, rfl⟩ := List.mem_map.mp ha
      exact ⟨[], rfl, rfl, fun _ => rfl, fun _ => rfl⟩
  · simp only [h, Bool.false_eq_true, if_false]
    have hgroups : synGroups syn =
        (sortedDistinct ((dedupByKey (fun r => (r.cid, r.synonym)) syn).map
          (fun r => r.cid))).map
          (fun c => (c, ((dedupByKey (fun r => (r.cid, r.synonym)) syn).filter
              (fun r => decide (r.cid = c))).map (fun r => r.synonym))) := rfl
    rw [hgroups, aggJoined_eq _ _ _ (sortedDistinct_nodup _)]
    constructor
    · rw [List.map_map, List.map_map]
      exact map_eq_self _ _ (fun c => rfl)
    · intro a ha
      rw [List.map_map] at ha
      obtain ⟨c, _, rfl⟩ := List.mem_map.mp ha
      by_cases hc : c ∈ sortedDistinct ((dedupByKey (fun r => (r.cid, r.synonym)) syn).map
          (fun r => r.cid))
      · refine ⟨(((dedupByKey (fun r => (r.cid, r.synonym)) syn).filter
            (fun r => decide (r.cid = c))).map (fun r => r.synonym)).map JVal.str,
          ?_, ?_, ?_, ?_⟩
        · simp [hc]
        · simp [hc]
        · intro hobjs
          simp only [List.map_eq_nil_iff] at hobjs
          simp [hc, hobjs, safePreviewList, String.intercalate]
        · intro hf
          exact absurd hc (hempty c hf)
      · exact ⟨[], by simp [hc], by simp [hc], fun _ => by simp [hc], fun _ => rfl⟩

theorem patAgg_spec (coreCids : List Nat) (pat : List PatRow) :
    (patAgg coreCids pat).map (fun a => a.cid) = coreCids
    ∧ ∀ a ∈ patAgg coreCids pat,
      ∃ objs : List JVal,
        a.patent_ids_json = jsonDumps (.arr objs)
        ∧ a.patent_ids_n = objs.length
        ∧ (objs = [] → a.patent_ids_preview = "")
        ∧ (pat.filter (fun r => decide (r.cid = a.cid)) = [] → objs = []) := by
  have hempty : ∀ c, pat.filter (fun r => decide (r.cid = c)) = [] →
      c ∉ sortedDistinct ((dedupByKey (fun r => (r.cid, r.patent_id)) pat).map
        (fun r => r.cid)) := by
    intro c hf hc
    rw [mem_sortedDistinct] at hc
    obtain ⟨r, hr, hcid⟩ := List.mem_map.mp hc
    have hrp : r ∈ pat := mem_of_mem_dedupByKey _ _ hr
    have hmem : r ∈ pat.filter (fun r => decide (r.cid = c)) :=
      List.mem_filter.mpr ⟨hrp, by simp [hcid]⟩
    rw [hf] at hmem
    simp at hmem
  rw [patAgg]
  by_cases h : pat.isEmpty
  · simp only [h, if_true]
    constructor
    · rw [List.map_map, List.map_map]
      exact map_eq_self _ _ (fun c => rfl)
    · intro a ha
      rw [List.map_map] at ha
      obtain ⟨c, _, rfl⟩ := List.mem_map.mp ha
      exact ⟨[], rfl, rfl, fun _ => rfl, fun _ => rfl⟩
  · simp only [h, Bool.false_eq_true, if_false]
    have hgroups : patGroups pat =
        (sortedDistinct ((dedupByKey (fun r => (r.cid, r.patent_id)) pat).map
          (fun r => r.cid))).map
          (fun c => (c, ((dedupByKey (fun r => (r.cid, r.patent_id)) pat).filter
              (fun r => decide (r.cid = c))).map (fun r => r.patent_id))) := rfl
    rw [hgroups, aggJoined_eq _ _ _ (sortedDistinct_nodup _)]
    constructor
    · rw [List.map_map, List.map_map]
      exact map_eq_self _ _ (fun c => rfl)
    · intro a ha
      rw [List.map_map] at ha
      obtain ⟨c, _, rfl⟩ := List.mem_map.mp ha
      by_cases hc : c ∈ sortedDistinct ((dedupByKey (fun r => (r.cid, r.patent_id)) pat).map
          (fun r => r.cid))
      · refine ⟨(((dedupByKey (fun r => (r.cid, r.patent_id)) pat).filter
            (fun r => decide (r.cid = c))).map (fun r => r.patent_id)).map JVal.str,
          ?_, ?_, ?_, ?_⟩
        · simp [hc]
        · simp [hc]
        · intro hobjs
          simp only [List.map_eq_nil_iff] at hobjs
          simp [hc, hobjs, safePreviewList, String.intercalate]
        · intro hf
          exact absurd hc (hempty c hf)
      · exact ⟨[], by simp [hc], by simp [hc], fun _ => by simp [hc], fun _ => rfl⟩

theorem meshAgg_spec (coreCids : List Nat) (mesh : List MeshRow) :
    (meshAgg coreCids mesh).map (fun a => a.cid) = coreCids
    ∧ ∀ a ∈ meshAgg coreCids mesh,
      ∃ objs : List JVal,
        a.mesh_classes_json = jsonDumps (.arr objs)
        ∧ a.mesh_classes_n = objs.length
        ∧ (objs = [] → a.mesh_classes_preview = "")
        ∧ (mesh.filter (fun r => decide (r.cid = a.cid)) = [] → objs = [])
        ∧ a.mesh_classes_n = (mesh.filter (fun r => decide (r.cid = a.cid))).length := by
  have hfilter : ∀ c, c ∉ sortedDistinct (mesh.map (fun r => r.cid)) →
      mesh.filter (fun r => decide (r.cid = c)) = [] := by
    intro c hc
    apply List.filter_eq_nil_iff.mpr
    intro r hr
    simp only [decide_eq_true_eq]
    intro hcid
    exact hc ((mem_sortedDistinct _ _).mpr (by
      exact hcid ▸ List.mem_map_of_mem (fun r => r.cid) hr))
  rw [meshAgg]
  by_cases h : mesh.isEmpty
  · have hm : mesh = [] := by
      cases mesh with
      | nil => rfl
      | cons x xs => simp [List.isEmpty] at h
    subst hm
    simp only [h, if_true]
    constructor
    · rw [List.map_map, List.map_map]
      exact map_eq_self _ _ (fun c => rfl)
    · intro a ha
      rw [List.map_map] at ha
      obtain ⟨c, _, rfl⟩ := List.mem_map.mp ha
      exact ⟨[], rfl, rfl, fun _ => rfl, fun _ => rfl, rfl⟩
  · simp only [h, Bool.false_eq_true, if_false]
    have hgroups : meshGroups mesh =
        (sortedDistinct (mesh.map (fun r => r.cid))).map
          (fun c => (c, (mesh.filter (fun r => decide (r.cid = c))).map meshObj)) := rfl
    rw [hgroups, aggJoined_eq _ _ _ (sortedDistinct_nodup _)]
    constructor
    · rw [List.map_map, List.map_map]
      exact map_eq_self _ _ (fun c => rfl)
    · intro a ha
      rw [List.map_map] at ha
      obtain ⟨c, _, rfl⟩ := List.mem_map.mp ha
      by_cases hc : c ∈ sortedDistinct (mesh.map (fun r => r.cid))
      · refine ⟨(mesh.filter (fun r => decide (r.cid = c))).map meshObj,
          ?_, ?_, ?_, ?_, ?_⟩
        · simp [hc]
        · simp [hc]
        · intro hobjs
          simp only [List.map_eq_nil_iff] at hobjs
          simp [hc, hobjs, safePreviewList, String.intercalate]
        · intro hf
          rw [show mesh.filter (fun r => decide (r.cid = c)) = [] from hf]
          rfl
        · simp [hc]
      · refine ⟨[], by simp [hc], by simp [hc], fun _ => by simp [hc], fun _ => rfl, ?_⟩
        simp [hc, hfilter c hc]

theorem fdaAgg_spec (coreCids : List Nat) (fda : List FdaRow) :
    (fdaAgg coreCids fda).map (fun a => a.cid) = coreCids
    ∧ ∀ a ∈ fdaAgg coreCids fda,
      ∃ objs : List JVal,
        a.fda_classes_json = jsonDumps (.arr objs)
        ∧ a.fda_classes_n = objs.length
        ∧ (objs = [] → a.fda_classes_preview = "")
        ∧ (fda.filter (fun r => decide (r.cid = a.cid)) = [] → objs = []) := by
  have hempty : ∀ c, fda.filter (fun r => decide (r.cid = c)) = [] →
      c ∉ sortedDistinct ((dedupByKey
        (fun r => (r.cid, r.class_type, r.class_group, r.class_name, r.raw_text)) fda).map
        (fun r => r.cid)) := by
    intro c hf hc
    rw [mem_sortedDistinct] at hc
    obtain ⟨r, hr, hcid⟩ := List.mem_map.mp hc
    have hrp : r ∈ fda := mem_of_mem_dedupByKey _ _ hr
    have hmem : r ∈ fda.filter (fun r => decide (r.cid = c)) :=
      List.mem_filter.mpr ⟨hrp, by simp [hcid]⟩
    rw [hf] at hmem
    simp at hmem
  rw [fdaAgg]
  by_cases h : fda.isEmpty
  · simp only [h, if_true]
    constructor
    · rw [List.map_map, List.map_map]
      exact map_eq_self _ _ (fun c => rfl)
    · intro a ha
      rw [List.map_map] at ha
      obtain ⟨c, _, rfl⟩ := List.mem_map.mp ha
      exact ⟨[], rfl, rfl, fun _ => rfl, fun _ => rfl⟩
  · simp only [h, Bool.false_eq_true, if_false]
    have hgroups : fdaGroups fda =
        (sortedDistinct ((dedupByKey
          (fun r => (r.cid, r.class_type, r.class_group, r.class_name, r.raw_text)) fda).map
          (fun r => r.cid))).map
          (fun c => (c, ((dedupByKey
            (fun r => (r.cid, r.class_type, r.class_group, r.class_name, r.raw_text)) fda).filter
              (fun r => decide (r.cid = c))).map fdaObj)) := rfl
    rw [hgroups, aggJoined_eq _ _ _ (sortedDistinct_nodup _)]
    constructor
    · rw [List.map_map, List.map_map]
      exact map_eq_self _ _ (fun c => rfl)
    · intro a ha
      rw [List.map_map] at ha
      obtain ⟨c, _, rfl⟩ := List.mem_map.mp ha
      by_cases hc : c ∈ sortedDistinct ((dedupByKey
          (fun r => (r.cid, r.class_type, r.class_group, r.class_name, r.raw_text)) fda).map
          (fun r => r.cid))
      · refine ⟨((dedupByKey
            (fun r => (r.cid, r.class_type, r.class_group, r.class_name, r.raw_text)) fda).filter
            (fun r => decide (r.cid = c))).map fdaObj, ?_, ?_, ?_, ?_⟩
        · simp [hc]
        · simp [hc]
        · intro hobjs
          simp only [List.map_eq_nil_iff] at hobjs
          simp [hc, hobjs, safePreviewList, String.intercalate]
        · intro hf
          exact absurd hc (hempty c hf)
      · exact ⟨[], by simp [hc], by simp [hc], fun _ => by simp [hc], fun _ => rfl⟩

theorem head_filter_mem {β : Type} (rt : List β) (kb : β → Nat) (k : Nat)
    (hk : k ∈ rt.map kb) :
    ∃ b, (rt.filter (fun b => decide (kb b = k))).head? = some b ∧ kb b = k ∧ b ∈ rt := by
  induction rt with
  | nil => simp at hk
  | cons b bs ih =>
      by_cases hb : kb b = k
      · exact ⟨b, by rw [List.filter_cons_of_pos (by simp [hb])]; rfl, hb, by simp⟩
      · have hk2 : k ∈ bs.map kb := by
          simp only [List.map_cons, List.mem_cons] at hk
          rcases hk with hk | hk
          · exact absurd hk.symm hb
          · exact hk
        obtain ⟨b2, h1, h2, h3⟩ := ih hk2
        exact ⟨b2, by rw [List.filter_cons_of_neg (by simp [hb])]; exact h1, h2,
          by simp [h3]⟩

theorem exportWide_mem (coreFrags : List (String × List CoreRow))
    (synFrags : List (String × List SynRow)) (patFrags : List (String × List PatRow))
    (meshFrags : List (String × List MeshRow)) (fdaFrags : List (String × List FdaRow)) :
    (exportWide coreFrags synFrags patFrags meshFrags fdaFrags).map (fun w => w.cid) =
      (dedupByKey (fun r => r.cid) (readParts coreFrags)).map (fun r => r.cid)
    ∧ ∀ w ∈ exportWide coreFrags synFrags patFrags meshFrags fdaFrags,
      ∃ r ∈ dedupByKey (fun r => r.cid) (readParts coreFrags),
      ∃ sa ∈ synAgg ((dedupByKey (fun r => r.cid) (readParts coreFrags)).map (fun r => r.cid))
          (readParts synFrags),
      ∃ pa ∈ patAgg ((dedupByKey (fun r => r.cid) (readParts coreFrags)).map (fun r => r.cid))
          (readParts patFrags),
      ∃ ma ∈ meshAgg ((dedupByKey (fun r => r.cid) (readParts coreFrags)).map (fun r => r.cid))
          (readParts meshFrags),
      ∃ fa ∈ fdaAgg ((dedupByKey (fun r => r.cid) (readParts coreFrags)).map (fun r => r.cid))
          (readParts fdaFrags),
        sa.cid = r.cid ∧ pa.cid = r.cid ∧ ma.cid = r.cid ∧ fa.cid = r.cid ∧
        w = { cid := r.cid, inchikey := r.inchikey, smiles := r.smiles,
              connectivity_smiles := r.connectivity_smiles,
              molecular_formula := r.molecular_formula,
              molecular_weight := r.molecular_weight,
              synonyms_json := some sa.synonyms_json,
              synonyms_n := some sa.synonyms_n,
              synonyms_preview := some sa.synonyms_preview,
              patent_ids_json := some pa.patent_ids_json,
              patent_ids_n := some pa.patent_ids_n,
              patent_ids_preview := some pa.patent_ids_preview,
              mesh_classes_json := some ma.mesh_classes_json,
              mesh_classes_n := some ma.mesh_classes_n,
              mesh_classes_preview := some ma.mesh_classes_preview,
              fda_classes_json := some fa.fda_classes_json,
              fda_classes_n := some fa.fda_classes_n,
              fda_classes_preview := some fa.fda_classes_preview } := by
  have hcore := nodup_map_key_dedupByKey (fun r : CoreRow => r.cid) (readParts coreFrags)
  set core := dedupByKey (fun r : CoreRow => r.cid) (readParts coreFrags) with hcoredef
  set coreCids := core.map (fun r => r.cid) with hcidsdef
  have hsynA := synAgg_spec coreCids (readParts synFrags)
  have hpatA := patAgg_spec coreCids (readParts patFrags)
  have hmeshA := meshAgg_spec coreCids (readParts meshFrags)
  have hfdaA := fdaAgg_spec coreCids (readParts fdaFrags)
  have hsn : ((synAgg coreCids (readParts synFrags)).map (fun a => a.cid)).Nodup := by
    rw [hsynA.1]; exact hcore
  have hpn : ((patAgg coreCids (readParts patFrags)).map (fun a => a.cid)).Nodup := by
    rw [hpatA.1]; exact hcore
  have hmn : ((meshAgg coreCids (readParts meshFrags)).map (fun a => a.cid)).Nodup := by
    rw [hmeshA.1]; exact hcore
  have hfn : ((fdaAgg coreCids (readParts fdaFrags)).map (fun a => a.cid)).Nodup := by
    rw [hfdaA.1]; exact hcore
  rw [exportWide]
  rw [← hcoredef, ← hcidsdef]
  rw [leftJoin_unique _ _ _ _ hsn, leftJoin_unique _ _ _ _ hpn,
      leftJoin_unique _ _ _ _ hmn, leftJoin_unique _ _ _ _ hfn]
  constructor
  · rw [List.map_map, List.map_map, List.map_map, List.map_map, List.map_map]
    apply List.map_congr_left
    intro r _
    rfl
  · intro w hw
    rw [List.map_map, List.map_map, List.map_map, List.map_map] at hw
    obtain ⟨r, hr, rfl⟩ := List.mem_map.mp hw
    have hmemcid : r.cid ∈ coreCids := by
      rw [hcidsdef]; exact List.mem_map_of_mem _ hr
    obtain ⟨sa, hsa, hsacid, hsamem⟩ :=
      head_filter_mem (synAgg coreCids (readParts synFrags)) (fun a => a.cid) r.cid
        (by rw [hsynA.1]; exact hmemcid)
    obtain ⟨pa, hpa, hpacid, hpamem⟩ :=
      head_filter_mem (patAgg coreCids (readParts patFrags)) (fun a => a.cid) r.cid
        (by rw [hpatA.1]; exact hmemcid)
    obtain ⟨ma, hma, hmacid, hmamem⟩ :=
      head_filter_mem (meshAgg coreCids (readParts meshFrags)) (fun a => a.cid) r.cid
        (by rw [hmeshA.1]; exact hmemcid)
    obtain ⟨fa, hfa, hfacid, hfamem⟩ :=
      head_filter_mem (fdaAgg coreCids (readParts fdaFrags)) (fun a => a.cid) r.cid
        (by rw [hfdaA.1]; exact hmemcid)
    refine ⟨r, hr, sa, hsamem, pa, hpamem, ma, hmamem, fa, hfamem,
      hsacid, hpacid, hmacid, hfacid, ?_⟩
    simp [Function.comp, hsa, hpa, hma, hfa]

/-! ## Claim C10: one wide row per distinct core subject -/

/-- C10.  The consolidation engine reads the core fragments in sorted
file-name order, concatenates them, keeps only the first row of every
subject id and drops the later ones, so the wide table carries exactly
the distinct core subject ids, each exactly once, and each kept core
row is the first row with its id in fragment order. -/
theorem claim_C10 (coreFrags : List (String × List CoreRow))
    (synFrags : List (String × List SynRow)) (patFrags : List (String × List PatRow))
    (meshFrags : List (String × List MeshRow)) (fdaFrags : List (String × List FdaRow)) :
    (exportWide coreFrags synFrags patFrags meshFrags fdaFrags).map (fun w => w.cid) =
      (dedupByKey (fun r => r.cid) (readParts coreFrags)).map (fun r => r.cid)
    ∧ ((exportWide coreFrags synFrags patFrags meshFrags fdaFrags).map (fun w => w.cid)).Nodup
    ∧ (∀ c : Nat, c ∈ (exportWide coreFrags synFrags patFrags meshFrags fdaFrags).map
          (fun w => w.cid) ↔ c ∈ (readParts coreFrags).map (fun r => r.cid))
    ∧ (∀ r ∈ dedupByKey (fun r => r.cid) (readParts coreFrags),
        (readParts coreFrags).find? (fun x => decide (x.cid = r.cid)) = some r) := by
  have h1 := (exportWide_mem coreFrags synFrags patFrags meshFrags fdaFrags).1
  refine ⟨h1, ?_, ?_, ?_⟩
  · rw [h1]
    exact nodup_map_key_dedupByKey _ _
  · intro c
    rw [h1]
    exact mem_map_key_dedupByKey _ _ c
  · intro r hr
    exact dedupByKey_first _ _ r hr

/-- C10 witness: a core table split over two fragments with a duplicate
subject; the row of the alphabetically first fragment is kept and the
wide table has one row per distinct subject. -/
theorem claim_C10_witness :
    ((exportWide
        [("part-00002.parquet", [CoreRow.mk 1 (some "IK2") none none none none]),
         ("part-00001.parquet", [CoreRow.mk 1 (some "IK1") none none none none,
                                 CoreRow.mk 2 none none none none none])]
        [] [] [] []).map (fun w => w.cid) = [1, 2])
    ∧ (readParts
        [("part-00002.parquet", [CoreRow.mk 1 (some "IK2") none none none none]),
         ("part-00001.parquet", [CoreRow.mk 1 (some "IK1") none none none none,
                                 CoreRow.mk 2 none none none none none])]).find?
        (fun x => decide (x.cid = (1 : Nat))) =
      some (CoreRow.mk 1 (some "IK1") none none none none) :=
  ⟨by decide,
   (claim_C10
      [("part-00002.parquet", [CoreRow.mk 1 (some "IK2") none none none none]),
       ("part-00001.parquet", [CoreRow.mk 1 (some "IK1") none none none none,
                               CoreRow.mk 2 none none none none none])]
      [] [] [] []).2.2.2
      (CoreRow.mk 1 (some "IK1") none none none none) (by decide)⟩

/-! ## Claim C5: deduplication of child categories at consolidation -/

/-- C5 counterexample: MeSH rows are not deduplicated.  A MeSH row
duplicated by reprocessing contributes two elements to the subject's
aggregated list, not one. -/
theorem claim_C5_cex :
    (meshAgg [1] [c5Row, c5Row]).map (fun a => a.mesh_classes_n) = [2]
    ∧ (meshAgg [1] [c5Row]).map (fun a => a.mesh_classes_n) = [1] := by
  constructor
  · decide
  · decide

theorem synAgg_absorb (coreCids : List Nat) (l d : List SynRow)
    (h : ∀ x ∈ d, x ∈ l) : synAgg coreCids (l ++ d) = synAgg coreCids l := by
  by_cases hl : l = []
  · subst hl
    have hd : d = [] := List.eq_nil_iff_forall_not_mem.mpr
      (fun x hx => by simpa using h x hx)
    subst hd
    rfl
  · have hdk : dedupByKey (fun r => (r.cid, r.synonym)) (l ++ d) =
        dedupByKey (fun r => (r.cid, r.synonym)) l :=
      dedupByKey_absorb _ l d (fun x hx => List.mem_map_of_mem _ (h x hx))
    have hgroups : synGroups (l ++ d) = synGroups l := by
      rw [synGroups, synGroups, hdk]
    have h1 : (l ++ d).isEmpty = false := by
      cases l with
      | nil => exact absurd rfl hl
      | cons x xs => rfl
    have h2 : l.isEmpty = false := by
      cases l with
      | nil => exact absurd rfl hl
      | cons x xs => rfl
    rw [synAgg, synAgg, hgroups, h1, h2]

theorem patAgg_absorb (coreCids : List Nat) (l d : List PatRow)
    (h : ∀ x ∈ d, x ∈ l) : patAgg coreCids (l ++ d) = patAgg coreCids l := by
  by_cases hl : l = []
  · subst hl
    have hd : d = [] := List.eq_nil_iff_forall_not_mem.mpr
      (fun x hx => by simpa using h x hx)
    subst hd
    rfl
  · have hdk : dedupByKey (fun r => (r.cid, r.patent_id)) (l ++ d) =
        dedupByKey (fun r => (r.cid, r.patent_id)) l :=
      dedupByKey_absorb _ l d (fun x hx => List.mem_map_of_mem _ (h x hx))
    have hgroups : patGroups (l ++ d) = patGroups l := by
      rw [patGroups, patGroups, hdk]
    have h1 : (l ++ d).isEmpty = false := by
      cases l with
      | nil => exact absurd rfl hl
      | cons x xs => rfl
    have h2 : l.isEmpty = false := by
      cases l with
      | nil => exact absurd rfl hl
      | cons x xs => rfl
    rw [patAgg, patAgg, hgroups, h1, h2]

theorem fdaAgg_absorb (coreCids : List Nat) (l d : List FdaRow)
    (h : ∀ x ∈ d, x ∈ l) : fdaAgg coreCids (l ++ d) = fdaAgg coreCids l := by
  by_cases hl : l = []
  · subst hl
    have hd : d = [] := List.eq_nil_iff_forall_not_mem.mpr
      (fun x hx => by simpa using h x hx)
    subst hd
    rfl
  · have hdk : dedupByKey
        (fun r => (r.cid, r.class_type, r.class_group, r.class_name, r.raw_text)) (l ++ d) =
        dedupByKey
        (fun r => (r.cid, r.class_type, r.class_group, r.class_name, r.raw_text)) l :=
      dedupByKey_absorb _ l d (fun x hx => List.mem_map_of_mem _ (h x hx))
    have hgroups : fdaGroups (l ++ d) = fdaGroups l := by
      rw [fdaGroups, fdaGroups, hdk]
    have h1 : (l ++ d).isEmpty = false := by
      cases l with
      | nil => exact absurd rfl hl
      | cons x xs => rfl
    have h2 : l.isEmpty = false := by
      cases l with
      | nil => exact absurd rfl hl
      | cons x xs => rfl
    rw [fdaAgg, fdaAgg, hgroups, h1, h2]

/-- C5 as amended.  The consolidation engine deduplicates the synonym,
patent-identifier and FDA tables by their natural key before grouping,
so rows duplicated by reprocessing a subject are absorbed and the
aggregation is unchanged when duplicates of existing rows are appended;
the MeSH table, however, is not deduplicated: its per-subject count is
the raw row count, so each duplicate contributes its own element. -/
theorem claim_C5 (coreCids : List Nat) :
    (∀ (l d : List SynRow), (∀ x ∈ d, x ∈ l) →
      synAgg coreCids (l ++ d) = synAgg coreCids l)
    ∧ (∀ (l d : List PatRow), (∀ x ∈ d, x ∈ l) →
      patAgg coreCids (l ++ d) = patAgg coreCids l)
    ∧ (∀ (l d : List FdaRow), (∀ x ∈ d, x ∈ l) →
      fdaAgg coreCids (l ++ d) = fdaAgg coreCids l)
    ∧ (∀ (mesh : List MeshRow) (a : MeshAgg), a ∈ meshAgg coreCids mesh →
      a.mesh_classes_n = (mesh.filter (fun r => decide (r.cid = a.cid))).length) := by
  refine ⟨synAgg_absorb coreCids, patAgg_absorb coreCids, fdaAgg_absorb coreCids, ?_⟩
  intro mesh a ha
  obtain ⟨objs, _, _, _, _, hcount⟩ := (meshAgg_spec coreCids mesh).2 a ha
  exact hcount

/-- C5 witness: the absorption components applied to a concrete
duplicated synonym table, and the MeSH count component applied to the
duplicated MeSH table of the counterexample. -/
theorem claim_C5_witness :
    synAgg [1] ([SynRow.mk 1 "Aspirin"] ++ [SynRow.mk 1 "Aspirin"]) =
      synAgg [1] [SynRow.mk 1 "Aspirin"]
    ∧ ∀ a ∈ meshAgg [1] [c5Row, c5Row],
        a.mesh_classes_n = ([c5Row, c5Row].filter (fun r => decide (r.cid = a.cid))).length :=
  ⟨(claim_C5 [1]).1 [SynRow.mk 1 "Aspirin"] [SynRow.mk 1 "Aspirin"] (by decide),
   fun a ha => (claim_C5 [1]).2.2.2 [c5Row, c5Row] a ha⟩

/-! ## Lemmas about the fetch loop -/

theorem flatMap_toList_eq_filterMap {α β : Type} (F : α → Option β) (l : List α) :
    (l.flatMap fun a => (F a).toList) = l.filterMap F := by
  induction l with
  | nil => rfl
  | cons x xs ih =>
      rw [List.flatMap_cons, List.filterMap_cons]
      cases F x with
      | none => simpa using ih
      | some b => simpa using ih

theorem processHeading_eq (o : Oracles) (cid : Nat) (st : LoopState) (h : String) :
    processHeading o cid st h =
      { st with
        trace := st.trace ++ [Event.request cid h],
        cache := assocSet (cid, h)
          ((if (o.resp cid h).code = 200 then (o.resp cid h).parsed
            else some ((o.resp cid h).parsed.getD (httpErrJson (o.resp cid h).code))).getD
            .null) st.cache,
        bufHM := st.bufHM ++ [HMRow.mk cid h (o.resp cid h).code (o.resp cid h).nbytes],
        bufSyn := st.bufSyn ++
          (if h = "Depositor-Supplied Synonyms" then producedSyn o cid else []),
        bufPat := st.bufPat ++
          (if h = "Depositor-Supplied Patent Identifiers" then producedPat o cid else []),
        bufMesh := st.bufMesh ++
          (if h = "MeSH Pharmacological Classification" then producedMesh o cid else []),
        bufFda := st.bufFda ++
          (if h = "FDA Pharmacological Classification" then producedFda o cid else []),
        bufRaw := st.bufRaw ++
          (if h = "Depositor-Supplied Synonyms"
              ∨ h = "Depositor-Supplied Patent Identifiers"
              ∨ h = "MeSH Pharmacological Classification"
              ∨ h = "FDA Pharmacological Classification" then []
           else
             match headingOutcome o cid h, assocLookup h RAW_HEADINGS with
             | some j, some col => [RawRow.mk cid h col (jsonDumps j)]
             | _, _ => []) } := by
  by_cases h1 : h = "Depositor-Supplied Synonyms"
  · subst h1
    by_cases hc : (o.resp cid "Depositor-Supplied Synonyms").code = 200
    · cases hp : (o.resp cid "Depositor-Supplied Synonyms").parsed with
      | none => simp [processHeading, producedSyn, headingOutcome, hc, hp]
      | some jv => simp [processHeading, producedSyn, headingOutcome, hc, hp]
    · simp [processHeading, producedSyn, headingOutcome, hc]
  · by_cases h2 : h = "Depositor-Supplied Patent Identifiers"
    · subst h2
      by_cases hc : (o.resp cid "Depositor-Supplied Patent Identifiers").code = 200
      · cases hp : (o.resp cid "Depositor-Supplied Patent Identifiers").parsed with
        | none => simp [processHeading, producedPat, headingOutcome, hc, hp]
        | some jv => simp [processHeading, producedPat, headingOutcome, hc, hp]
      · simp [processHeading, producedPat, headingOutcome, hc]
    · by_cases h3 : h = "MeSH Pharmacological Classification"
      · subst h3
        by_cases hc : (o.resp cid "MeSH Pharmacological Classification").code = 200
        · cases hp : (o.resp cid "MeSH Pharmacological Classification").parsed with
          | none => simp [processHeading, producedMesh, headingOutcome, hc, hp]
          | some jv => simp [processHeading, producedMesh, headingOutcome, hc, hp]
        · simp [processHeading, producedMesh, headingOutcome, hc]
      · by_cases h4 : h = "FDA Pharmacological Classification"
        · subst h4
          by_cases hc : (o.resp cid "FDA Pharmacological Classification").code = 200
          · cases hp : (o.resp cid "FDA Pharmacological Classification").parsed with
            | none => simp [processHeading, producedFda, headingOutcome, hc, hp]
            | some jv => simp [processHeading, producedFda, headingOutcome, hc, hp]
          · simp [processHeading, producedFda, headingOutcome, hc]
        · by_cases hc : (o.resp cid h).code = 200
          · cases hp : (o.resp cid h).parsed with
            | none => simp [processHeading, headingOutcome, hc, hp, h1, h2, h3, h4]
            | some jv =>
                cases hl : assocLookup h RAW_HEADINGS with
                | none => simp [processHeading, headingOutcome, hc, hp, hl, h1, h2, h3, h4]
                | some col => simp [processHeading, headingOutcome, hc, hp, hl, h1, h2, h3, h4]
          · simp [processHeading, headingOutcome, hc, h1, h2, h3, h4]

theorem processFold_proj (o : Oracles) (cid : Nat) : ∀ (hs : List String) (st : LoopState),
    (hs.foldl (processHeading o cid) st).checkpointLog = st.checkpointLog
    ∧ (hs.foldl (processHeading o cid) st).processedNow = st.processedNow
    ∧ (hs.foldl (processHeading o cid) st).partIdx = st.partIdx
    ∧ (hs.foldl (processHeading o cid) st).store = st.store
    ∧ (hs.foldl (processHeading o cid) st).trace =
        st.trace ++ hs.map (Event.request cid)
    ∧ (hs.foldl (processHeading o cid) st).bufHM =
        st.bufHM ++ hs.map (fun h => HMRow.mk cid h (o.resp cid h).code (o.resp cid h).nbytes)
    ∧ (hs.foldl (processHeading o cid) st).bufSyn =
        st.bufSyn ++ hs.flatMap
          (fun h => if h = "Depositor-Supplied Synonyms" then producedSyn o cid else [])
    ∧ (hs.foldl (processHeading o cid) st).bufPat =
        st.bufPat ++ hs.flatMap
          (fun h => if h = "Depositor-Supplied Patent Identifiers" then producedPat o cid else [])
    ∧ (hs.foldl (processHeading o cid) st).bufMesh =
        st.bufMesh ++ hs.flatMap
          (fun h => if h = "MeSH Pharmacological Classification" then producedMesh o cid else [])
    ∧ (hs.foldl (processHeading o cid) st).bufFda =
        st.bufFda ++ hs.flatMap
          (fun h => if h = "FDA Pharmacological Classification" then producedFda o cid else [])
    ∧ (hs.foldl (processHeading o cid) st).bufRaw =
        st.bufRaw ++ hs.flatMap
          (fun h => if h = "Depositor-Supplied Synonyms"
              ∨ h = "Depositor-Supplied Patent Identifiers"
              ∨ h = "MeSH Pharmacological Classification"
              ∨ h = "FDA Pharmacological Classification" then []
            else
              match headingOutcome o cid h, assocLookup h RAW_HEADINGS with
              | some j, some col => [RawRow.mk cid h col (jsonDumps j)]
              | _, _ => []) := by
  intro hs
  induction hs with
  | nil => intro st; simp
  | cons h hs ih =>
      intro st
      simp only [List.foldl_cons]
      obtain ⟨i1, i2, i3, i4, i5, i6, i7, i8, i9, i10, i11⟩ :=
        ih (processHeading o cid st h)
      rw [processHeading_eq] at i1 i2 i3 i4 i5 i6 i7 i8 i9 i10 i11
      simp only [] at i1 i2 i3 i4 i5 i6 i7 i8 i9 i10 i11
      rw [processHeading_eq]
      refine ⟨i1, i2, i3, i4, ?_, ?_, ?_, ?_, ?_, ?_, ?_⟩
      · rw [i5]; simp [List.append_assoc]
      · rw [i6]; simp [List.append_assoc]
      · rw [i7]; simp [List.append_assoc]
      · rw [i8]; simp [List.append_assoc]
      · rw [i9]; simp [List.append_assoc]
      · rw [i10]; simp [List.append_assoc]
      · rw [i11]; simp [List.append_assoc]

theorem processCid_proj (o : Oracles) (cid : Nat) (st : LoopState) :
    (processCid o cid st).checkpointLog = st.checkpointLog
    ∧ (processCid o cid st).processedNow = st.processedNow ++ [cid]
    ∧ (processCid o cid st).partIdx = st.partIdx
    ∧ (processCid o cid st).store = st.store
    ∧ (processCid o cid st).trace = st.trace ++ HEADINGS.map (Event.request cid)
    ∧ (processCid o cid st).bufHM = st.bufHM ++ producedHM o cid
    ∧ (processCid o cid st).bufSyn = st.bufSyn ++ producedSyn o cid
    ∧ (processCid o cid st).bufPat = st.bufPat ++ producedPat o cid
    ∧ (processCid o cid st).bufMesh = st.bufMesh ++ producedMesh o cid
    ∧ (processCid o cid st).bufFda = st.bufFda ++ producedFda o cid
    ∧ (processCid o cid st).bufRaw = st.bufRaw ++ producedRaw o cid := by
  obtain ⟨i1, i2, i3, i4, i5, i6, i7, i8, i9, i10, i11⟩ := processFold_proj o cid HEADINGS st
  have hsyn : HEADINGS.flatMap
      (fun h => if h = "Depositor-Supplied Synonyms" then producedSyn o cid else []) =
      producedSyn o cid := by
    simp [HEADINGS]
  have hpat : HEADINGS.flatMap
      (fun h => if h = "Depositor-Supplied Patent Identifiers" then producedPat o cid else []) =
      producedPat o cid := by
    simp [HEADINGS]
  have hmesh : HEADINGS.flatMap
      (fun h => if h = "MeSH Pharmacological Classification" then producedMesh o cid else []) =
      producedMesh o cid := by
    simp [HEADINGS]
  have hfda : HEADINGS.flatMap
      (fun h => if h = "FDA Pharmacological Classification" then producedFda o cid else []) =
      producedFda o cid := by
    simp [HEADINGS]
  have hhm : HEADINGS.map
      (fun h => HMRow.mk cid h (o.resp cid h).code (o.resp cid h).nbytes) =
      producedHM o cid := rfl
  have hops : ∀ h : String,
      (if h = "Depositor-Supplied Synonyms"
          ∨ h = "Depositor-Supplied Patent Identifiers"
          ∨ h = "MeSH Pharmacological Classification"
          ∨ h = "FDA Pharmacological Classification" then ([] : List RawRow)
        else
          match headingOutcome o cid h, assocLookup h RAW_HEADINGS with
          | some j, some col => [RawRow.mk cid h col (jsonDumps j)]
          | _, _ => []) =
      ((match headingOutcome o cid h with
        | some j =>
            (match assocLookup h RAW_HEADINGS with
             | some col => some (RawRow.mk cid h col (jsonDumps j))
             | none => none)
        | none => none) : Option RawRow).toList := by
    intro h
    by_cases hs : h = "Depositor-Supplied Synonyms"
        ∨ h = "Depositor-Supplied Patent Identifiers"
        ∨ h = "MeSH Pharmacological Classification"
        ∨ h = "FDA Pharmacological Classification"
    · rw [if_pos hs]
      rcases hs with h1 | h1 | h1 | h1 <;> subst h1 <;>
        (cases ho : headingOutcome o cid _ <;> simp [assocLookup, RAW_HEADINGS, ho])
    · rw [if_neg hs]
      cases ho : headingOutcome o cid h <;> cases hl : assocLookup h RAW_HEADINGS <;>
        simp [ho, hl]
  have hraw : HEADINGS.flatMap
      (fun h => if h = "Depositor-Supplied Synonyms"
          ∨ h = "Depositor-Supplied Patent Identifiers"
          ∨ h = "MeSH Pharmacological Classification"
          ∨ h = "FDA Pharmacological Classification" then []
        else
          match headingOutcome o cid h, assocLookup h RAW_HEADINGS with
          | some j, some col => [RawRow.mk cid h col (jsonDumps j)]
          | _, _ => []) = producedRaw o cid := by
    simp only [hops]
    rw [flatMap_toList_eq_filterMap]
    rfl
  rw [processCid]
  refine ⟨i1, by rw [i2], i3, i4, by rw [i5], ?_, ?_, ?_, ?_, ?_, ?_⟩
  · rw [i6, hhm]
  · rw [i7, hsyn]
  · rw [i8, hpat]
  · rw [i9, hmesh]
  · rw [i10, hfda]
  · rw [i11, hraw]

theorem isEmpty_false_of_ne {α : Type} (l : List α) (h : l ≠ []) : l.isEmpty = false := by
  cases l with
  | nil => exact absurd rfl h
  | cons x xs => rfl

theorem assocLookup_filter_ne {κ ν : Type} [DecidableEq κ] (k k2 : κ)
    (m : List (κ × ν)) (h : k ≠ k2) :
    assocLookup k (m.filter (fun kv => decide (kv.1 ≠ k2))) = assocLookup k m := by
  induction m with
  | nil => rfl
  | cons kv m ih =>
      obtain ⟨k1, v⟩ := kv
      by_cases hk : k1 = k2
      · rw [List.filter_cons_of_neg (by simp [hk]), ih]
        simp only [assocLookup]
        rw [if_neg (fun hcon : k1 = k => h (hcon ▸ hk))]
      · rw [List.filter_cons_of_pos (by simp [hk])]
        simp only [assocLookup]
        by_cases hk1 : k1 = k
        · rw [if_pos hk1, if_pos hk1]
        · rw [if_neg hk1, if_neg hk1, ih]

theorem assocLookup_set_self {κ ν : Type} [DecidableEq κ] (k : κ) (v : ν)
    (m : List (κ × ν)) : assocLookup k (assocSet k v m) = some v := by
  simp [assocSet, assocLookup]

theorem assocLookup_set_ne {κ ν : Type} [DecidableEq κ] (k k2 : κ) (v : ν)
    (m : List (κ × ν)) (h : k ≠ k2) :
    assocLookup k (assocSet k2 v m) = assocLookup k m := by
  rw [assocSet]
  simp only [assocLookup]
  rw [if_neg (fun hcon => h hcon.symm)]
  exact assocLookup_filter_ne k k2 m h

theorem writeParts_proj (f : String) (i : Nat) (d : Rows) (st : LoopState) :
    (writeParts f i d st).partIdx = st.partIdx
    ∧ (writeParts f i d st).bufHM = st.bufHM
    ∧ (writeParts f i d st).bufSyn = st.bufSyn
    ∧ (writeParts f i d st).bufPat = st.bufPat
    ∧ (writeParts f i d st).bufMesh = st.bufMesh
    ∧ (writeParts f i d st).bufFda = st.bufFda
    ∧ (writeParts f i d st).bufRaw = st.bufRaw
    ∧ (writeParts f i d st).processedNow = st.processedNow
    ∧ (writeParts f i d st).checkpointLog = st.checkpointLog
    ∧ (writeParts f i d st).cache = st.cache := by
  rw [writeParts]
  split
  · exact ⟨rfl, rfl, rfl, rfl, rfl, rfl, rfl, rfl, rfl, rfl⟩
  · exact ⟨rfl, rfl, rfl, rfl, rfl, rfl, rfl, rfl, rfl, rfl⟩

theorem writeParts_trace_exists (f : String) (i : Nat) (d : Rows) (st : LoopState) :
    ∃ evs, (writeParts f i d st).trace = st.trace ++ evs
      ∧ ∀ e ∈ evs, ∃ f2 i2 d2, e = Event.write f2 i2 d2 := by
  rw [writeParts]
  split
  · exact ⟨[], by simp, by simp⟩
  · refine ⟨[Event.write f i d], rfl, ?_⟩
    intro e he
    simp only [List.mem_singleton] at he
    exact ⟨f, i, d, he⟩

theorem writeParts_store (f : String) (i : Nat) (d : Rows) (st : LoopState) :
    (writeParts f i d st).store =
      if d.isEmptyRows = true then st.store else assocSet (f, i) d st.store := by
  rw [writeParts]
  split
  · rfl
  · rfl

theorem flushBuffers_spec (coreDf : List CoreRow) (st : LoopState) :
    (flushBuffers coreDf st).partIdx = st.partIdx + 1
    ∧ (flushBuffers coreDf st).bufHM = []
    ∧ (flushBuffers coreDf st).bufSyn = []
    ∧ (flushBuffers coreDf st).bufPat = []
    ∧ (flushBuffers coreDf st).bufMesh = []
    ∧ (flushBuffers coreDf st).bufFda = []
    ∧ (flushBuffers coreDf st).bufRaw = []
    ∧ (flushBuffers coreDf st).processedNow = []
    ∧ (flushBuffers coreDf st).checkpointLog = st.checkpointLog ++ st.processedNow
    ∧ (flushBuffers coreDf st).cache = st.cache
    ∧ (∃ ws cp, (flushBuffers coreDf st).trace = st.trace ++ ws ++ cp
        ∧ (∀ e ∈ ws, ∃ f i d, e = Event.write f i d)
        ∧ ((st.processedNow = [] ∧ cp = [])
            ∨ (st.processedNow ≠ [] ∧ cp = [Event.checkpoint st.processedNow]))) := by
  simp only [flushBuffers]
  set s1 : LoopState := { st with partIdx := st.partIdx + 1 } with hs1
  set s2 : LoopState := writeParts "core_properties" (st.partIdx + 1)
    (Rows.core (if st.partIdx + 1 = 1 then coreDf else [])) s1 with hs2
  set s3 : LoopState := writeParts "heading_meta" (st.partIdx + 1) (Rows.hm s2.bufHM) s2 with hs3
  set s4 : LoopState := writeParts "depositor_synonyms" (st.partIdx + 1) (Rows.syn s3.bufSyn) s3 with hs4
  set s5 : LoopState := writeParts "depositor_patent_ids" (st.partIdx + 1) (Rows.pat s4.bufPat) s4 with hs5
  set s6 : LoopState := writeParts "mesh_pharm_class" (st.partIdx + 1) (Rows.mesh s5.bufMesh) s5 with hs6
  set s7 : LoopState := writeParts "fda_pharm_class" (st.partIdx + 1) (Rows.fda s6.bufFda) s6 with hs7
  set s8 : LoopState := writeParts "pugview_raw_headings" (st.partIdx + 1) (Rows.raw s7.bufRaw) s7 with hs8
  obtain ⟨p2, _, _, _, _, _, _, pn2, lg2, ca2⟩ := writeParts_proj "core_properties" (st.partIdx + 1)
    (Rows.core (if st.partIdx + 1 = 1 then coreDf else [])) s1
  obtain ⟨p3, _, _, _, _, _, _, pn3, lg3, ca3⟩ := writeParts_proj "heading_meta" (st.partIdx + 1) (Rows.hm s2.bufHM) s2
  obtain ⟨p4, _, _, _, _, _, _, pn4, lg4, ca4⟩ := writeParts_proj "depositor_synonyms" (st.partIdx + 1) (Rows.syn s3.bufSyn) s3
  obtain ⟨p5, _, _, _, _, _, _, pn5, lg5, ca5⟩ := writeParts_proj "depositor_patent_ids" (st.partIdx + 1) (Rows.pat s4.bufPat) s4
  obtain ⟨p6, _, _, _, _, _, _, pn6, lg6, ca6⟩ := writeParts_proj "mesh_pharm_class" (st.partIdx + 1) (Rows.mesh s5.bufMesh) s5
  obtain ⟨p7, _, _, _, _, _, _, pn7, lg7, ca7⟩ := writeParts_proj "fda_pharm_class" (st.partIdx + 1) (Rows.fda s6.bufFda) s6
  obtain ⟨p8, _, _, _, _, _, _, pn8, lg8, ca8⟩ := writeParts_proj "pugview_raw_headings" (st.partIdx + 1) (Rows.raw s7.bufRaw) s7
  rw [← hs2] at p2 pn2 lg2 ca2
  rw [← hs3] at p3 pn3 lg3 ca3
  rw [← hs4] at p4 pn4 lg4 ca4
  rw [← hs5] at p5 pn5 lg5 ca5
  rw [← hs6] at p6 pn6 lg6 ca6
  rw [← hs7] at p7 pn7 lg7 ca7
  rw [← hs8] at p8 pn8 lg8 ca8
  have hp8 : s8.partIdx = st.partIdx + 1 := by
    rw [p8, p7, p6, p5, p4, p3, p2]
  have hpn8 : s8.processedNow = st.processedNow := by
    rw [pn8, pn7, pn6, pn5, pn4, pn3, pn2]
  have hlg8 : s8.checkpointLog = st.checkpointLog := by
    rw [lg8, lg7, lg6, lg5, lg4, lg3, lg2]
  have hca8 : s8.cache = st.cache := by
    rw [ca8, ca7, ca6, ca5, ca4, ca3, ca2]
  obtain ⟨w2, ht2, hw2⟩ := writeParts_trace_exists "core_properties" (st.partIdx + 1)
    (Rows.core (if st.partIdx + 1 = 1 then coreDf else [])) s1
  obtain ⟨w3, ht3, hw3⟩ := writeParts_trace_exists "heading_meta" (st.partIdx + 1) (Rows.hm s2.bufHM) s2
  obtain ⟨w4, ht4, hw4⟩ := writeParts_trace_exists "depositor_synonyms" (st.partIdx + 1) (Rows.syn s3.bufSyn) s3
  obtain ⟨w5, ht5, hw5⟩ := writeParts_trace_exists "depositor_patent_ids" (st.partIdx + 1) (Rows.pat s4.bufPat) s4
  obtain ⟨w6, ht6, hw6⟩ := writeParts_trace_exists "mesh_pharm_class" (st.partIdx + 1) (Rows.mesh s5.bufMesh) s5
  obtain ⟨w7, ht7, hw7⟩ := writeParts_trace_exists "fda_pharm_class" (st.partIdx + 1) (Rows.fda s6.bufFda) s6
  obtain ⟨w8, ht8, hw8⟩ := writeParts_trace_exists "pugview_raw_headings" (st.partIdx + 1) (Rows.raw s7.bufRaw) s7
  rw [← hs2] at ht2
  rw [← hs3] at ht3
  rw [← hs4] at ht4
  rw [← hs5] at ht5
  rw [← hs6] at ht6
  rw [← hs7] at ht7
  rw [← hs8] at ht8
  have ht8' : s8.trace = st.trace ++ (w2 ++ w3 ++ w4 ++ w5 ++ w6 ++ w7 ++ w8) := by
    rw [ht8, ht7, ht6, ht5, ht4, ht3, ht2]
    simp [List.append_assoc]
  have hws : ∀ e ∈ w2 ++ w3 ++ w4 ++ w5 ++ w6 ++ w7 ++ w8, ∃ f i d, e = Event.write f i d := by
    intro e he
    simp only [List.mem_append] at he
    rcases he with ((((((h | h) | h) | h) | h) | h) | h)
    · exact hw2 e h
    · exact hw3 e h
    · exact hw4 e h
    · exact hw5 e h
    · exact hw6 e h
    · exact hw7 e h
    · exact hw8 e h
  by_cases hpn : s8.processedNow = []
  · rw [if_pos hpn]
    rw [hpn8] at hpn
    refine ⟨hp8, trivial, trivial, trivial, trivial, trivial, trivial, trivial, ?_, hca8, ?_⟩
    · show s8.checkpointLog = st.checkpointLog ++ st.processedNow
      rw [hlg8, hpn, List.append_nil]
    · refine ⟨w2 ++ w3 ++ w4 ++ w5 ++ w6 ++ w7 ++ w8, [], ?_, hws, Or.inl ⟨hpn, rfl⟩⟩
      show s8.trace = st.trace ++ (w2 ++ w3 ++ w4 ++ w5 ++ w6 ++ w7 ++ w8) ++ []
      rw [List.append_nil, ht8']
  · rw [if_neg hpn]
    rw [hpn8] at hpn
    refine ⟨hp8, trivial, trivial, trivial, trivial, trivial, trivial, trivial, ?_, hca8, ?_⟩
    · show s8.checkpointLog ++ s8.processedNow = st.checkpointLog ++ st.processedNow
      rw [hlg8, hpn8]
    · refine ⟨w2 ++ w3 ++ w4 ++ w5 ++ w6 ++ w7 ++ w8, [Event.checkpoint s8.processedNow], ?_, hws,
        Or.inr ⟨hpn, by rw [hpn8]⟩⟩
      show s8.trace ++ [Event.checkpoint s8.processedNow]
          = st.trace ++ (w2 ++ w3 ++ w4 ++ w5 ++ w6 ++ w7 ++ w8) ++ [Event.checkpoint s8.processedNow]
      rw [ht8']

theorem flushBuffers_store (coreDf : List CoreRow) (st : LoopState) :
    (∀ (f : String) (i : Nat), i ≤ st.partIdx →
        assocLookup (f, i) (flushBuffers coreDf st).store = assocLookup (f, i) st.store)
    ∧ (st.partIdx = 0 → coreDf ≠ [] →
        assocLookup ("core_properties", 1) (flushBuffers coreDf st).store
          = some (Rows.core coreDf))
    ∧ (st.bufHM ≠ [] →
        assocLookup ("heading_meta", st.partIdx + 1) (flushBuffers coreDf st).store
          = some (Rows.hm st.bufHM))
    ∧ (st.bufSyn ≠ [] →
        assocLookup ("depositor_synonyms", st.partIdx + 1) (flushBuffers coreDf st).store
          = some (Rows.syn st.bufSyn))
    ∧ (st.bufPat ≠ [] →
        assocLookup ("depositor_patent_ids", st.partIdx + 1) (flushBuffers coreDf st).store
          = some (Rows.pat st.bufPat))
    ∧ (st.bufMesh ≠ [] →
        assocLookup ("mesh_pharm_class", st.partIdx + 1) (flushBuffers coreDf st).store
          = some (Rows.mesh st.bufMesh))
    ∧ (st.bufFda ≠ [] →
        assocLookup ("fda_pharm_class", st.partIdx + 1) (flushBuffers coreDf st).store
          = some (Rows.fda st.bufFda))
    ∧ (st.bufRaw ≠ [] →
        assocLookup ("pugview_raw_headings", st.partIdx + 1) (flushBuffers coreDf st).store
          = some (Rows.raw st.bufRaw)) := by
  simp only [flushBuffers]
  set s1 : LoopState := { st with partIdx := st.partIdx + 1 } with hs1
  set s2 : LoopState := writeParts "core_properties" (st.partIdx + 1)
    (Rows.core (if st.partIdx + 1 = 1 then coreDf else [])) s1 with hs2
  set s3 : LoopState := writeParts "heading_meta" (st.partIdx + 1) (Rows.hm s2.bufHM) s2 with hs3
  set s4 : LoopState := writeParts "depositor_synonyms" (st.partIdx + 1) (Rows.syn s3.bufSyn) s3 with hs4
  set s5 : LoopState := writeParts "depositor_patent_ids" (st.partIdx + 1) (Rows.pat s4.bufPat) s4 with hs5
  set s6 : LoopState := writeParts "mesh_pharm_class" (st.partIdx + 1) (Rows.mesh s5.bufMesh) s5 with hs6
  set s7 : LoopState := writeParts "fda_pharm_class" (st.partIdx + 1) (Rows.fda s6.bufFda) s6 with hs7
  set s8 : LoopState := writeParts "pugview_raw_headings" (st.partIdx + 1) (Rows.raw s7.bufRaw) s7 with hs8
  obtain ⟨_, hm2, sy2, pa2, me2, fd2, ra2, _, _, _⟩ := writeParts_proj "core_properties" (st.partIdx + 1)
    (Rows.core (if st.partIdx + 1 = 1 then coreDf else [])) s1
  obtain ⟨_, hm3, sy3, pa3, me3, fd3, ra3, _, _, _⟩ := writeParts_proj "heading_meta" (st.partIdx + 1)
    (Rows.hm s2.bufHM) s2
  obtain ⟨_, hm4, sy4, pa4, me4, fd4, ra4, _, _, _⟩ := writeParts_proj "depositor_synonyms" (st.partIdx + 1)
    (Rows.syn s3.bufSyn) s3
  obtain ⟨_, hm5, sy5, pa5, me5, fd5, ra5, _, _, _⟩ := writeParts_proj "depositor_patent_ids" (st.partIdx + 1)
    (Rows.pat s4.bufPat) s4
  obtain ⟨_, hm6, sy6, pa6, me6, fd6, ra6, _, _, _⟩ := writeParts_proj "mesh_pharm_class" (st.partIdx + 1)
    (Rows.mesh s5.bufMesh) s5
  obtain ⟨_, hm7, sy7, pa7, me7, fd7, ra7, _, _, _⟩ := writeParts_proj "fda_pharm_class" (st.partIdx + 1)
    (Rows.fda s6.bufFda) s6
  rw [← hs2] at hm2 sy2 pa2 me2 fd2 ra2
  rw [← hs3] at hm3 sy3 pa3 me3 fd3 ra3
  rw [← hs4] at hm4 sy4 pa4 me4 fd4 ra4
  rw [← hs5] at hm5 sy5 pa5 me5 fd5 ra5
  rw [← hs6] at hm6 sy6 pa6 me6 fd6 ra6
  rw [← hs7] at hm7 sy7 pa7 me7 fd7 ra7
  have hbHM : s2.bufHM = st.bufHM := by rw [hm2]
  have hbSyn : s3.bufSyn = st.bufSyn := by rw [sy3, sy2]
  have hbPat : s4.bufPat = st.bufPat := by rw [pa4, pa3, pa2]
  have hbMesh : s5.bufMesh = st.bufMesh := by rw [me5, me4, me3, me2]
  have hbFda : s6.bufFda = st.bufFda := by rw [fd6, fd5, fd4, fd3, fd2]
  have hbRaw : s7.bufRaw = st.bufRaw := by rw [ra7, ra6, ra5, ra4, ra3, ra2]
  have hif : (if s8.processedNow = [] then s8
      else { s8 with checkpointLog := s8.checkpointLog ++ s8.processedNow,
                     trace := s8.trace ++ [Event.checkpoint s8.processedNow] }).store
      = s8.store := by
    split
    · rfl
    · rfl
  simp only [hif]
  have step : ∀ (f2 : String) (d : Rows) (s : LoopState) (k : String × Nat),
      k ≠ (f2, st.partIdx + 1) →
      assocLookup k (writeParts f2 (st.partIdx + 1) d s).store = assocLookup k s.store := by
    intro f2 d s k hk
    rw [writeParts_store]
    split
    · rfl
    · exact assocLookup_set_ne k (f2, st.partIdx + 1) d s.store hk
  have keyFolderNe : ∀ (f1 f2 : String) (i1 i2 : Nat), f1 ≠ f2 →
      ((f1, i1) : String × Nat) ≠ (f2, i2) := by
    intro f1 f2 i1 i2 hf hcon
    exact hf (congrArg Prod.fst hcon)
  have w2 := writeParts_store "core_properties" (st.partIdx + 1)
    (Rows.core (if st.partIdx + 1 = 1 then coreDf else [])) s1
  have w4 := writeParts_store "depositor_synonyms" (st.partIdx + 1) (Rows.syn s3.bufSyn) s3
  have w3 := writeParts_store "heading_meta" (st.partIdx + 1) (Rows.hm s2.bufHM) s2
  have w5 := writeParts_store "depositor_patent_ids" (st.partIdx + 1) (Rows.pat s4.bufPat) s4
  have w6 := writeParts_store "mesh_pharm_class" (st.partIdx + 1) (Rows.mesh s5.bufMesh) s5
  have w7 := writeParts_store "fda_pharm_class" (st.partIdx + 1) (Rows.fda s6.bufFda) s6
  have w8 := writeParts_store "pugview_raw_headings" (st.partIdx + 1) (Rows.raw s7.bufRaw) s7
  rw [← hs2] at w2
  rw [← hs3] at w3
  rw [← hs4] at w4
  rw [← hs5] at w5
  rw [← hs6] at w6
  rw [← hs7] at w7
  rw [← hs8] at w8
  refine ⟨?_, ?_, ?_, ?_, ?_, ?_, ?_, ?_⟩
  · intro f i hi
    have hne : ∀ f2 : String, ((f, i) : String × Nat) ≠ (f2, st.partIdx + 1) := by
      intro f2 hcon
      have h2 : i = st.partIdx + 1 := congrArg Prod.snd hcon
      omega
    have l8 : assocLookup (f, i) s8.store = assocLookup (f, i) s7.store := by
      rw [hs8]; exact step _ _ _ _ (hne _)
    have l7 : assocLookup (f, i) s7.store = assocLookup (f, i) s6.store := by
      rw [hs7]; exact step _ _ _ _ (hne _)
    have l6 : assocLookup (f, i) s6.store = assocLookup (f, i) s5.store := by
      rw [hs6]; exact step _ _ _ _ (hne _)
    have l5 : assocLookup (f, i) s5.store = assocLookup (f, i) s4.store := by
      rw [hs5]; exact step _ _ _ _ (hne _)
    have l4 : assocLookup (f, i) s4.store = assocLookup (f, i) s3.store := by
      rw [hs4]; exact step _ _ _ _ (hne _)
    have l3 : assocLookup (f, i) s3.store = assocLookup (f, i) s2.store := by
      rw [hs3]; exact step _ _ _ _ (hne _)
    have l2 : assocLookup (f, i) s2.store = assocLookup (f, i) s1.store := by
      rw [hs2]; exact step _ _ _ _ (hne _)
    rw [l8, l7, l6, l5, l4, l3, l2]
  · intro hp0 hcd
    have hp1 : st.partIdx + 1 = 1 := by omega
    have hcore : (Rows.core (if st.partIdx + 1 = 1 then coreDf else [])) = Rows.core coreDf := by
      rw [hp1, if_pos rfl]
    have w2' : s2.store = assocSet ("core_properties", 1) (Rows.core coreDf) s1.store := by
      rw [w2, hcore, hp1, if_neg (by simp [Rows.isEmptyRows, isEmpty_false_of_ne coreDf hcd])]
    have l8 : assocLookup (("core_properties", 1) : String × Nat) s8.store
        = assocLookup ("core_properties", 1) s7.store := by
      rw [hs8]; exact step _ _ _ _ (keyFolderNe _ _ _ _ (by decide))
    have l7 : assocLookup (("core_properties", 1) : String × Nat) s7.store
        = assocLookup ("core_properties", 1) s6.store := by
      rw [hs7]; exact step _ _ _ _ (keyFolderNe _ _ _ _ (by decide))
    have l6 : assocLookup (("core_properties", 1) : String × Nat) s6.store
        = assocLookup ("core_properties", 1) s5.store := by
      rw [hs6]; exact step _ _ _ _ (keyFolderNe _ _ _ _ (by decide))
    have l5 : assocLookup (("core_properties", 1) : String × Nat) s5.store
        = assocLookup ("core_properties", 1) s4.store := by
      rw [hs5]; exact step _ _ _ _ (keyFolderNe _ _ _ _ (by decide))
    have l4 : assocLookup (("core_properties", 1) : String × Nat) s4.store
        = assocLookup ("core_properties", 1) s3.store := by
      rw [hs4]; exact step _ _ _ _ (keyFolderNe _ _ _ _ (by decide))
    have l3 : assocLookup (("core_properties", 1) : String × Nat) s3.store
        = assocLookup ("core_properties", 1) s2.store := by
      rw [hs3]; exact step _ _ _ _ (keyFolderNe _ _ _ _ (by decide))
    rw [l8, l7, l6, l5, l4, l3, w2', assocLookup_set_self]
  · intro hbuf
    have w3' : s3.store = assocSet ("heading_meta", st.partIdx + 1) (Rows.hm st.bufHM) s2.store := by
      rw [w3, hbHM, if_neg (by simp [Rows.isEmptyRows, isEmpty_false_of_ne st.bufHM hbuf])]
    have l8 : assocLookup (("heading_meta", st.partIdx + 1) : String × Nat) s8.store
        = assocLookup ("heading_meta", st.partIdx + 1) s7.store := by
      rw [hs8]; exact step _ _ _ _ (keyFolderNe _ _ _ _ (by decide))
    have l7 : assocLookup (("heading_meta", st.partIdx + 1) : String × Nat) s7.store
        = assocLookup ("heading_meta", st.partIdx + 1) s6.store := by
      rw [hs7]; exact step _ _ _ _ (keyFolderNe _ _ _ _ (by decide))
    have l6 : assocLookup (("heading_meta", st.partIdx + 1) : String × Nat) s6.store
        = assocLookup ("heading_meta", st.partIdx + 1) s5.store := by
      rw [hs6]; exact step _ _ _ _ (keyFolderNe _ _ _ _ (by decide))
    have l5 : assocLookup (("heading_meta", st.partIdx + 1) : String × Nat) s5.store
        = assocLookup ("heading_meta", st.partIdx + 1) s4.store := by
      rw [hs5]; exact step _ _ _ _ (keyFolderNe _ _ _ _ (by decide))
    have l4 : assocLookup (("heading_meta", st.partIdx + 1) : String × Nat) s4.store
        = assocLookup ("heading_meta", st.partIdx + 1) s3.store := by
      rw [hs4]; exact step _ _ _ _ (keyFolderNe _ _ _ _ (by decide))
    rw [l8, l7, l6, l5, l4, w3', assocLookup_set_self]
  · intro hbuf
    have w4' : s4.store = assocSet ("depositor_synonyms", st.partIdx + 1) (Rows.syn st.bufSyn) s3.store := by
      rw [w4, hbSyn, if_neg (by simp [Rows.isEmptyRows, isEmpty_false_of_ne st.bufSyn hbuf])]
    have l8 : assocLookup (("depositor_synonyms", st.partIdx + 1) : String × Nat) s8.store
        = assocLookup ("depositor_synonyms", st.partIdx + 1) s7.store := by
      rw [hs8]; exact step _ _ _ _ (keyFolderNe _ _ _ _ (by decide))
    have l7 : assocLookup (("depositor_synonyms", st.partIdx + 1) : String × Nat) s7.store
        = assocLookup ("depositor_synonyms", st.partIdx + 1) s6.store := by
      rw [hs7]; exact step _ _ _ _ (keyFolderNe _ _ _ _ (by decide))
    have l6 : assocLookup (("depositor_synonyms", st.partIdx + 1) : String × Nat) s6.store
        = assocLookup ("depositor_synonyms", st.partIdx + 1) s5.store := by
      rw [hs6]; exact step _ _ _ _ (keyFolderNe _ _ _ _ (by decide))
    have l5 : assocLookup (("depositor_synonyms", st.partIdx + 1) : String × Nat) s5.store
        = assocLookup ("depositor_synonyms", st.partIdx + 1) s4.store := by
      rw [hs5]; exact step _ _ _ _ (keyFolderNe _ _ _ _ (by decide))
    rw [l8, l7, l6, l5, w4', assocLookup_set_self]
  · intro hbuf
    have w5' : s5.store = assocSet ("depositor_patent_ids", st.partIdx + 1) (Rows.pat st.bufPat) s4.store := by
      rw [w5, hbPat, if_neg (by simp [Rows.isEmptyRows, isEmpty_false_of_ne st.bufPat hbuf])]
    have l8 : assocLookup (("depositor_patent_ids", st.partIdx + 1) : String × Nat) s8.store
        = assocLookup ("depositor_patent_ids", st.partIdx + 1) s7.store := by
      rw [hs8]; exact step _ _ _ _ (keyFolderNe _ _ _ _ (by decide))
    have l7 : assocLookup (("depositor_patent_ids", st.partIdx + 1) : String × Nat) s7.store
        = assocLookup ("depositor_patent_ids", st.partIdx + 1) s6.store := by
      rw [hs7]; exact step _ _ _ _ (keyFolderNe _ _ _ _ (by decide))
    have l6 : assocLookup (("depositor_patent_ids", st.partIdx + 1) : String × Nat) s6.store
        = assocLookup ("depositor_patent_ids", st.partIdx + 1) s5.store := by
      rw [hs6]; exact step _ _ _ _ (keyFolderNe _ _ _ _ (by decide))
    rw [l8, l7, l6, w5', assocLookup_set_self]
  · intro hbuf
    have w6' : s6.store = assocSet ("mesh_pharm_class", st.partIdx + 1) (Rows.mesh st.bufMesh) s5.store := by
      rw [w6, hbMesh, if_neg (by simp [Rows.isEmptyRows, isEmpty_false_of_ne st.bufMesh hbuf])]
    have l8 : assocLookup (("mesh_pharm_class", st.partIdx + 1) : String × Nat) s8.store
        = assocLookup ("mesh_pharm_class", st.partIdx + 1) s7.store := by
      rw [hs8]; exact step _ _ _ _ (keyFolderNe _ _ _ _ (by decide))
    have l7 : assocLookup (("mesh_pharm_class", st.partIdx + 1) : String × Nat) s7.store
        = assocLookup ("mesh_pharm_class", st.partIdx + 1) s6.store := by
      rw [hs7]; exact step _ _ _ _ (keyFolderNe _ _ _ _ (by decide))
    rw [l8, l7, w6', assocLookup_set_self]
  · intro hbuf
    have w7' : s7.store = assocSet ("fda_pharm_class", st.partIdx + 1) (Rows.fda st.bufFda) s6.store := by
      rw [w7, hbFda, if_neg (by simp [Rows.isEmptyRows, isEmpty_false_of_ne st.bufFda hbuf])]
    have l8 : assocLookup (("fda_pharm_class", st.partIdx + 1) : String × Nat) s8.store
        = assocLookup ("fda_pharm_class", st.partIdx + 1) s7.store := by
      rw [hs8]; exact step _ _ _ _ (keyFolderNe _ _ _ _ (by decide))
    rw [l8, w7', assocLookup_set_self]
  · intro hbuf
    have w8' : s8.store = assocSet ("pugview_raw_headings", st.partIdx + 1) (Rows.raw st.bufRaw) s7.store := by
      rw [w8, hbRaw, if_neg (by simp [Rows.isEmptyRows, isEmpty_false_of_ne st.bufRaw hbuf])]
    rw [w8', assocLookup_set_self]

theorem flushBuffers_inv (o : Oracles) (coreDf : List CoreRow) (st : LoopState)
    (hb : BufInv o st) (hs : StoreInv o st) :
    BufInv o (flushBuffers coreDf st) ∧ StoreInv o (flushBuffers coreDf st) := by
  obtain ⟨pres, _, lhm, lsyn, lpat, lmesh, lfda, lraw⟩ := flushBuffers_store coreDf st
  obtain ⟨hpi, hbh, hbs, hbp, hbm, hbf, hbr, hpn, hlog, _, _⟩ := flushBuffers_spec coreDf st
  constructor
  · exact ⟨by rw [hbh, hpn]; rfl, by rw [hbs, hpn]; rfl, by rw [hbp, hpn]; rfl,
      by rw [hbm, hpn]; rfl, by rw [hbf, hpn]; rfl, by rw [hbr, hpn]; rfl⟩
  · intro c hc
    rw [hlog] at hc
    rcases List.mem_append.mp hc with hcl | hcp
    · obtain ⟨o1, o2, o3, o4, o5, o6⟩ := hs c hcl
      refine ⟨?_, ?_, ?_, ?_, ?_, ?_⟩
      · intro hne
        obtain ⟨i, rs, hi, hl, hsub⟩ := o1 hne
        exact ⟨i, rs, by rw [hpi]; omega, by rw [pres _ _ hi]; exact hl, hsub⟩
      · intro hne
        obtain ⟨i, rs, hi, hl, hsub⟩ := o2 hne
        exact ⟨i, rs, by rw [hpi]; omega, by rw [pres _ _ hi]; exact hl, hsub⟩
      · intro hne
        obtain ⟨i, rs, hi, hl, hsub⟩ := o3 hne
        exact ⟨i, rs, by rw [hpi]; omega, by rw [pres _ _ hi]; exact hl, hsub⟩
      · intro hne
        obtain ⟨i, rs, hi, hl, hsub⟩ := o4 hne
        exact ⟨i, rs, by rw [hpi]; omega, by rw [pres _ _ hi]; exact hl, hsub⟩
      · intro hne
        obtain ⟨i, rs, hi, hl, hsub⟩ := o5 hne
        exact ⟨i, rs, by rw [hpi]; omega, by rw [pres _ _ hi]; exact hl, hsub⟩
      · intro hne
        obtain ⟨i, rs, hi, hl, hsub⟩ := o6 hne
        exact ⟨i, rs, by rw [hpi]; omega, by rw [pres _ _ hi]; exact hl, hsub⟩
    · obtain ⟨bh, bs2, bp, bm, bf, br⟩ := hb
      refine ⟨?_, ?_, ?_, ?_, ?_, ?_⟩
      · intro hne
        have hsub : producedHM o c ⊆ st.bufHM := by
          rw [bh]
          intro x hx
          exact List.mem_flatMap.mpr ⟨c, hcp, hx⟩
        have hnb : st.bufHM ≠ [] := by
          intro h0
          rw [h0] at hsub
          obtain ⟨x, hx⟩ := List.exists_mem_of_ne_nil _ hne
          exact absurd (hsub hx) (List.not_mem_nil x)
        exact ⟨st.partIdx + 1, st.bufHM, Nat.le_of_eq hpi.symm, lhm hnb, hsub⟩
      · intro hne
        have hsub : producedSyn o c ⊆ st.bufSyn := by
          rw [bs2]
          intro x hx
          exact List.mem_flatMap.mpr ⟨c, hcp, hx⟩
        have hnb : st.bufSyn ≠ [] := by
          intro h0
          rw [h0] at hsub
          obtain ⟨x, hx⟩ := List.exists_mem_of_ne_nil _ hne
          exact absurd (hsub hx) (List.not_mem_nil x)
        exact ⟨st.partIdx + 1, st.bufSyn, Nat.le_of_eq hpi.symm, lsyn hnb, hsub⟩
      · intro hne
        have hsub : producedPat o c ⊆ st.bufPat := by
          rw [bp]
          intro x hx
          exact List.mem_flatMap.mpr ⟨c, hcp, hx⟩
        have hnb : st.bufPat ≠ [] := by
          intro h0
          rw [h0] at hsub
          obtain ⟨x, hx⟩ := List.exists_mem_of_ne_nil _ hne
          exact absurd (hsub hx) (List.not_mem_nil x)
        exact ⟨st.partIdx + 1, st.bufPat, Nat.le_of_eq hpi.symm, lpat hnb, hsub⟩
      · intro hne
        have hsub : producedMesh o c ⊆ st.bufMesh := by
          rw [bm]
          intro x hx
          exact List.mem_flatMap.mpr ⟨c, hcp, hx⟩
        have hnb : st.bufMesh ≠ [] := by
          intro h0
          rw [h0] at hsub
          obtain ⟨x, hx⟩ := List.exists_mem_of_ne_nil _ hne
          exact absurd (hsub hx) (List.not_mem_nil x)
        exact ⟨st.partIdx + 1, st.bufMesh, Nat.le_of_eq hpi.symm, lmesh hnb, hsub⟩
      · intro hne
        have hsub : producedFda o c ⊆ st.bufFda := by
          rw [bf]
          intro x hx
          exact List.mem_flatMap.mpr ⟨c, hcp, hx⟩
        have hnb : st.bufFda ≠ [] := by
          intro h0
          rw [h0] at hsub
          obtain ⟨x, hx⟩ := List.exists_mem_of_ne_nil _ hne
          exact absurd (hsub hx) (List.not_mem_nil x)
        exact ⟨st.partIdx + 1, st.bufFda, Nat.le_of_eq hpi.symm, lfda hnb, hsub⟩
      · intro hne
        have hsub : producedRaw o c ⊆ st.bufRaw := by
          rw [br]
          intro x hx
          exact List.mem_flatMap.mpr ⟨c, hcp, hx⟩
        have hnb : st.bufRaw ≠ [] := by
          intro h0
          rw [h0] at hsub
          obtain ⟨x, hx⟩ := List.exists_mem_of_ne_nil _ hne
          exact absurd (hsub hx) (List.not_mem_nil x)
        exact ⟨st.partIdx + 1, st.bufRaw, Nat.le_of_eq hpi.symm, lraw hnb, hsub⟩

theorem processCid_inv (o : Oracles) (c : Nat) (st : LoopState)
    (hb : BufInv o st) (hs : StoreInv o st) :
    BufInv o (processCid o c st) ∧ StoreInv o (processCid o c st) := by
  obtain ⟨i1, i2, i3, i4, _, i6, i7, i8, i9, i10, i11⟩ := processCid_proj o c st
  obtain ⟨bh, bs2, bp, bm, bf, br⟩ := hb
  constructor
  · refine ⟨?_, ?_, ?_, ?_, ?_, ?_⟩
    · rw [i6, i2, bh]
      simp
    · rw [i7, i2, bs2]
      simp
    · rw [i8, i2, bp]
      simp
    · rw [i9, i2, bm]
      simp
    · rw [i10, i2, bf]
      simp
    · rw [i11, i2, br]
      simp
  · intro c2 hc2
    rw [i1] at hc2
    have := hs c2 hc2
    rw [i3, i4]
    exact this

theorem runLoop_inv (o : Oracles) (coreDf : List CoreRow) (fe : Nat) :
    ∀ (cs : List Nat) (i : Nat) (st : LoopState), BufInv o st → StoreInv o st →
      BufInv o (runLoop o coreDf fe i cs st) ∧ StoreInv o (runLoop o coreDf fe i cs st) := by
  intro cs
  induction cs with
  | nil =>
      intro i st hb hs
      rw [runLoop]
      exact flushBuffers_inv o coreDf st hb hs
  | cons c cs ih =>
      intro i st hb hs
      simp only [runLoop]
      obtain ⟨hb1, hs1⟩ := processCid_inv o c st hb hs
      by_cases hf : fe ≠ 0 ∧ i % fe = 0
      · rw [if_pos hf]
        obtain ⟨hb2, hs2⟩ := flushBuffers_inv o coreDf (processCid o c st) hb1 hs1
        exact ih (i + 1) _ hb2 hs2
      · rw [if_neg hf]
        exact ih (i + 1) _ hb1 hs1

theorem runLoop_log (o : Oracles) (coreDf : List CoreRow) (fe : Nat) :
    ∀ (cs : List Nat) (i : Nat) (st : LoopState),
      (runLoop o coreDf fe i cs st).checkpointLog
        = st.checkpointLog ++ st.processedNow ++ cs := by
  intro cs
  induction cs with
  | nil =>
      intro i st
      rw [runLoop]
      obtain ⟨_, _, _, _, _, _, _, _, hlog, _, _⟩ := flushBuffers_spec coreDf st
      rw [hlog, List.append_nil]
  | cons c cs ih =>
      intro i st
      simp only [runLoop]
      obtain ⟨i1, i2, _, _, _, _, _, _, _, _, _⟩ := processCid_proj o c st
      by_cases hf : fe ≠ 0 ∧ i % fe = 0
      · rw [if_pos hf, ih]
        obtain ⟨_, _, _, _, _, _, _, hpn, hlog, _, _⟩ := flushBuffers_spec coreDf (processCid o c st)
        rw [hpn, hlog, i1, i2]
        simp
      · rw [if_neg hf, ih, i1, i2]
        simp

theorem runLoop_trace (o : Oracles) (coreDf : List CoreRow) (fe : Nat) (P : Nat → Prop) :
    ∀ (cs : List Nat) (i : Nat) (st : LoopState),
      (∀ e ∈ st.trace, ∀ x ∈ e.fetchCids, P x) → (∀ c ∈ cs, P c) →
      ∀ e ∈ (runLoop o coreDf fe i cs st).trace, ∀ x ∈ e.fetchCids, P x := by
  have hflush : ∀ st : LoopState, (∀ e ∈ st.trace, ∀ x ∈ e.fetchCids, P x) →
      ∀ e ∈ (flushBuffers coreDf st).trace, ∀ x ∈ e.fetchCids, P x := by
    intro st hst e he
    obtain ⟨_, _, _, _, _, _, _, _, _, _, ws, cp, htr, hws, hcp⟩ := flushBuffers_spec coreDf st
    rw [htr] at he
    rcases List.mem_append.mp he with he1 | he2
    · rcases List.mem_append.mp he1 with he3 | he4
      · exact hst e he3
      · obtain ⟨f, i, d, rfl⟩ := hws e he4
        intro x hx
        exact absurd hx (List.not_mem_nil x)
    · rcases hcp with ⟨_, rfl⟩ | ⟨_, rfl⟩
      · exact absurd he2 (List.not_mem_nil e)
      · rw [List.mem_singleton] at he2
        subst he2
        intro x hx
        exact absurd hx (List.not_mem_nil x)
  have hproc : ∀ (c : Nat) (st : LoopState), P c →
      (∀ e ∈ st.trace, ∀ x ∈ e.fetchCids, P x) →
      ∀ e ∈ (processCid o c st).trace, ∀ x ∈ e.fetchCids, P x := by
    intro c st hPc hst e he
    obtain ⟨_, _, _, _, i5, _, _, _, _, _, _⟩ := processCid_proj o c st
    rw [i5] at he
    rcases List.mem_append.mp he with he1 | he2
    · exact hst e he1
    · obtain ⟨h, _, rfl⟩ := List.mem_map.mp he2
      intro x hx
      rw [show (Event.request c h).fetchCids = [c] from rfl, List.mem_singleton] at hx
      subst hx
      exact hPc
  intro cs
  induction cs with
  | nil =>
      intro i st hst _
      rw [runLoop]
      exact hflush st hst
  | cons c cs ih =>
      intro i st hst hcs
      simp only [runLoop]
      have h1 := hproc c st (hcs c (List.mem_cons_self c cs)) hst
      have hcs' : ∀ c2 ∈ cs, P c2 := fun c2 h => hcs c2 (List.mem_cons_of_mem c h)
      by_cases hf : fe ≠ 0 ∧ i % fe = 0
      · rw [if_pos hf]
        exact ih (i + 1) _ (hflush _ h1) hcs'
      · rw [if_neg hf]
        exact ih (i + 1) _ h1 hcs'

theorem buildCore_snd (o : Oracles) (bs : Nat) (cids : List Nat) :
    (buildCore o bs cids).2 = (chunksOf bs cids).map Event.propBatch := by
  rw [buildCore]
  have gen : ∀ (l : List (List Nat)) (acc : List CoreRow × List Event),
      (l.foldl (fun acc batch =>
        (acc.1 ++ batch.map (fun c => mkCoreRow c (o.props batch c)),
         acc.2 ++ [.propBatch batch])) acc).2 = acc.2 ++ l.map Event.propBatch := by
    intro l
    induction l with
    | nil => intro acc; simp
    | cons b l ih =>
        intro acc
        rw [List.foldl_cons, ih]
        simp
  rw [gen]
  rfl

theorem runMain_eq (a : RunArgs) (o : Oracles) (store0 : Store) (cache0 : Cache) :
    runMain a o store0 cache0 =
      if storeHasFolder (runMainLoop a o store0 cache0).store "core_properties" then
        runMainLoop a o store0 cache0
      else { runMainLoop a o store0 cache0 with
             store := assocSet ("core_properties", 1)
               (.core (buildCore o a.batchSize (runWorklist a)).1)
               (runMainLoop a o store0 cache0).store } := rfl

theorem runMain_proj (a : RunArgs) (o : Oracles) (store0 : Store) (cache0 : Cache) :
    (runMain a o store0 cache0).checkpointLog = (runMainLoop a o store0 cache0).checkpointLog
    ∧ (runMain a o store0 cache0).trace = (runMainLoop a o store0 cache0).trace
    ∧ (runMain a o store0 cache0).partIdx = (runMainLoop a o store0 cache0).partIdx
    ∧ (∀ (f : String) (i : Nat), f ≠ "core_properties" →
        assocLookup (f, i) (runMain a o store0 cache0).store
          = assocLookup (f, i) (runMainLoop a o store0 cache0).store) := by
  rw [runMain_eq]
  split
  · exact ⟨rfl, rfl, rfl, fun f i _ => rfl⟩
  · refine ⟨rfl, rfl, rfl, ?_⟩
    intro f i hf
    show assocLookup (f, i) (assocSet ("core_properties", 1) _ _) = _
    exact assocLookup_set_ne _ _ _ _ (fun hcon => hf (congrArg Prod.fst hcon))

/-- C1: a resumed run's worklist is the parsed id list minus the
checkpointed subjects, in ascending order; the final checkpoint log is
exactly that worklist; and every fetch request of the run - per-heading
or membership in a property batch - names a worklist subject, hence
never a checkpointed one. -/
theorem claim_C1 (a : RunArgs) (o : Oracles) (store0 : Store) (cache0 : Cache) :
    List.Pairwise (· < ·) (runWorklist a)
    ∧ (∀ c, c ∈ runWorklist a ↔
        c ∈ readIdList a.idLines a.maxIds ∧ c ∉ parseProcessed a.cpLines)
    ∧ (runMain a o store0 cache0).checkpointLog = runWorklist a
    ∧ (∀ e ∈ (runMain a o store0 cache0).trace, ∀ x ∈ e.fetchCids,
        x ∈ runWorklist a ∧ x ∉ parseProcessed a.cpLines) := by
  have hmem : ∀ c, c ∈ runWorklist a ↔
      c ∈ readIdList a.idLines a.maxIds ∧ c ∉ parseProcessed a.cpLines := by
    intro c
    rw [runWorklist]
    simp [List.mem_filter]
  have hsorted : List.Pairwise (· < ·) (runWorklist a) := by
    have h1 : List.Pairwise (· < ·) (readIdList a.idLines a.maxIds) := by
      cases hmx : a.maxIds with
      | none =>
          simp only [readIdList]
          exact sortedDistinct_sorted_lt _
      | some m =>
          simp only [readIdList]
          exact List.Pairwise.sublist (List.take_sublist _ _) (sortedDistinct_sorted_lt _)
    exact List.Pairwise.sublist (List.filter_sublist _) h1
  obtain ⟨hplog, hptr, _, _⟩ := runMain_proj a o store0 cache0
  have hlog : (runMain a o store0 cache0).checkpointLog = runWorklist a := by
    rw [hplog, runMainLoop, runLoop_log]
    simp
  refine ⟨hsorted, hmem, hlog, ?_⟩
  intro e he x hx
  have hP : ∀ e2 ∈ (runMain a o store0 cache0).trace, ∀ x2 ∈ e2.fetchCids,
      x2 ∈ runWorklist a := by
    rw [hptr, runMainLoop]
    refine runLoop_trace o _ a.flushEvery (fun x2 => x2 ∈ runWorklist a)
      (runWorklist a) 1 _ ?_ (fun c hc => hc)
    intro e2 he2 x2 hx2
    have he2' : e2 ∈ (buildCore o a.batchSize (runWorklist a)).2 := he2
    rw [buildCore_snd] at he2'
    obtain ⟨b, hb, rfl⟩ := List.mem_map.mp he2'
    exact chunksOf_mem_sub a.batchSize (runWorklist a) b hb x2 hx2
  have h1 := hP e he x hx
  exact ⟨h1, ((hmem x).mp h1).2⟩

/-- C3: a flush performs all its fragment writes before its checkpoint
append and appends exactly the subjects processed since the last flush;
a subject joins the processed-this-session list only after requests for
all its attribute sources were issued; and at the end of a run every
checkpointed subject's produced rows of every buffered category are
present in a written fragment of the store. -/
theorem claim_C3 (a : RunArgs) (o : Oracles) (store0 : Store) (cache0 : Cache)
    (coreDf : List CoreRow) (st : LoopState) (cid : Nat) :
    (∃ ws cp, (flushBuffers coreDf st).trace = st.trace ++ ws ++ cp
      ∧ (∀ e ∈ ws, ∃ f i d, e = Event.write f i d)
      ∧ ((st.processedNow = [] ∧ cp = [])
          ∨ (st.processedNow ≠ [] ∧ cp = [Event.checkpoint st.processedNow])))
    ∧ (flushBuffers coreDf st).checkpointLog = st.checkpointLog ++ st.processedNow
    ∧ (processCid o cid st).processedNow = st.processedNow ++ [cid]
    ∧ (processCid o cid st).trace = st.trace ++ HEADINGS.map (Event.request cid)
    ∧ (∀ c ∈ (runMain a o store0 cache0).checkpointLog,
        (producedHM o c ≠ [] → ∃ i rs,
          assocLookup ("heading_meta", i) (runMain a o store0 cache0).store
            = some (Rows.hm rs) ∧ producedHM o c ⊆ rs)
        ∧ (producedSyn o c ≠ [] → ∃ i rs,
          assocLookup ("depositor_synonyms", i) (runMain a o store0 cache0).store
            = some (Rows.syn rs) ∧ producedSyn o c ⊆ rs)
        ∧ (producedPat o c ≠ [] → ∃ i rs,
          assocLookup ("depositor_patent_ids", i) (runMain a o store0 cache0).store
            = some (Rows.pat rs) ∧ producedPat o c ⊆ rs)
        ∧ (producedMesh o c ≠ [] → ∃ i rs,
          assocLookup ("mesh_pharm_class", i) (runMain a o store0 cache0).store
            = some (Rows.mesh rs) ∧ producedMesh o c ⊆ rs)
        ∧ (producedFda o c ≠ [] → ∃ i rs,
          assocLookup ("fda_pharm_class", i) (runMain a o store0 cache0).store
            = some (Rows.fda rs) ∧ producedFda o c ⊆ rs)
        ∧ (producedRaw o c ≠ [] → ∃ i rs,
          assocLookup ("pugview_raw_headings", i) (runMain a o store0 cache0).store
            = some (Rows.raw rs) ∧ producedRaw o c ⊆ rs)) := by
  obtain ⟨_, _, _, _, _, _, _, _, hflog, _, hftr⟩ := flushBuffers_spec coreDf st
  obtain ⟨p1, p2, _, _, p5, _, _, _, _, _, _⟩ := processCid_proj o cid st
  refine ⟨hftr, hflog, p2, p5, ?_⟩
  have hinv := runLoop_inv o (buildCore o a.batchSize (runWorklist a)).1 a.flushEvery
    (runWorklist a) 1
    { partIdx := 0, bufHM := [], bufSyn := [], bufPat := [], bufMesh := [],
      bufFda := [], bufRaw := [], processedNow := [], checkpointLog := [],
      store := store0, cache := cache0, trace := (buildCore o a.batchSize (runWorklist a)).2 }
    ⟨rfl, rfl, rfl, rfl, rfl, rfl⟩
    (fun c hc => absurd hc (List.not_mem_nil c))
  obtain ⟨_, hsinv⟩ := hinv
  obtain ⟨hplog, _, _, hpst⟩ := runMain_proj a o store0 cache0
  intro c hc
  rw [hplog] at hc
  obtain ⟨o1, o2, o3, o4, o5, o6⟩ := hsinv c hc
  refine ⟨?_, ?_, ?_, ?_, ?_, ?_⟩
  · intro hne
    obtain ⟨i, rs, _, hl, hsub⟩ := o1 hne
    exact ⟨i, rs, by rw [hpst _ _ (by decide)]; exact hl, hsub⟩
  · intro hne
    obtain ⟨i, rs, _, hl, hsub⟩ := o2 hne
    exact ⟨i, rs, by rw [hpst _ _ (by decide)]; exact hl, hsub⟩
  · intro hne
    obtain ⟨i, rs, _, hl, hsub⟩ := o3 hne
    exact ⟨i, rs, by rw [hpst _ _ (by decide)]; exact hl, hsub⟩
  · intro hne
    obtain ⟨i, rs, _, hl, hsub⟩ := o4 hne
    exact ⟨i, rs, by rw [hpst _ _ (by decide)]; exact hl, hsub⟩
  · intro hne
    obtain ⟨i, rs, _, hl, hsub⟩ := o5 hne
    exact ⟨i, rs, by rw [hpst _ _ (by decide)]; exact hl, hsub⟩
  · intro hne
    obtain ⟨i, rs, _, hl, hsub⟩ := o6 hne
    exact ⟨i, rs, by rw [hpst _ _ (by decide)]; exact hl, hsub⟩

/-- C2: refuted - a resumed run restarts the fragment counter at zero,
so its first flush rewrites fragment one: in the overwrite scenario the
pre-existing heading-meta fragment one is replaced by subject two's
outcome rows instead of being left unchanged. -/
theorem claim_C2 :
    assocLookup ("heading_meta", 1) c2InitStore = some (Rows.hm [⟨1, "3D Conformer", 200, 7⟩])
    ∧ assocLookup ("heading_meta", 1) c2Run.store
        = some (Rows.hm (producedHM notFoundOracles 2))
    ∧ assocLookup ("heading_meta", 1) c2Run.store
        ≠ assocLookup ("heading_meta", 1) c2InitStore := by
  have hwl : runWorklist c2Args = [2] := by decide
  have hne : "heading_meta" ≠ "core_properties" := by decide
  obtain ⟨_, _, _, hpst⟩ := runMain_proj c2Args notFoundOracles c2InitStore []
  have hloop : runMainLoop c2Args notFoundOracles c2InitStore []
      = flushBuffers (buildCore notFoundOracles c2Args.batchSize [2]).1
          (processCid notFoundOracles 2
            { partIdx := 0, bufHM := [], bufSyn := [], bufPat := [], bufMesh := [],
              bufFda := [], bufRaw := [], processedNow := [], checkpointLog := [],
              store := c2InitStore, cache := [],
              trace := (buildCore notFoundOracles c2Args.batchSize [2]).2 }) := by
    rw [runMainLoop, hwl]
    simp only [runLoop]
    rw [if_neg (by decide)]
  have hval : assocLookup ("heading_meta", 1) c2Run.store
      = some (Rows.hm (producedHM notFoundOracles 2)) := by
    show assocLookup ("heading_meta", 1) (runMain c2Args notFoundOracles c2InitStore []).store
        = some (Rows.hm (producedHM notFoundOracles 2))
    rw [hpst "heading_meta" 1 hne, hloop]
    obtain ⟨_, _, hpi, _, _, hbh, _, _, _, _, _⟩ := processCid_proj notFoundOracles 2
      { partIdx := 0, bufHM := [], bufSyn := [], bufPat := [], bufMesh := [],
        bufFda := [], bufRaw := [], processedNow := [], checkpointLog := [],
        store := c2InitStore, cache := [],
        trace := (buildCore notFoundOracles c2Args.batchSize [2]).2 }
    have hbh0 : (processCid notFoundOracles 2
        { partIdx := 0, bufHM := [], bufSyn := [], bufPat := [], bufMesh := [],
          bufFda := [], bufRaw := [], processedNow := [], checkpointLog := [],
          store := c2InitStore, cache := [],
          trace := (buildCore notFoundOracles c2Args.batchSize [2]).2 }).bufHM
        = producedHM notFoundOracles 2 := by
      rw [hbh]
      exact List.nil_append _
    obtain ⟨_, _, lhm, _, _, _, _, _⟩ := flushBuffers_store
      (buildCore notFoundOracles c2Args.batchSize [2]).1
      (processCid notFoundOracles 2
        { partIdx := 0, bufHM := [], bufSyn := [], bufPat := [], bufMesh := [],
          bufFda := [], bufRaw := [], processedNow := [], checkpointLog := [],
          store := c2InitStore, cache := [],
          trace := (buildCore notFoundOracles c2Args.batchSize [2]).2 })
    have hkey := lhm (by rw [hbh0]; decide)
    rw [hbh0, hpi] at hkey
    exact hkey
  refine ⟨rfl, hval, ?_⟩
  rw [hval]
  decide

theorem runMain_cache (a : RunArgs) (o : Oracles) (store0 : Store) (cache0 : Cache) :
    (runMain a o store0 cache0).cache = (runMainLoop a o store0 cache0).cache := by
  rw [runMain_eq]
  split
  · rfl
  · rfl

/-- C4: refuted for the fetch loop - the read-through helper does
return a parseable cached entry without a network call and stores on a
miss, but the loop itself never consults its cache: in the cache
scenario the request for the cached (subject, heading) pair is still
issued and the cached entry is rewritten with the fresh body. -/
theorem claim_C4 :
    (∀ (j : JVal) (net : NetResult),
        fetchJson (some (.parseable j)) net = ⟨j, some (.parseable j), false⟩)
    ∧ (fetchJson none (.ok (some c4NewVal) 200)).networkCalled = true
    ∧ assocLookup (1, "3D Conformer") c4Cache0 = some c4CachedVal
    ∧ Event.request 1 "3D Conformer" ∈ c4Run.trace
    ∧ assocLookup (1, "3D Conformer") c4Run.cache = some c4NewVal
    ∧ c4NewVal ≠ c4CachedVal := by
  have hwl : runWorklist c4Args = [1] := by decide
  have hloop : runMainLoop c4Args c4Oracles [] c4Cache0
      = flushBuffers (buildCore c4Oracles c4Args.batchSize [1]).1
          (processCid c4Oracles 1
            { partIdx := 0, bufHM := [], bufSyn := [], bufPat := [], bufMesh := [],
              bufFda := [], bufRaw := [], processedNow := [], checkpointLog := [],
              store := [], cache := c4Cache0,
              trace := (buildCore c4Oracles c4Args.batchSize [1]).2 }) := by
    rw [runMainLoop, hwl]
    simp only [runLoop]
    rw [if_neg (by decide)]
  obtain ⟨_, htr, _, _⟩ := runMain_proj c4Args c4Oracles [] c4Cache0
  refine ⟨fun j net => rfl, rfl, rfl, ?_, ?_, by decide⟩
  · show Event.request 1 "3D Conformer" ∈ (runMain c4Args c4Oracles [] c4Cache0).trace
    rw [htr, hloop]
    obtain ⟨_, _, _, _, _, _, _, _, _, _, ws, cp, htr2, _, _⟩ :=
      flushBuffers_spec (buildCore c4Oracles c4Args.batchSize [1]).1
        (processCid c4Oracles 1
          { partIdx := 0, bufHM := [], bufSyn := [], bufPat := [], bufMesh := [],
            bufFda := [], bufRaw := [], processedNow := [], checkpointLog := [],
            store := [], cache := c4Cache0,
            trace := (buildCore c4Oracles c4Args.batchSize [1]).2 })
    rw [htr2]
    refine List.mem_append_left _ (List.mem_append_left _ ?_)
    obtain ⟨_, _, _, _, i5, _, _, _, _, _, _⟩ := processCid_proj c4Oracles 1
      { partIdx := 0, bufHM := [], bufSyn := [], bufPat := [], bufMesh := [],
        bufFda := [], bufRaw := [], processedNow := [], checkpointLog := [],
        store := [], cache := c4Cache0,
        trace := (buildCore c4Oracles c4Args.batchSize [1]).2 }
    rw [i5]
    exact List.mem_append_right _ (List.mem_map.mpr ⟨"3D Conformer", by decide, rfl⟩)
  · show assocLookup (1, "3D Conformer") (runMain c4Args c4Oracles [] c4Cache0).cache
        = some c4NewVal
    rw [runMain_cache, hloop]
    obtain ⟨_, _, _, _, _, _, _, _, _, hca, _⟩ :=
      flushBuffers_spec (buildCore c4Oracles c4Args.batchSize [1]).1
        (processCid c4Oracles 1
          { partIdx := 0, bufHM := [], bufSyn := [], bufPat := [], bufMesh := [],
            bufFda := [], bufRaw := [], processedNow := [], checkpointLog := [],
            store := [], cache := c4Cache0,
            trace := (buildCore c4Oracles c4Args.batchSize [1]).2 })
    rw [hca]
    decide

theorem dropWsStar_not_ws (c : Char) (cs : List Char) (h : isWs c = false) :
    dropWsStar (c :: cs) = c :: cs := by
  rw [dropWsStar, h]
  rfl

theorem dropWsStar_space (cs : List Char) :
    dropWsStar (' ' :: cs) = dropWsStar cs := by
  rw [dropWsStar]
  rfl

theorem isWs_false_of_digit (c : Char) (h : c.isDigit = true) : isWs c = false := by
  cases hw : isWs c
  · rfl
  · rw [isWs, Char.isWhitespace] at hw
    simp only [Bool.or_eq_true, decide_eq_true_eq] at hw
    rcases hw with ((hw | hw) | hw) | hw <;> subst hw <;> exact absurd h (by decide)

theorem takeWhile_all_append (p : Char → Bool) :
    ∀ (l1 l2 : List Char), (∀ c ∈ l1, p c = true) →
      (∀ c, l2.head? = some c → p c = false) →
      (l1 ++ l2).takeWhile p = l1 ∧ (l1 ++ l2).dropWhile p = l2
  | [], l2, _, h2 => by
      cases l2 with
      | nil => exact ⟨rfl, rfl⟩
      | cons c cs =>
          simp only [List.nil_append, List.takeWhile_cons, List.dropWhile_cons,
            h2 c rfl]
          exact ⟨rfl, rfl⟩
  | a :: l1, l2, h1, h2 => by
      obtain ⟨ht, hd⟩ := takeWhile_all_append p l1 l2
        (fun c hc => h1 c (List.mem_cons_of_mem a hc)) h2
      simp only [List.cons_append, List.takeWhile_cons, List.dropWhile_cons,
        h1 a (List.mem_cons_self a l1), ht, hd]
      exact ⟨rfl, rfl⟩

theorem digit_char_facts : ∀ m, m < 10 →
    (Char.ofNat (48 + m)).toNat = 48 + m ∧ (Char.ofNat (48 + m)).isDigit = true := by
  decide

theorem parseHex_hexDigitChar : ∀ d, d < 16 → parseHex (hexDigitChar d) = some d := by
  decide

theorem natToDigitsGo_spec : ∀ (n : Nat) (acc : List Char),
    ∃ ds, natToDigitsGo n acc = ds ++ acc
      ∧ ds ≠ []
      ∧ (∀ c ∈ ds, c.isDigit = true)
      ∧ (∀ a : Nat, ds.foldl (fun a c => 10 * a + (c.toNat - 48)) a
          = a * 10 ^ ds.length + n) := by
  intro n
  induction n using Nat.strong_induction_on with
  | _ n ih =>
      intro acc
      rw [natToDigitsGo]
      by_cases h : n < 10
      · rw [if_pos h]
        refine ⟨[Char.ofNat (48 + n)], rfl, by simp, ?_, ?_⟩
        · intro c hc
          rw [List.mem_singleton] at hc
          subst hc
          exact (digit_char_facts n h).2
        · intro a
          simp only [List.foldl_cons, List.foldl_nil, List.length_singleton,
            (digit_char_facts n h).1]
          omega
      · rw [if_neg h]
        obtain ⟨ds, hds, hne, hdig, hval⟩ := ih (n / 10)
          (Nat.div_lt_self (by omega) (by omega)) (Char.ofNat (48 + n % 10) :: acc)
        refine ⟨ds ++ [Char.ofNat (48 + n % 10)], ?_, by simp, ?_, ?_⟩
        · rw [hds, List.append_assoc]
          rfl
        · intro c hc
          rcases List.mem_append.mp hc with hc | hc
          · exact hdig c hc
          · rw [List.mem_singleton] at hc
            subst hc
            exact (digit_char_facts (n % 10) (Nat.mod_lt n (by omega))).2
        · intro a
          rw [List.foldl_append, hval a]
          simp only [List.foldl_cons, List.foldl_nil, List.length_append,
            List.length_singleton,
            (digit_char_facts (n % 10) (Nat.mod_lt n (by omega))).1]
          have hpow : 10 ^ (ds.length + 1) = 10 ^ ds.length * 10 := pow_succ 10 ds.length
          have hmod : n % 10 < 10 := Nat.mod_lt n (by omega)
          have hdm : 10 * (n / 10) + n % 10 = n := by omega
          rw [hpow]
          have hmul : a * (10 ^ ds.length * 10) = a * 10 ^ ds.length * 10 := by ring
          rw [hmul]
          omega

theorem parseNatDigits_dump (n : Nat) (rest : List Char)
    (hrest : ∀ c, rest.head? = some c → c.isDigit = false) :
    parseNatDigits (natToDigits n ++ rest) = some (n, rest) := by
  obtain ⟨ds, hds, hne, hdig, hval⟩ := natToDigitsGo_spec n []
  have hnd : natToDigits n = ds := by
    rw [natToDigits, hds, List.append_nil]
  rw [hnd]
  obtain ⟨ht, hd⟩ := takeWhile_all_append Char.isDigit ds rest hdig hrest
  rw [parseNatDigits]
  simp only [ht, hd]
  rw [if_neg hne]
  have : digitsVal ds = n := by
    rw [digitsVal, hval 0]
    simp
  rw [this]

theorem psb_quote (acc X : List Char) :
    parseStringBody acc ('\"' :: X) = some (String.mk acc.reverse, X) := by
  rw [parseStringBody.eq_def]
  simp only [reduceIte]

theorem psb_esc_named (acc X : List Char) (e d : Char) (he : ¬e = 'u')
    (hd : escDecode e = some d) :
    parseStringBody acc ('\\' :: e :: X) = parseStringBody (d :: acc) X := by
  rw [parseStringBody.eq_def]
  simp only [reduceIte, if_neg (show ¬('\\' = '\"') by decide), if_neg he, hd]

theorem psb_esc_u (acc cs2 : List Char) (d : Char) (hu : parseU cs2 = some d) :
    parseStringBody acc ('\\' :: 'u' :: cs2) = parseStringBody (d :: acc) (cs2.drop 4) := by
  rw [parseStringBody.eq_def]
  simp only [reduceIte, if_neg (show ¬('\\' = '\"') by decide), hu]

theorem psb_default (acc X : List Char) (c : Char) (h1 : ¬c = '\"') (h2 : ¬c = '\\') :
    parseStringBody acc (c :: X) = parseStringBody (c :: acc) X := by
  rw [parseStringBody.eq_def]
  simp only [if_neg h1, if_neg h2]

theorem parseStringBody_esc : ∀ (cs acc rest : List Char),
    parseStringBody acc (escString cs ++ '\"' :: rest)
      = some (String.mk (acc.reverse ++ cs), rest)
  | [], acc, rest => by
      show parseStringBody acc ('\"' :: rest) = _
      rw [psb_quote, List.append_nil]
  | c :: cs, acc, rest => by
      have hstep : escString (c :: cs) ++ '\"' :: rest
          = escChar c ++ (escString cs ++ '\"' :: rest) := by
        simp [escString]
      rw [hstep]
      by_cases h1 : c = '\"'
      · subst h1
        rw [show escChar '\"' = ['\\', '\"'] from rfl]
        show parseStringBody acc ('\\' :: '\"' :: (escString cs ++ '\"' :: rest)) = _
        rw [psb_esc_named acc _ '\"' '\"' (by decide) (by decide),
          parseStringBody_esc cs ('\"' :: acc) rest]
        simp
      · by_cases h2 : c = '\\'
        · subst h2
          rw [show escChar '\\' = ['\\', '\\'] from rfl]
          show parseStringBody acc ('\\' :: '\\' :: (escString cs ++ '\"' :: rest)) = _
          rw [psb_esc_named acc _ '\\' '\\' (by decide) (by decide),
            parseStringBody_esc cs ('\\' :: acc) rest]
          simp
        · by_cases h3 : c = '\n'
          · subst h3
            rw [show escChar '\n' = ['\\', 'n'] from rfl]
            show parseStringBody acc ('\\' :: 'n' :: (escString cs ++ '\"' :: rest)) = _
            rw [psb_esc_named acc _ 'n' '\n' (by decide) (by decide),
              parseStringBody_esc cs ('\n' :: acc) rest]
            simp
          · by_cases h4 : c = '\t'
            · subst h4
              rw [show escChar '\t' = ['\\', 't'] from rfl]
              show parseStringBody acc ('\\' :: 't' :: (escString cs ++ '\"' :: rest)) = _
              rw [psb_esc_named acc _ 't' '\t' (by decide) (by decide),
                parseStringBody_esc cs ('\t' :: acc) rest]
              simp
            · by_cases h5 : c = '\r'
              · subst h5
                rw [show escChar '\r' = ['\\', 'r'] from rfl]
                show parseStringBody acc ('\\' :: 'r' :: (escString cs ++ '\"' :: rest)) = _
                rw [psb_esc_named acc _ 'r' '\r' (by decide) (by decide),
                  parseStringBody_esc cs ('\r' :: acc) rest]
                simp
              · by_cases h6 : c = Char.ofNat 8
                · subst h6
                  rw [show escChar (Char.ofNat 8) = ['\\', 'b'] from rfl]
                  show parseStringBody acc
                      ('\\' :: 'b' :: (escString cs ++ '\"' :: rest)) = _
                  rw [psb_esc_named acc _ 'b' (Char.ofNat 8) (by decide) (by decide),
                    parseStringBody_esc cs (Char.ofNat 8 :: acc) rest]
                  simp
                · by_cases h7 : c = Char.ofNat 12
                  · subst h7
                    rw [show escChar (Char.ofNat 12) = ['\\', 'f'] from rfl]
                    show parseStringBody acc
                        ('\\' :: 'f' :: (escString cs ++ '\"' :: rest)) = _
                    rw [psb_esc_named acc _ 'f' (Char.ofNat 12) (by decide) (by decide),
                      parseStringBody_esc cs (Char.ofNat 12 :: acc) rest]
                    simp
                  · by_cases h8 : c.toNat < 32
                    · rw [escChar, if_neg h1, if_neg h2, if_neg h3, if_neg h4,
                        if_neg h5, if_neg h6, if_neg h7, if_pos h8]
                      show parseStringBody acc
                          ('\\' :: 'u' :: ('0' :: '0' :: hexDigitChar (c.toNat / 16)
                            :: hexDigitChar (c.toNat % 16)
                            :: (escString cs ++ '\"' :: rest))) = _
                      have hu : parseU ('0' :: '0' :: hexDigitChar (c.toNat / 16)
                          :: hexDigitChar (c.toNat % 16)
                          :: (escString cs ++ '\"' :: rest)) = some c := by
                        rw [parseU]
                        rw [show parseHex '0' = some 0 from rfl,
                          parseHex_hexDigitChar (c.toNat / 16) (by omega),
                          parseHex_hexDigitChar (c.toNat % 16) (by omega)]
                        simp only []
                        have harg : 4096 * 0 + 256 * 0 + 16 * (c.toNat / 16) + c.toNat % 16
                            = c.toNat := by omega
                        rw [harg, Char.ofNat_toNat]
                      rw [psb_esc_u _ _ _ hu]
                      show parseStringBody (c :: acc) (escString cs ++ '\"' :: rest) = _
                      rw [parseStringBody_esc cs (c :: acc) rest]
                      simp
                    · rw [escChar, if_neg h1, if_neg h2, if_neg h3, if_neg h4,
                        if_neg h5, if_neg h6, if_neg h7, if_neg h8]
                      show parseStringBody acc
                          (c :: (escString cs ++ '\"' :: rest)) = _
                      rw [psb_default _ _ _ h1 h2, parseStringBody_esc cs (c :: acc) rest]
                      simp

theorem parseValue_space (fuel : Nat) (cs : List Char) :
    parseValue fuel (' ' :: cs) = parseValue fuel cs := by
  cases fuel with
  | zero => rfl
  | succ f => simp only [parseValue, dropWsStar_space]

theorem parseElems_space (fuel : Nat) (cs : List Char) :
    parseElems fuel (' ' :: cs) = parseElems fuel cs := by
  cases fuel with
  | zero => rfl
  | succ f => simp only [parseElems, parseValue_space]

theorem parseMembers_space (fuel : Nat) (cs : List Char) :
    parseMembers fuel (' ' :: cs) = parseMembers fuel cs := by
  cases fuel with
  | zero => rfl
  | succ f => simp only [parseMembers, dropWsStar_space]

theorem dump_head_spec (j : JVal) : ∃ c cs, dumpJChars j = c :: cs ∧ isWs c = false
    ∧ ¬c = ']' ∧ ¬c = '\x7d' := by
  cases j with
  | null =>
      refine ⟨'n', _, rfl, ?_, ?_, ?_⟩ <;> decide
  | bool b =>
      cases b with
      | true => refine ⟨'t', _, rfl, ?_, ?_, ?_⟩ <;> decide
      | false => refine ⟨'f', _, rfl, ?_, ?_, ?_⟩ <;> decide
  | num n =>
      by_cases hn : n < 0
      · refine ⟨'-', natToDigits n.natAbs, ?_, ?_, ?_, ?_⟩
        · show intToChars n = _
          rw [intToChars, if_pos hn]
        · decide
        · decide
        · decide
      · obtain ⟨ds, hds, hne, hdig, _⟩ := natToDigitsGo_spec n.toNat []
        have hnd : natToDigits n.toNat = ds := by
          rw [natToDigits, hds, List.append_nil]
        cases ds with
        | nil => exact absurd rfl hne
        | cons d ds' =>
            have hdd : d.isDigit = true := hdig d (List.mem_cons_self d ds')
            refine ⟨d, ds', ?_, isWs_false_of_digit d hdd, ?_, ?_⟩
            · show intToChars n = _
              rw [intToChars, if_neg hn, hnd]
            · intro hc
              rw [hc] at hdd
              exact absurd hdd (by decide)
            · intro hc
              rw [hc] at hdd
              exact absurd hdd (by decide)
  | str s => refine ⟨'\"', _, rfl, ?_, ?_, ?_⟩ <;> decide
  | arr xs =>
      cases xs with
      | nil => refine ⟨'[', _, rfl, ?_, ?_, ?_⟩ <;> decide
      | cons x xs => refine ⟨'[', _, rfl, ?_, ?_, ?_⟩ <;> decide
  | obj kvs =>
      cases kvs with
      | nil => refine ⟨Char.ofNat 123, _, rfl, ?_, ?_, ?_⟩ <;> decide
      | cons kv kvs => refine ⟨Char.ofNat 123, _, rfl, ?_, ?_, ?_⟩ <;> decide

theorem parseValue_digit (fuel : Nat) (d : Char) (X : List Char) (hd : d.isDigit = true) :
    parseValue (fuel + 1) (d :: X)
      = (parseNatDigits (d :: X)).map (fun p => (JVal.num ((p.1 : Nat) : Int), p.2)) := by
  rw [parseValue.eq_def]
  simp only []
  rw [dropWsStar_not_ws _ _ (isWs_false_of_digit d hd)]
  split <;> simp_all

theorem parse_roundtrip : ∀ fuel : Nat,
    (∀ (j : JVal) (rest : List Char), (dumpJChars j).length + 1 ≤ fuel →
      (∀ c, rest.head? = some c → c.isDigit = false) →
      parseValue fuel (dumpJChars j ++ rest) = some (j, rest))
    ∧ (∀ (x : JVal) (xs : List JVal) (rest : List Char),
        (dumpJChars x ++ dumpArrTail xs).length + 2 ≤ fuel →
        parseElems fuel ((dumpJChars x ++ dumpArrTail xs) ++ ']' :: rest)
          = some (x :: xs, rest))
    ∧ (∀ (k : String) (v : JVal) (kvs : List (String × JVal)) (rest : List Char),
        (dumpMember (k, v) ++ dumpObjTail kvs).length + 2 ≤ fuel →
        parseMembers fuel ((dumpMember (k, v) ++ dumpObjTail kvs) ++ '\x7d' :: rest)
          = some ((k, v) :: kvs, rest)) := by
  intro fuel
  induction fuel with
  | zero =>
      refine ⟨fun j rest h _ => absurd h (by omega),
        fun x xs rest h => absurd h (by omega),
        fun k v kvs rest h => absurd h (by omega)⟩
  | succ fuel ih =>
      obtain ⟨ihV, ihE, ihM⟩ := ih
      refine ⟨?_, ?_, ?_⟩
      · intro j rest hlen hrest
        cases j with
        | null => rfl
        | bool b => cases b <;> rfl
        | str s =>
            have hshape : dumpJChars (.str s) ++ rest
                = '\"' :: (escString s.data ++ '\"' :: rest) := by
              show '\"' :: ((escString s.data ++ ['\"']) ++ rest) = _
              simp
            rw [hshape]
            rw [show parseValue (fuel + 1) ('\"' :: (escString s.data ++ '\"' :: rest))
                = (parseStringBody [] (escString s.data ++ '\"' :: rest)).map
                    (fun p => (JVal.str p.1, p.2)) from rfl]
            rw [parseStringBody_esc s.data [] rest]
            rfl
        | num n =>
            by_cases hn : n < 0
            · have hshape : dumpJChars (.num n) ++ rest
                  = '-' :: (natToDigits n.natAbs ++ rest) := by
                show intToChars n ++ rest = _
                rw [intToChars, if_pos hn]
                rfl
              rw [hshape]
              rw [show parseValue (fuel + 1) ('-' :: (natToDigits n.natAbs ++ rest))
                  = (parseNatDigits (natToDigits n.natAbs ++ rest)).map
                      (fun p => (JVal.num (-(p.1 : Int)), p.2)) from rfl]
              rw [parseNatDigits_dump n.natAbs rest hrest]
              have hval : -((n.natAbs : Nat) : Int) = n := by omega
              show some (JVal.num (-((n.natAbs : Nat) : Int)), rest) = some (JVal.num n, rest)
              rw [hval]
            · obtain ⟨ds, hds, hne, hdig, _⟩ := natToDigitsGo_spec n.toNat []
              have hnd : natToDigits n.toNat = ds := by
                rw [natToDigits, hds, List.append_nil]
              have hd : dumpJChars (.num n) = ds := by
                show intToChars n = _
                rw [intToChars, if_neg hn, hnd]
              cases ds with
              | nil => exact absurd rfl hne
              | cons d ds' =>
                  rw [hd]
                  have hstep := parseValue_digit fuel d (ds' ++ rest)
                    (hdig d (List.mem_cons_self d ds'))
                  rw [show (d :: ds') ++ rest = d :: (ds' ++ rest) from rfl, hstep]
                  rw [show d :: (ds' ++ rest) = (d :: ds') ++ rest from rfl, ← hnd,
                    parseNatDigits_dump n.toNat rest hrest]
                  have hval : ((n.toNat : Nat) : Int) = n := by omega
                  show some (JVal.num ((n.toNat : Nat) : Int), rest) = some (JVal.num n, rest)
                  rw [hval]
        | arr xs =>
            cases xs with
            | nil => rfl
            | cons x xs =>
                obtain ⟨c, cs', hcons, hws, hne1, _⟩ := dump_head_spec x
                have hlen2 : (dumpJChars x ++ dumpArrTail xs).length + 2 ≤ fuel := by
                  have : (dumpJChars (.arr (x :: xs))).length
                      = (dumpJChars x ++ dumpArrTail xs).length + 2 := by
                    show ('[' :: ((dumpJChars x ++ dumpArrTail xs) ++ [']'])).length = _
                    simp only [List.length_cons, List.length_append, List.length_singleton, List.length_nil]
                  omega
                have hshape : dumpJChars (.arr (x :: xs)) ++ rest
                    = '[' :: ((dumpJChars x ++ dumpArrTail xs) ++ ']' :: rest) := by
                  show '[' :: (((dumpJChars x ++ dumpArrTail xs) ++ [']']) ++ rest) = _
                  simp
                rw [hshape]
                have hscrut : dropWsStar ((dumpJChars x ++ dumpArrTail xs) ++ ']' :: rest)
                    = (dumpJChars x ++ dumpArrTail xs) ++ ']' :: rest := by
                  rw [hcons]
                  exact dropWsStar_not_ws _ _ hws
                rw [parseValue.eq_def]
                simp only []
                rw [dropWsStar_not_ws _ _ (by decide)]
                simp only [reduceIte]
                rw [hscrut]
                split
                · rename_i rest2 heq
                  exfalso
                  rw [hcons] at heq
                  simp only [List.cons_append] at heq
                  exact hne1 (List.head_eq_of_cons_eq heq)
                · rw [ihE x xs rest hlen2]
                  rfl
        | obj kvs =>
            cases kvs with
            | nil => rfl
            | cons kv kvs =>
                obtain ⟨k, v⟩ := kv
                have hlen2 : (dumpMember (k, v) ++ dumpObjTail kvs).length + 2 ≤ fuel := by
                  have : (dumpJChars (.obj ((k, v) :: kvs))).length
                      = (dumpMember (k, v) ++ dumpObjTail kvs).length + 2 := by
                    show (Char.ofNat 123 :: ((dumpMember (k, v) ++ dumpObjTail kvs)
                      ++ [Char.ofNat 125])).length = _
                    simp only [List.length_cons, List.length_append, List.length_singleton, List.length_nil]
                  omega
                have hshape : dumpJChars (.obj ((k, v) :: kvs)) ++ rest
                    = Char.ofNat 123 :: ((dumpMember (k, v) ++ dumpObjTail kvs)
                        ++ Char.ofNat 125 :: rest) := by
                  show Char.ofNat 123 :: (((dumpMember (k, v) ++ dumpObjTail kvs)
                    ++ [Char.ofNat 125]) ++ rest) = _
                  simp
                rw [hshape]
                have hkhead : dumpMember (k, v) ++ dumpObjTail kvs
                    = '\"' :: ((escString k.data ++ ['\"'])
                        ++ (':' :: ' ' :: dumpJChars v ++ dumpObjTail kvs)) := by
                  show (('\"' :: (escString k.data ++ ['\"']))
                    ++ (':' :: ' ' :: dumpJChars v)) ++ dumpObjTail kvs = _
                  simp
                have hscrut : dropWsStar ((dumpMember (k, v) ++ dumpObjTail kvs)
                    ++ Char.ofNat 125 :: rest)
                    = (dumpMember (k, v) ++ dumpObjTail kvs) ++ Char.ofNat 125 :: rest := by
                  rw [hkhead]
                  exact dropWsStar_not_ws _ _ (by decide)
                rw [parseValue.eq_def]
                simp only []
                rw [dropWsStar_not_ws _ _ (by decide)]
                simp only [reduceIte]
                rw [hscrut]
                split
                · rename_i rest2 heq
                  exfalso
                  rw [hkhead] at heq
                  simp only [List.cons_append] at heq
                  have := List.head_eq_of_cons_eq heq
                  exact absurd this (by decide)
                · rw [ihM k v kvs rest hlen2]
                  rfl
      · intro x xs rest hlen
        have hlenx : (dumpJChars x).length + 1 ≤ fuel := by
          have := List.length_append (dumpJChars x) (dumpArrTail xs)
          omega
        have hguard : ∀ c, (dumpArrTail xs ++ ']' :: rest).head? = some c →
            c.isDigit = false := by
          intro c hc
          cases xs with
          | nil =>
              simp only [show dumpArrTail [] = [] from rfl, List.nil_append,
                List.head?_cons, Option.some.injEq] at hc
              rw [← hc]
              decide
          | cons y ys =>
              simp only [show dumpArrTail (y :: ys)
                  = ',' :: ' ' :: (dumpJChars y ++ dumpArrTail ys) from rfl,
                List.cons_append, List.head?_cons, Option.some.injEq] at hc
              rw [← hc]
              decide
        rw [parseElems.eq_def]
        simp only []
        rw [show (dumpJChars x ++ dumpArrTail xs) ++ ']' :: rest
            = dumpJChars x ++ (dumpArrTail xs ++ ']' :: rest) from by simp]
        rw [ihV x (dumpArrTail xs ++ ']' :: rest) hlenx hguard]
        simp only []
        cases xs with
        | nil =>
            rw [show dumpArrTail [] ++ ']' :: rest = ']' :: rest from rfl]
            rw [dropWsStar_not_ws _ _ (by decide)]
            simp only [reduceIte]
        | cons y ys =>
            have hlen3 : (dumpJChars y ++ dumpArrTail ys).length + 2 ≤ fuel := by
              have h1 := List.length_append (dumpJChars x) (dumpArrTail (y :: ys))
              have h2 : (dumpArrTail (y :: ys)).length
                  = (dumpJChars y ++ dumpArrTail ys).length + 2 := by
                show (',' :: ' ' :: (dumpJChars y ++ dumpArrTail ys)).length = _
                simp only [List.length_cons, List.length_append]
              omega
            rw [show dumpArrTail (y :: ys) ++ ']' :: rest
                = ',' :: (' ' :: ((dumpJChars y ++ dumpArrTail ys) ++ ']' :: rest)) from rfl]
            rw [dropWsStar_not_ws _ _ (by decide)]
            simp only [reduceIte]
            rw [parseElems_space, ihE y ys rest hlen3]
            rfl
      · intro k v kvs rest hlen
        have hlenv : (dumpJChars v).length + 1 ≤ fuel := by
          have h1 := List.length_append (dumpMember (k, v)) (dumpObjTail kvs)
          have h2 : (dumpJChars v).length + 2 ≤ (dumpMember (k, v)).length := by
            show _ ≤ (dumpStrChars k ++ (':' :: ' ' :: dumpJChars v)).length
            rw [List.length_append]
            have : (':' :: ' ' :: dumpJChars v).length = (dumpJChars v).length + 2 := by
              simp only [List.length_cons]
            omega
          omega
        have hguard : ∀ c, (dumpObjTail kvs ++ Char.ofNat 125 :: rest).head? = some c →
            c.isDigit = false := by
          intro c hc
          cases kvs with
          | nil =>
              simp only [show dumpObjTail [] = [] from rfl, List.nil_append,
                List.head?_cons, Option.some.injEq] at hc
              rw [← hc]
              decide
          | cons kv2 kvs2 =>
              simp only [show dumpObjTail (kv2 :: kvs2)
                  = ',' :: ' ' :: (dumpMember kv2 ++ dumpObjTail kvs2) from rfl,
                List.cons_append, List.head?_cons, Option.some.injEq] at hc
              rw [← hc]
              decide
        rw [parseMembers.eq_def]
        simp only []
        have hkhead : (dumpMember (k, v) ++ dumpObjTail kvs) ++ Char.ofNat 125 :: rest
            = '\"' :: (escString k.data ++ '\"' :: (':' :: ' ' :: (dumpJChars v
                ++ (dumpObjTail kvs ++ Char.ofNat 125 :: rest)))) := by
          show ((('\"' :: (escString k.data ++ ['\"'])) ++ (':' :: ' ' :: dumpJChars v))
            ++ dumpObjTail kvs) ++ Char.ofNat 125 :: rest = _
          simp
        rw [hkhead]
        rw [dropWsStar_not_ws _ _ (by decide)]
        simp only [reduceIte]
        rw [parseStringBody_esc k.data []
          (':' :: ' ' :: (dumpJChars v ++ (dumpObjTail kvs ++ Char.ofNat 125 :: rest)))]
        simp only []
        rw [dropWsStar_not_ws _ _ (by decide)]
        simp only [reduceIte]
        rw [parseValue_space, ihV v (dumpObjTail kvs ++ Char.ofNat 125 :: rest) hlenv hguard]
        simp only []
        cases kvs with
        | nil =>
            rw [show dumpObjTail [] ++ Char.ofNat 125 :: rest
                = Char.ofNat 125 :: rest from rfl]
            rw [dropWsStar_not_ws _ _ (by decide)]
            simp only [reduceIte]
            rfl
        | cons kv2 kvs2 =>
            obtain ⟨k2, v2⟩ := kv2
            have hlen3 : (dumpMember (k2, v2) ++ dumpObjTail kvs2).length + 2 ≤ fuel := by
              have h1 := List.length_append (dumpMember (k, v))
                (dumpObjTail ((k2, v2) :: kvs2))
              have h2 : (dumpObjTail ((k2, v2) :: kvs2)).length
                  = (dumpMember (k2, v2) ++ dumpObjTail kvs2).length + 2 := by
                show (',' :: ' ' :: (dumpMember (k2, v2) ++ dumpObjTail kvs2)).length = _
                simp only [List.length_cons, List.length_append]
              omega
            rw [show dumpObjTail ((k2, v2) :: kvs2) ++ Char.ofNat 125 :: rest
                = ',' :: (' ' :: ((dumpMember (k2, v2) ++ dumpObjTail kvs2)
                    ++ Char.ofNat 125 :: rest)) from rfl]
            rw [dropWsStar_not_ws _ _ (by decide)]
            simp only [reduceIte]
            rw [parseMembers_space, ihM k2 v2 kvs2 rest hlen3]
            rfl

theorem jsonDumps_nil : jsonDumps (.arr []) = "[]" := rfl

theorem jsonLoads_dumps (j : JVal) : jsonLoads (jsonDumps j) = some j := by
  obtain ⟨hV, _, _⟩ := parse_roundtrip (2 * (dumpJChars j).length + 2)
  have h := hV j [] (by omega) (fun c hc => Option.noConfusion hc)
  rw [List.append_nil] at h
  simp only [jsonLoads]
  have hdata : (jsonDumps j).data = dumpJChars j := rfl
  rw [hdata, h]
  rfl

/-- C6: in every wide row each child category's JSON column is the
serialization of a list whose length is exactly the count column, the
serialization parses back to that very list, and a subject with no
child rows of the category gets the empty-array string, count zero and
the empty preview. -/
theorem claim_C6 (coreFrags : List (String × List CoreRow))
    (synFrags : List (String × List SynRow)) (patFrags : List (String × List PatRow))
    (meshFrags : List (String × List MeshRow)) (fdaFrags : List (String × List FdaRow)) :
    ∀ w ∈ exportWide coreFrags synFrags patFrags meshFrags fdaFrags,
      (∃ objs : List JVal,
        w.synonyms_json = some (jsonDumps (.arr objs))
        ∧ w.synonyms_n = some objs.length
        ∧ jsonLoads (jsonDumps (.arr objs)) = some (.arr objs)
        ∧ ((readParts synFrags).filter (fun r => decide (r.cid = w.cid)) = [] →
            w.synonyms_json = some "[]" ∧ w.synonyms_n = some 0
              ∧ w.synonyms_preview = some ""))
      ∧ (∃ objs : List JVal,
        w.patent_ids_json = some (jsonDumps (.arr objs))
        ∧ w.patent_ids_n = some objs.length
        ∧ jsonLoads (jsonDumps (.arr objs)) = some (.arr objs)
        ∧ ((readParts patFrags).filter (fun r => decide (r.cid = w.cid)) = [] →
            w.patent_ids_json = some "[]" ∧ w.patent_ids_n = some 0
              ∧ w.patent_ids_preview = some ""))
      ∧ (∃ objs : List JVal,
        w.mesh_classes_json = some (jsonDumps (.arr objs))
        ∧ w.mesh_classes_n = some objs.length
        ∧ jsonLoads (jsonDumps (.arr objs)) = some (.arr objs)
        ∧ ((readParts meshFrags).filter (fun r => decide (r.cid = w.cid)) = [] →
            w.mesh_classes_json = some "[]" ∧ w.mesh_classes_n = some 0
              ∧ w.mesh_classes_preview = some ""))
      ∧ (∃ objs : List JVal,
        w.fda_classes_json = some (jsonDumps (.arr objs))
        ∧ w.fda_classes_n = some objs.length
        ∧ jsonLoads (jsonDumps (.arr objs)) = some (.arr objs)
        ∧ ((readParts fdaFrags).filter (fun r => decide (r.cid = w.cid)) = [] →
            w.fda_classes_json = some "[]" ∧ w.fda_classes_n = some 0
              ∧ w.fda_classes_preview = some "")) := by
  intro w hw
  obtain ⟨_, hmem⟩ := exportWide_mem coreFrags synFrags patFrags meshFrags fdaFrags
  obtain ⟨r, hr, sa, hsa, pa, hpa, ma, hma, fa, hfa, hsc, hpc, hmc, hfc, hweq⟩ := hmem w hw
  obtain ⟨_, hsynAll⟩ := synAgg_spec
    ((dedupByKey (fun r => r.cid) (readParts coreFrags)).map (fun r => r.cid))
    (readParts synFrags)
  obtain ⟨_, hpatAll⟩ := patAgg_spec
    ((dedupByKey (fun r => r.cid) (readParts coreFrags)).map (fun r => r.cid))
    (readParts patFrags)
  obtain ⟨_, hmeshAll⟩ := meshAgg_spec
    ((dedupByKey (fun r => r.cid) (readParts coreFrags)).map (fun r => r.cid))
    (readParts meshFrags)
  obtain ⟨_, hfdaAll⟩ := fdaAgg_spec
    ((dedupByKey (fun r => r.cid) (readParts coreFrags)).map (fun r => r.cid))
    (readParts fdaFrags)
  obtain ⟨sobjs, hsj, hsn, hsprev, hszero⟩ := hsynAll sa hsa
  obtain ⟨pobjs, hpj, hpn, hpprev, hpzero⟩ := hpatAll pa hpa
  obtain ⟨mobjs, hmj, hmn, hmprev, hmzero, _⟩ := hmeshAll ma hma
  obtain ⟨fobjs, hfj, hfn, hfprev, hfzero⟩ := hfdaAll fa hfa
  subst hweq
  refine ⟨⟨sobjs, ?_, ?_, jsonLoads_dumps _, ?_⟩, ⟨pobjs, ?_, ?_, jsonLoads_dumps _, ?_⟩,
    ⟨mobjs, ?_, ?_, jsonLoads_dumps _, ?_⟩, ⟨fobjs, ?_, ?_, jsonLoads_dumps _, ?_⟩⟩
  · show some sa.synonyms_json = some (jsonDumps (.arr sobjs))
    rw [hsj]
  · show some sa.synonyms_n = some sobjs.length
    rw [hsn]
  · intro hfilter
    have hfil2 : (readParts synFrags).filter (fun r2 => decide (r2.cid = sa.cid)) = [] := by
      rw [hsc]
      exact hfilter
    have hobjs := hszero hfil2
    subst hobjs
    refine ⟨?_, ?_, ?_⟩
    · show some sa.synonyms_json = some "[]"
      rw [hsj, jsonDumps_nil]
    · show some sa.synonyms_n = some 0
      rw [hsn]
      rfl
    · show some sa.synonyms_preview = some ""
      rw [hsprev rfl]
  · show some pa.patent_ids_json = some (jsonDumps (.arr pobjs))
    rw [hpj]
  · show some pa.patent_ids_n = some pobjs.length
    rw [hpn]
  · intro hfilter
    have hfil2 : (readParts patFrags).filter (fun r2 => decide (r2.cid = pa.cid)) = [] := by
      rw [hpc]
      exact hfilter
    have hobjs := hpzero hfil2
    subst hobjs
    refine ⟨?_, ?_, ?_⟩
    · show some pa.patent_ids_json = some "[]"
      rw [hpj, jsonDumps_nil]
    · show some pa.patent_ids_n = some 0
      rw [hpn]
      rfl
    · show some pa.patent_ids_preview = some ""
      rw [hpprev rfl]
  · show some ma.mesh_classes_json = some (jsonDumps (.arr mobjs))
    rw [hmj]
  · show some ma.mesh_classes_n = some mobjs.length
    rw [hmn]
  · intro hfilter
    have hfil2 : (readParts meshFrags).filter (fun r2 => decide (r2.cid = ma.cid)) = [] := by
      rw [hmc]
      exact hfilter
    have hobjs := hmzero hfil2
    subst hobjs
    refine ⟨?_, ?_, ?_⟩
    · show some ma.mesh_classes_json = some "[]"
      rw [hmj, jsonDumps_nil]
    · show some ma.mesh_classes_n = some 0
      rw [hmn]
      rfl
    · show some ma.mesh_classes_preview = some ""
      rw [hmprev rfl]
  · show some fa.fda_classes_json = some (jsonDumps (.arr fobjs))
    rw [hfj]
  · show some fa.fda_classes_n = some fobjs.length
    rw [hfn]
  · intro hfilter
    have hfil2 : (readParts fdaFrags).filter (fun r2 => decide (r2.cid = fa.cid)) = [] := by
      rw [hfc]
      exact hfilter
    have hobjs := hfzero hfil2
    subst hobjs
    refine ⟨?_, ?_, ?_⟩
    · show some fa.fda_classes_json = some "[]"
      rw [hfj, jsonDumps_nil]
    · show some fa.fda_classes_n = some 0
      rw [hfn]
      rfl
    · show some fa.fda_classes_preview = some ""
      rw [hfprev rfl]

theorem claim_C6_witness :
    c6W ∈ exportWide [("part-00001", [c6Core])] [] [] [] []
    ∧ ∃ objs : List JVal,
        c6W.synonyms_json = some (jsonDumps (.arr objs))
        ∧ c6W.synonyms_n = some objs.length
        ∧ jsonLoads (jsonDumps (.arr objs)) = some (.arr objs)
        ∧ ((readParts ([] : List (String × List SynRow))).filter
            (fun r => decide (r.cid = c6W.cid)) = [] →
            c6W.synonyms_json = some "[]" ∧ c6W.synonyms_n = some 0
              ∧ c6W.synonyms_preview = some "") :=
  ⟨by decide, (claim_C6 [("part-00001", [c6Core])] [] [] [] [] c6W (by decide)).1⟩
